import Mathlib

/-!
# Verification of obj-simplify

A shallow embedding, in Lean 4, of the core of the `obj-simplify` program:
the OBJ document model (`objectfile/structs.go`), the line parser
(`obj-parser.go`), the duplicate-removal engine (the `Duplicates`
processor), the material merge pass (`Merge` processor) and the
serializer (`Writer`).

Modelling conventions:
* Go `float64` components are modelled by `ℚ`.  Every numeric operation the
  embedded code performs (subtraction, absolute value, comparison with an
  epsilon, squaring) is exact on the rationals, so `ℚ` is a faithful
  idealisation of the float arithmetic for the properties considered here.
* Go pointers from a `Declaration` to a `GeometryValue` are modelled as
  arena handles: a channel is an arena (`List GeometryValue`) that is never
  physically shrunk, and a reference is the 0-based position of the pointed
  value inside that arena.  Go's in-place compaction, which rebuilds the
  visible array while the old values stay reachable through the pointers,
  is modelled by reassigning the `index` fields inside the arena and taking
  the non-discarded sub-list as the visible channel.
* The concurrent scan of `findDuplicates` partitions the index range among
  goroutines, each worker emitting replacers for its own range of `first`
  indexes; the merged result list is then sorted with
  `sort.Sort(replacerByIndex)`.  The model performs the same scan
  sequentially in index order and applies the same sort.
* `logFatal` calls (which terminate the Go process and are documented as
  internal-consistency bugs that no input reaching them) are modelled as
  skips; every theorem that runs through such a branch carries hypotheses
  under which the branch is provably not taken.
-/

set_option maxHeartbeats 1000000
set_option maxRecDepth 100000

namespace ObjSimplify

/-- The Go `objectfile.Type` enumeration (`Type` is a Lean keyword, hence
the name `ObjType`). -/
inductive ObjType where
  | Unkown
  | Comment
  | MtlLib
  | MtlUse
  | ChildGroup
  | ChildObject
  | SmoothingGroup
  | Vertex
  | Normal
  | UV
  | Param
  | Face
  | Line
  | Point
  | Curve
  | Curve2
  | Surface
deriving DecidableEq, Repr

open ObjType

/-- `Type.String()` from `objectfile/structs.go`. -/
def typeString : ObjType → String
  | .Comment => "#"
  | .MtlLib => "mtllib"
  | .MtlUse => "usemtl"
  | .ChildGroup => "g"
  | .ChildObject => "o"
  | .SmoothingGroup => "s"
  | .Vertex => "v"
  | .Normal => "vn"
  | .UV => "vt"
  | .Param => "vp"
  | .Face => "f"
  | .Line => "l"
  | .Point => "p"
  | .Curve => "curv"
  | .Curve2 => "curv2"
  | .Surface => "surf"
  | .Unkown => ""

/-- `Type.Name()` from `objectfile/structs.go`. -/
def typeName : ObjType → String
  | .Vertex => "vertices"
  | .Normal => "normals"
  | .UV => "uvs"
  | .Param => "params"
  | .ChildGroup => "group"
  | .ChildObject => "object"
  | _ => ""

/-- `TypeFromString` from `objectfile/structs.go`. -/
def typeFromString : String → ObjType
  | "#" => .Comment
  | "mtllib" => .MtlLib
  | "usemtl" => .MtlUse
  | "g" => .ChildGroup
  | "o" => .ChildObject
  | "s" => .SmoothingGroup
  | "v" => .Vertex
  | "vn" => .Normal
  | "vt" => .UV
  | "vp" => .Param
  | "f" => .Face
  | "l" => .Line
  | "p" => .Point
  | "curv" => .Curve
  | "curv2" => .Curve2
  | "surf" => .Surface
  | _ => .Unkown

/-- `objectfile.GeometryValue`: one numeric attribute record.  The four
float64 components are modelled by rationals. -/
structure GeometryValue where
  index : Int := 0
  discard : Bool := false
  x : ℚ := 0
  y : ℚ := 0
  z : ℚ := 0
  w : ℚ := 0
deriving DecidableEq, Repr

/-- `GeometryValue.Equals` from `objectfile/structs.go`: componentwise
comparison of all four components against the epsilon. -/
def GeometryValue.Equals (gv other : GeometryValue) (epsilon : ℚ) : Bool :=
  |gv.x - other.x| ≤ epsilon ∧
  |gv.y - other.y| ≤ epsilon ∧
  |gv.z - other.z| ≤ epsilon ∧
  |gv.w - other.w| ≤ epsilon

/-- `GeometryValue.Distance` from `objectfile/structs.go`: squared
Euclidean distance over x, y, z. -/
def GeometryValue.Distance (gv other : GeometryValue) : ℚ :=
  let dx := gv.x - other.x
  let dy := gv.y - other.y
  let dz := gv.z - other.z
  dx * dx + dy * dy + dz * dz

/-- `objectfile.Geometry`: the four attribute channels.  Each channel is
modelled as an arena: values are appended during parsing and are never
physically removed; `Discard` marks a slot as superseded and the visible
channel is the non-discarded sub-list (see `geomView`). -/
structure Geometry where
  vertices : List GeometryValue := []
  normals : List GeometryValue := []
  uvs : List GeometryValue := []
  params : List GeometryValue := []
deriving DecidableEq, Repr

/-- `Geometry.Get` from `objectfile/structs.go`. -/
def geomGet (g : Geometry) : ObjType → List GeometryValue
  | .Vertex => g.vertices
  | .Normal => g.normals
  | .UV => g.uvs
  | .Param => g.params
  | _ => []

/-- `Geometry.Set` from `objectfile/structs.go`. -/
def geomSet (g : Geometry) (t : ObjType) (values : List GeometryValue) : Geometry :=
  match t with
  | .Vertex => { g with vertices := values }
  | .Normal => { g with normals := values }
  | .UV => { g with uvs := values }
  | .Param => { g with params := values }
  | _ => g

/-- `objectfile.GeometryStats` (counts per channel). -/
structure GeometryStats where
  vertices : Int := 0
  normals : Int := 0
  uvs : Int := 0
  params : Int := 0
deriving DecidableEq, Repr

/-- `Geometry.Stats` from `objectfile/structs.go`. -/
def geomStats (g : Geometry) : GeometryStats :=
  { vertices := g.vertices.length
    normals := g.normals.length
    uvs := g.uvs.length
    params := g.params.length }

/-- `GeometryStats.Num` from `objectfile/structs.go`. -/
def statsNum (gs : GeometryStats) : ObjType → Int
  | .Vertex => gs.vertices
  | .UV => gs.uvs
  | .Normal => gs.normals
  | .Param => gs.params
  | _ => 0

/-- Value of a digit sequence, most significant first. -/
def digitsToNat (cs : List Char) : Nat :=
  cs.foldl (fun n c => n * 10 + (c.toNat - '0'.toNat)) 0

/-- `10^n` on the rationals, written with plain multiplication so that it
evaluates by kernel reduction. -/
def tenPow : Nat → ℚ
  | 0 => 1
  | n + 1 => tenPow n * 10

/-- `strconv.ParseFloat(part, 64)` modelled exactly on decimal literals
(optional sign, digits, optional fraction, optional decimal exponent),
returning the exact rational the literal denotes.  The float64 rounding
step, hexadecimal floats and the `Inf`/`NaN` spellings are outside the
scope of the embedded properties. -/
def parseFloatQ (s : String) : Option ℚ :=
  let cs := s.toList
  let (sign, cs) :=
    match cs with
    | '-' :: rest => ((-1 : ℚ), rest)
    | '+' :: rest => ((1 : ℚ), rest)
    | _ => ((1 : ℚ), cs)
  let intDigits := cs.takeWhile Char.isDigit
  let cs := cs.dropWhile Char.isDigit
  let (fracDigits, cs) :=
    match cs with
    | '.' :: rest => (rest.takeWhile Char.isDigit, rest.dropWhile Char.isDigit)
    | _ => (([] : List Char), cs)
  if intDigits.isEmpty ∧ fracDigits.isEmpty then none
  else
    let mantissa : ℚ :=
      (digitsToNat intDigits : ℚ) + (digitsToNat fracDigits : ℚ) / tenPow fracDigits.length
    match cs with
    | [] => some (sign * mantissa)
    | e :: rest =>
      if e = 'e' ∨ e = 'E' then
        let (esign, rest) :=
          match rest with
          | '-' :: r => ((-1 : Int), r)
          | '+' :: r => ((1 : Int), r)
          | _ => ((1 : Int), rest)
        let eDigits := rest.takeWhile Char.isDigit
        let rest := rest.dropWhile Char.isDigit
        if eDigits.isEmpty ∨ ¬ rest.isEmpty then none
        else if esign < 0 then some (sign * mantissa / tenPow (digitsToNat eDigits))
        else some (sign * mantissa * tenPow (digitsToNat eDigits))
      else none

/-- The `-0` normalisation at the top of `Geometry.ReadValue`: the literal
`-0`, or `-0.` followed only by zeros, becomes `0`. -/
def normalizeNegZero (part : String) : String :=
  if part = "-0" then "0"
  else if "-0.".isPrefixOf part ∧ part.dropRightWhile (fun c => c = '0') = "-0." then "0"
  else part

/-- The component loop of `Geometry.ReadValue` (`objectfile/structs.go`):
`i` is the position of `part` in the space-split payload (empty parts are
skipped but still counted), components `0..2` go to x, y, z, component `3`
is rejected in strict mode on non-Vertex channels and otherwise stored in
`w`, and components `4..` are rejected in strict mode and otherwise
dropped. -/
def readValueLoop (t : ObjType) (strict : Bool) (value : String) :
    Nat → List String → GeometryValue → Except String GeometryValue
  | _, [], gv => .ok gv
  | i, part :: rest, gv =>
    if part.length = 0 then readValueLoop t strict value (i + 1) rest gv
    else
      let part := normalizeNegZero part
      match parseFloatQ part with
      | none => .error ("Found invalid number from " ++ value)
      | some num =>
        match i with
        | 0 => readValueLoop t strict value (i + 1) rest { gv with x := num }
        | 1 => readValueLoop t strict value (i + 1) rest { gv with y := num }
        | 2 => readValueLoop t strict value (i + 1) rest { gv with z := num }
        | 3 =>
          if strict ∧ t ≠ ObjType.Vertex then
            .error ("Found invalid fourth component: " ++ typeString t ++ " " ++ value)
          else readValueLoop t strict value (i + 1) rest { gv with w := num }
        | _ + 4 =>
          if strict then
            .error ("Found invalid fifth component: " ++ typeString t ++ " " ++ value)
          else readValueLoop t strict value (i + 1) rest gv

/-- `Geometry.ReadValue` from `objectfile/structs.go`: parse the payload
components (default `w = 1` for Vertex/Point), assign the next 1-based
index for the channel and append the value to the channel. -/
def readValue (g : Geometry) (t : ObjType) (value : String) (strict : Bool) :
    Except String (Geometry × GeometryValue) := do
  let init : GeometryValue :=
    { w := if t = ObjType.Vertex ∨ t = ObjType.Point then 1 else 0 }
  let gv ← readValueLoop t strict value 0 (value.splitOn " ") init
  let gv := { gv with index := (geomGet g t).length + 1 }
  match t with
  | .Vertex => .ok ({ g with vertices := g.vertices ++ [gv] }, gv)
  | .UV => .ok ({ g with uvs := g.uvs ++ [gv] }, gv)
  | .Normal => .ok ({ g with normals := g.normals ++ [gv] }, gv)
  | .Param => .ok ({ g with params := g.params ++ [gv] }, gv)
  | _ => .error ("Unkown geometry value type " ++ typeString t)

/-- `objectfile.Declaration`: one vertex slot of a topology element.  The
three `Ref*` pointers are modelled as 0-based arena positions into the
corresponding channel of the parent `Geometry`. -/
structure Declaration where
  vertex : Int := 0
  uv : Int := 0
  normal : Int := 0
  refVertex : Option Nat := none
  refUV : Option Nat := none
  refNormal : Option Nat := none
deriving DecidableEq, Repr

/-- `Declaration.Index` from `objectfile/structs.go`: the effective index
for a channel is the referenced value's current index when the pointer is
set, else the raw integer field.  A dangling arena position cannot occur in
Go (the pointer is always valid); the model returns 0 there. -/
def declIndex (g : Geometry) (d : Declaration) : ObjType → Int
  | .Vertex =>
    match d.refVertex with
    | some p => match g.vertices.get? p with | some v => v.index | none => 0
    | none => d.vertex
  | .UV =>
    match d.refUV with
    | some p => match g.uvs.get? p with | some v => v.index | none => 0
    | none => d.uv
  | .Normal =>
    match d.refNormal with
    | some p => match g.normals.get? p with | some v => v.index | none => 0
    | none => d.normal
  | _ => 0

/-- `Declaration.Equals` from `objectfile/structs.go`. -/
def declEquals (g : Geometry) (d other : Declaration) : Bool :=
  declIndex g d .Vertex = declIndex g other .Vertex ∧
  declIndex g d .UV = declIndex g other .UV ∧
  declIndex g d .Normal = declIndex g other .Normal

/-- `objectfile.VertexData`: a Face (its non-nil slots `A`–`D` in order) or
a Line/Point (its `Points` list), with attached metadata. -/
structure VertexData where
  vtype : ObjType := ObjType.Unkown
  decls : List Declaration := []
  meta : List (ObjType × String) := []
deriving DecidableEq, Repr

/-- `VertexData.SetMeta` from `objectfile/structs.go`. -/
def setMeta (vd : VertexData) (t : ObjType) (value : String) : VertexData :=
  { vd with meta := (vd.meta.filter (fun p => p.1 ≠ t)) ++ [(t, value)] }

/-- `VertexData.Meta` from `objectfile/structs.go`. -/
def getMeta (vd : VertexData) (t : ObjType) : String :=
  match vd.meta.find? (fun p => p.1 = t) with
  | some p => p.2
  | none => ""

/-- `strconv.Atoi`: an optional sign followed by at least one digit. -/
def atoi (s : String) : Except String Int :=
  let cs := s.toList
  let (sign, ds) :=
    match cs with
    | '-' :: rest => ((-1 : Int), rest)
    | '+' :: rest => ((1 : Int), rest)
    | _ => ((1 : Int), cs)
  if ds.isEmpty ∨ ¬ (ds.all Char.isDigit) then
    .error ("parsing " ++ s ++ ": invalid syntax")
  else .ok (sign * (digitsToNat ds : Int))

/-- The inner subfield loop of `ParseFaceVertexData`: subfields `0..2` are
vertex/uv/normal, later subfields fail in strict mode and are otherwise
ignored (the Go `break` inside the `switch` only leaves the switch).  An
empty subfield contributes the value 0. -/
def parseFaceSubfields (strict : Bool) (str : String) (iMain : Nat) :
    Nat → List String → Declaration → Except String Declaration
  | _, [], d => .ok d
  | iPart, datapart :: rest, d =>
    let parsed : Except String Int :=
      if datapart.length > 0 then atoi datapart else .ok 0
    match parsed with
    | .error e => .error e
    | .ok value =>
      match iPart with
      | 0 => parseFaceSubfields strict str iMain (iPart + 1) rest { d with vertex := value }
      | 1 => parseFaceSubfields strict str iMain (iPart + 1) rest { d with uv := value }
      | 2 => parseFaceSubfields strict str iMain (iPart + 1) rest { d with normal := value }
      | _ + 3 =>
        if strict then
          .error ("Invalid face vertex data index " ++ toString iMain ++ "." ++
            toString iPart ++ " in " ++ str)
        else parseFaceSubfields strict str iMain (iPart + 1) rest d

/-- The main loop of `ParseFaceVertexData`: at most 4 vertex groups (the
slots `A`–`D`); a 5th group fails in strict mode and stops the loop
otherwise. -/
def parseFaceParts (strict : Bool) (str : String) :
    Nat → List String → List Declaration → Except String (List Declaration)
  | _, [], acc => .ok acc
  | iMain, part :: rest, acc =>
    if iMain ≥ 4 then
      if strict then .error ("Invalid face index " ++ toString iMain ++ " in " ++ str)
      else .ok acc
    else
      match parseFaceSubfields strict str iMain 0 (part.splitOn "/") {} with
      | .error e => .error e
      | .ok d => parseFaceParts strict str (iMain + 1) rest (acc ++ [d])

/-- `ParseFaceVertexData` from `objectfile/structs.go`. -/
def parseFaceVertexData (str : String) (strict : Bool) : Except String VertexData :=
  match parseFaceParts strict str 0 (str.splitOn " ") [] with
  | .error e => .error e
  | .ok decls => .ok { vtype := ObjType.Face, decls := decls }

/-- The inner subfield loop of `ParseListVertexData`: empty subfields are
skipped (but still counted), subfield 0 is the vertex, subfield 1 the uv,
later subfields fail in strict mode and are otherwise ignored. -/
def parseListSubfields (strict : Bool) (str : String) (iMain : Nat) :
    Nat → List String → Declaration → Except String Declaration
  | _, [], d => .ok d
  | iPart, datapart :: rest, d =>
    if datapart.length = 0 then parseListSubfields strict str iMain (iPart + 1) rest d
    else
      match atoi datapart with
      | .error e => .error e
      | .ok value =>
        match iPart with
        | 0 => parseListSubfields strict str iMain (iPart + 1) rest { d with vertex := value }
        | 1 => parseListSubfields strict str iMain (iPart + 1) rest { d with uv := value }
        | _ + 2 =>
          if strict then
            .error ("Invalid face vertex data index " ++ toString iMain ++ "." ++
              toString iPart ++ " in " ++ str)
          else parseListSubfields strict str iMain (iPart + 1) rest d

/-- The main loop of `ParseListVertexData`: one declaration per
space-separated part, appended to `Points`. -/
def parseListParts (strict : Bool) (str : String) :
    Nat → List String → List Declaration → Except String (List Declaration)
  | _, [], acc => .ok acc
  | iMain, part :: rest, acc =>
    match parseListSubfields strict str iMain 0 (part.splitOn "/") {} with
    | .error e => .error e
    | .ok d => parseListParts strict str (iMain + 1) rest (acc ++ [d])

/-- `ParseListVertexData` from `objectfile/structs.go`. -/
def parseListVertexData (t : ObjType) (str : String) (strict : Bool) :
    Except String VertexData :=
  if t ≠ ObjType.Line ∧ t ≠ ObjType.Point then
    .error ("ParseListVertexData supports face and point type, given: " ++ typeString t)
  else
    match parseListParts strict str 0 (str.splitOn " ") [] with
    | .error e => .error e
    | .ok decls => .ok { vtype := t, decls := decls }

/-- `objectfile.Object`: a SubMesh.  The Go `parent` back-pointer is passed
explicitly to `readVertexData` instead of being stored. -/
structure Object where
  otype : ObjType := ObjType.Unkown
  name : String := ""
  material : String := ""
  vertexData : List VertexData := []
  comments : List String := []
deriving DecidableEq, Repr

/-- The negative-to-absolute index conversion of `Object.ReadVertexData`:
a negative index is relative to the end of the geometry declared so far. -/
def convAbs (i count : Int) : Int :=
  if i < 0 then i + count + 1 else i

/-- The Vertex block of the resolution loop in `Object.ReadVertexData`:
a non-zero negative index is converted with `index + count + 1`, the
result is bounds-checked against the count declared so far, the reference
is resolved to the value at that position and its stored index is checked
to match. -/
def resolveVertexRef (g : Geometry) (stats : GeometryStats) (d : Declaration) :
    Except String Declaration :=
  if d.vertex = 0 then .ok d
  else
    if convAbs d.vertex stats.vertices ≤ 0 ∨ convAbs d.vertex stats.vertices > stats.vertices then
      .error ("vertex index " ++ toString (convAbs d.vertex stats.vertices) ++
        " out of bounds, " ++ toString stats.vertices ++ " declared so far")
    else
      match g.vertices.get? (convAbs d.vertex stats.vertices - 1).toNat with
      | none => .error "internal: vertex reference out of range"
      | some gv =>
        if gv.index ≠ convAbs d.vertex stats.vertices then
          .error ("vertex index " ++ toString (convAbs d.vertex stats.vertices) ++
            " does not match with referenced geometry value")
        else .ok { d with vertex := convAbs d.vertex stats.vertices,
                          refVertex := some (convAbs d.vertex stats.vertices - 1).toNat }

/-- The UV block of the resolution loop in `Object.ReadVertexData`. -/
def resolveUVRef (g : Geometry) (stats : GeometryStats) (d : Declaration) :
    Except String Declaration :=
  if d.uv = 0 then .ok d
  else
    if convAbs d.uv stats.uvs ≤ 0 ∨ convAbs d.uv stats.uvs > stats.uvs then
      .error ("uv index " ++ toString (convAbs d.uv stats.uvs) ++
        " out of bounds, " ++ toString stats.uvs ++ " declared so far")
    else
      match g.uvs.get? (convAbs d.uv stats.uvs - 1).toNat with
      | none => .error "internal: uv reference out of range"
      | some gv =>
        if gv.index ≠ convAbs d.uv stats.uvs then
          .error ("uv index " ++ toString (convAbs d.uv stats.uvs) ++
            " does not match with referenced geometry value")
        else .ok { d with uv := convAbs d.uv stats.uvs,
                          refUV := some (convAbs d.uv stats.uvs - 1).toNat }

/-- The Normal block of the resolution loop in `Object.ReadVertexData`. -/
def resolveNormalRef (g : Geometry) (stats : GeometryStats) (d : Declaration) :
    Except String Declaration :=
  if d.normal = 0 then .ok d
  else
    if convAbs d.normal stats.normals ≤ 0 ∨ convAbs d.normal stats.normals > stats.normals then
      .error ("normal index " ++ toString (convAbs d.normal stats.normals) ++
        " out of bounds, " ++ toString stats.normals ++ " declared so far")
    else
      match g.normals.get? (convAbs d.normal stats.normals - 1).toNat with
      | none => .error "internal: normal reference out of range"
      | some gv =>
        if gv.index ≠ convAbs d.normal stats.normals then
          .error ("normal index " ++ toString (convAbs d.normal stats.normals) ++
            " does not match with referenced geometry value")
        else .ok { d with normal := convAbs d.normal stats.normals,
                          refNormal := some (convAbs d.normal stats.normals - 1).toNat }

/-- One iteration of the resolution loop of `Object.ReadVertexData`. -/
def resolveDecl (g : Geometry) (stats : GeometryStats) (d : Declaration) :
    Except String Declaration :=
  match resolveVertexRef g stats d with
  | .error e => .error e
  | .ok d =>
    match resolveUVRef g stats d with
    | .error e => .error e
    | .ok d => resolveNormalRef g stats d

/-- The resolution loop of `Object.ReadVertexData` over all declarations
of the freshly parsed element. -/
def resolveDecls (g : Geometry) (stats : GeometryStats) :
    List Declaration → List Declaration → Except String (List Declaration)
  | [], acc => .ok acc
  | d :: rest, acc =>
    match resolveDecl g stats d with
    | .error e => .error e
    | .ok d => resolveDecls g stats rest (acc ++ [d])

/-- The parse dispatch at the top of `Object.ReadVertexData`. -/
def readVertexDataParsed (t : ObjType) (value : String) (strict : Bool) :
    Except String VertexData :=
  match t with
  | .Face => parseFaceVertexData value strict
  | .Line => parseListVertexData t value strict
  | .Point => parseListVertexData t value strict
  | _ => .error ("Unsupported vertex data declaration " ++ typeString t ++ " " ++ value)

/-- `Object.ReadVertexData` from `objectfile/structs.go`: parse the
payload; with no parent return the element without appending it; otherwise
resolve every declaration (with early error return) and only then append
the element to the object's `VertexData`.  The returned object is the
state of the receiver after the call. -/
def readVertexData (o : Object) (parent : Option Geometry) (t : ObjType) (value : String)
    (strict : Bool) : Object × Except String VertexData :=
  match readVertexDataParsed t value strict with
  | .error e => (o, .error e)
  | .ok vt =>
    match parent with
    | none => (o, .ok vt)
    | some g =>
      let stats := geomStats g
      match resolveDecls g stats vt.decls [] with
      | .error e => (o, .error e)
      | .ok ds =>
        let vt := { vt with decls := ds }
        ({ o with vertexData := o.vertexData ++ [vt] }, .ok vt)

/-- `objectfile.OBJ`: the document root. -/
structure OBJ where
  geometry : Geometry := {}
  materialLibraries : List String := []
  objects : List Object := []
  comments : List String := []
deriving DecidableEq, Repr

/-- `OBJ.ObjectWithType` from `objectfile/structs.go`. -/
def objectWithType (o : OBJ) (t : ObjType) : List Object :=
  o.objects.filter (fun child => child.otype = t)

/-- `OBJ.CreateObject` from `objectfile/structs.go`: appends a new object
with auto-naming `{kind}_{n}` when no name is given.  For an invalid kind
the Go function logs and returns nil without appending (any later use of
the returned object would crash); the model returns the document unchanged
and `none`. -/
def createObject (o : OBJ) (t : ObjType) (name material : String) : OBJ × Option Object :=
  if t ≠ ObjType.ChildObject ∧ t ≠ ObjType.ChildGroup then (o, none)
  else
    let childName :=
      if name = "" then typeName t ++ "_" ++ toString ((objectWithType o t).length + 1)
      else name
    let child : Object := { otype := t, name := childName, material := material }
    ({ o with objects := o.objects ++ [child] }, some child)

/-- Replace the object at a position (the model of mutating through the
`currentObject` pointer). -/
def modifyObjectAt (o : OBJ) (i : Nat) (f : Object → Object) : OBJ :=
  match o.objects.get? i with
  | some child => { o with objects := o.objects.set i (f child) }
  | none => o

/-- `strings.TrimSpace` on the space-like characters Go considers. -/
def isSpaceChar (c : Char) : Bool :=
  c = ' ' ∨ c = '\t' ∨ c = '\n' ∨ c = '\r' ∨ c = '\x0b' ∨ c = '\x0c'

/-- `strings.TrimSpace`, written structurally on the character list. -/
def trimSpace (s : String) : String :=
  ⟨((s.toList.dropWhile isSpaceChar).reverse.dropWhile isSpaceChar).reverse⟩

/-- `parseLineType` from `obj-parser.go`: split at the first space; the
keyword selects the line type, the trimmed remainder is the value. -/
def parseLineType (str : String) : ObjType × String :=
  match str.splitOn " " with
  | [] => (typeFromString str, "")
  | [k] => (typeFromString k, "")
  | k :: rest => (typeFromString k, trimSpace (String.intercalate " " rest))

/-- Modelled from the spec: `strContainsAny(value, tokens, caseInsensitive)`
lives in a utility file that is not part of the provided sources; §4.2
says a SubMesh comment is dropped when its text contains one of the stale
summary tokens, case-insensitively. -/
def strContainsAnyCI (value : String) (tokens : List String) : Bool :=
  tokens.any (fun tok => ((value.toLower).splitOn (tok.toLower)).length != 1)

/-- The stale-summary token list from `obj-parser.go`. -/
def staleCommentTokens : List String :=
  ["vertices", "normals", "uvs", "texture coords", "polygons", "triangles"]

/-- Set metadata on the most recently appended element (the Go code holds
a pointer to it). -/
def setMetaOnLast : List VertexData → ObjType → String → List VertexData
  | [], _, _ => []
  | [vd], t, v => [setMeta vd t v]
  | vd :: rest, t, v => vd :: setMetaOnLast rest t v

/-- The parser state of `parse` in `obj-parser.go`.  The Go `currentObject`
pointer is the position of the current object inside `dest.objects`;
`ObjectsParsed`/`GroupsParsed` are the global counters. -/
structure ParserState where
  dest : OBJ := {}
  currentIdx : Option Nat := none
  currentObjectName : String := ""
  currentObjectChildIndex : Nat := 0
  currentMaterial : String := ""
  currentSmoothGroup : String := ""
  objectsParsed : Nat := 0
  groupsParsed : Nat := 0
deriving DecidableEq, Repr

/-- The Face/Line/Point branch of the dispatch in `parse`: create the
implicit object when none exists, read the element into the current
object and attach a pending smoothing group to it. -/
def parseVertexDataLine (strict : Bool) (inputBasename : String) (st : ParserState)
    (t : ObjType) (value : String) : Except String ParserState :=
  let st :=
    if st.currentIdx = none then
      let (dest, _) := createObject st.dest ObjType.ChildObject inputBasename
        st.currentMaterial
      { st with dest := dest, currentIdx := some st.dest.objects.length }
    else st
  match st.currentIdx with
  | some i =>
    match st.dest.objects.get? i with
    | some cur =>
      match readVertexData cur (some st.dest.geometry) t value strict with
      | (_, .error e) => .error e
      | (cur2, .ok _) =>
        let cur3 :=
          if st.currentSmoothGroup.length > 0 then
            { cur2 with vertexData :=
              setMetaOnLast cur2.vertexData ObjType.SmoothingGroup st.currentSmoothGroup }
          else cur2
        .ok { st with
          dest := modifyObjectAt st.dest i (fun _ => cur3),
          currentSmoothGroup :=
            if st.currentSmoothGroup.length > 0 then "" else st.currentSmoothGroup }
    | none => .error "internal: current object out of range"
  | none => .error "internal: no current object"

/-- One iteration of the line loop of `parse` (`obj-parser.go`): trim the
line, skip it when empty, classify it and dispatch.  `inputBasename`
stands for the external `fileBasename(StartParams.Input)` helper (its
source file is not part of the provided sources). -/
def parseLine (strict : Bool) (inputBasename : String) (st : ParserState) (line : String) :
    Except String ParserState :=
  let line := trimSpace line
  if line.length = 0 then .ok st
  else
    match parseLineType line with
    | (ObjType.Comment, value) =>
      if st.currentIdx = none ∧ st.dest.materialLibraries.length = 0 then
        .ok { st with dest := { st.dest with comments := st.dest.comments ++ [value] } }
      else
        match st.currentIdx with
        | some i =>
          if value.length > 0 ∧ strContainsAnyCI value staleCommentTokens = false then
            .ok { st with dest :=
              (modifyObjectAt st.dest i
                (fun c => { c with comments := c.comments ++ [value] })) }
          else .ok st
        | none => .ok st
    | (ObjType.MtlLib, value) =>
      .ok { st with dest :=
        { st.dest with materialLibraries := st.dest.materialLibraries ++ [value] } }
    | (ObjType.Vertex, value) =>
      match readValue st.dest.geometry ObjType.Vertex value strict with
      | .error e => .error e
      | .ok (g, _) => .ok { st with dest := { st.dest with geometry := g } }
    | (ObjType.Normal, value) =>
      match readValue st.dest.geometry ObjType.Normal value strict with
      | .error e => .error e
      | .ok (g, _) => .ok { st with dest := { st.dest with geometry := g } }
    | (ObjType.UV, value) =>
      match readValue st.dest.geometry ObjType.UV value strict with
      | .error e => .error e
      | .ok (g, _) => .ok { st with dest := { st.dest with geometry := g } }
    | (ObjType.Param, value) =>
      match readValue st.dest.geometry ObjType.Param value strict with
      | .error e => .error e
      | .ok (g, _) => .ok { st with dest := { st.dest with geometry := g } }
    | (ObjType.ChildObject, value) =>
      let (dest0, _) := createObject st.dest ObjType.ChildObject value st.currentMaterial
      .ok { st with
        dest := dest0,
        currentObjectName := value,
        currentObjectChildIndex := 0,
        currentIdx := some st.dest.objects.length,
        objectsParsed := st.objectsParsed + 1 }
    | (ObjType.ChildGroup, value) =>
      let (dest0, _) := createObject st.dest ObjType.ChildGroup value st.currentMaterial
      .ok { st with
        dest := dest0,
        currentObjectName := value,
        currentObjectChildIndex := 0,
        currentIdx := some st.dest.objects.length,
        groupsParsed := st.groupsParsed + 1 }
    | (ObjType.MtlUse, value) =>
      let st :=
        match st.currentIdx with
        | some i =>
          match st.dest.objects.get? i with
          | some cur =>
            if cur.vertexData.length > 0 ∧ cur.material ≠ value then
              let name := st.currentObjectName ++ "_" ++
                toString (st.currentObjectChildIndex + 1)
              match createObject st.dest cur.otype name value with
              | (dest0, some _) =>
                { st with
                  dest := dest0,
                  currentObjectChildIndex := st.currentObjectChildIndex + 1,
                  currentIdx := some st.dest.objects.length }
              | (dest0, none) =>
                { st with
                  dest := dest0,
                  currentObjectChildIndex := st.currentObjectChildIndex + 1,
                  currentIdx := none }
            else st
          | none => st
        | none => st
      let st := { st with currentMaterial := value }
      match st.currentIdx with
      | some i =>
        .ok { st with dest := modifyObjectAt st.dest i (fun c => { c with material := value }) }
      | none => .ok st
    | (ObjType.SmoothingGroup, value) =>
      .ok { st with currentSmoothGroup := value }
    | (ObjType.Face, value) => parseVertexDataLine strict inputBasename st ObjType.Face value
    | (ObjType.Line, value) => parseVertexDataLine strict inputBasename st ObjType.Line value
    | (ObjType.Point, value) => parseVertexDataLine strict inputBasename st ObjType.Point value
    | (_, _) => .error ("Unsupported line " ++ line)

/-- The line loop of `parse` (`obj-parser.go`): empty lines are skipped
but still numbered; errors are wrapped with the 1-based line number. -/
def parseLines (strict : Bool) (inputBasename : String) :
    List String → Nat → ParserState → Except String ParserState
  | [], _, st => .ok st
  | line :: rest, linenum, st =>
    match parseLine strict inputBasename st line with
    | .error e => .error ("line:" ++ toString (linenum + 1) ++ " " ++ e)
    | .ok st => parseLines strict inputBasename rest (linenum + 1) st

/-- `parse` from `obj-parser.go` over a list of input lines. -/
def parse (strict : Bool) (inputBasename : String) (lines : List String) :
    Except String OBJ :=
  match parseLines strict inputBasename lines 0 {} with
  | .error e => .error e
  | .ok st => .ok st.dest

/-- The per-material accumulator of `Merge.Execute` (`merger` in the
source). -/
structure Merger where
  material : String
  objects : List Object
deriving DecidableEq, Repr

/-- The grouping loop body of `Merge.Execute` (README.md): append the
child to the first merger with the same material, else start a new merger
at the end (first-seen material order). -/
def addToMergers : List Merger → Object → List Merger
  | [], child => [{ material := child.material, objects := [child] }]
  | m :: rest, child =>
    if m.material = child.material then
      { m with objects := m.objects ++ [child] } :: rest
    else m :: addToMergers rest child

/-- `strings.Join(parts, " ")`. -/
def joinSpace : List String → String
  | [] => ""
  | [a] => a
  | a :: b :: rest => a ++ " " ++ joinSpace (b :: rest)

/-- `mergeName` from `Merge.Execute`: join the non-empty source names with
a space, defaulting to `Unnamed`. -/
def mergeName (objects : List Object) : String :=
  if ((objects.filter (fun c => c.name.length > 0)).map (fun c => c.name)).isEmpty then
    "Unnamed"
  else joinSpace ((objects.filter (fun c => c.name.length > 0)).map (fun c => c.name))

/-- Modify the most recently appended object (the Go code keeps the
pointer returned by `CreateObject` and appends topology to it). -/
def modifyLastObject (o : OBJ) (f : Object → Object) : OBJ :=
  match o.objects.getLast? with
  | some last => { o with objects := o.objects.dropLast ++ [f last] }
  | none => o

/-- The emit loop body of `Merge.Execute`: create the consolidated SubMesh
for one material group and append all members' topology elements to it.
A parsed group's first member always has a valid kind; for an invalid
kind `CreateObject` returns nil and the Go code would crash on the nil
pointer, the model skips the append. -/
def mergeStep (acc : OBJ) (m : Merger) : OBJ :=
  match m.objects with
  | [] => acc
  | src :: _ =>
    match createObject acc src.otype (mergeName m.objects) m.material with
    | (acc2, some _) =>
      modifyLastObject acc2 (fun c =>
        { c with vertexData := m.objects.foldl (fun vd o => vd ++ o.vertexData) c.vertexData })
    | (acc2, none) => acc2

/-- `Merge.Execute` (README.md): group the SubMeshes that declare topology
by material in first-seen order, reset the document's SubMesh list, then
emit one consolidated SubMesh per group. -/
def mergeExecute (obj : OBJ) : OBJ :=
  let materials := obj.objects.foldl
    (fun ms child => if child.vertexData.length = 0 then ms else addToMergers ms child) []
  materials.foldl mergeStep { obj with objects := [] }

/-- First occurrences of a list of material names, in order. -/
def dedupFirstSeen (l : List String) : List String :=
  l.foldl (fun acc m => if m ∈ acc then acc else acc ++ [m]) []

/-- The material groups the spec describes: SubMeshes with at least one
topology element, grouped by material in first-seen order. -/
def groupedBy (children : List Object) : List Merger :=
  let nonempty := children.filter (fun c => c.vertexData.length ≠ 0)
  (dedupFirstSeen (nonempty.map (fun c => c.material))).map (fun mat =>
    { material := mat, objects := nonempty.filter (fun c => c.material = mat) })

/-- The consolidated SubMesh the spec describes for one group: kind of the
group's first member, joined name, the group's material, and the members'
topology elements concatenated in order. -/
def buildOne (m : Merger) : Object :=
  { otype := (m.objects.headD {}).otype, name := mergeName m.objects,
    material := m.material,
    vertexData := m.objects.foldl (fun vd o => vd ++ o.vertexData) [] }

/-- C7's spec-side merge pass, following the spec's words: one SubMesh per
distinct material among the SubMeshes with topology, in first-seen
material order; SubMeshes without topology are dropped. -/
def mergeSpecObjects (children : List Object) : List Object :=
  (groupedBy children).map buildOne

/-- `replacer`: a representative geometry value and the values it
replaces.  The Go `replaces` map (keyed by value index) is modelled as a
list keyed by the `index` field; `replacesSlice`/`replacesDirty` are a
cached iteration of the same map and need no separate model. -/
structure Replacer where
  ref : GeometryValue
  replaces : List GeometryValue := []
deriving DecidableEq, Repr

/-- `replacer.Index`. -/
def rIndex (r : Replacer) : Int := r.ref.index

/-- `replacer.IsEmpty`. -/
def rIsEmpty (r : Replacer) : Bool := r.replaces.isEmpty

/-- `replacer.NumReplaces`. -/
def rNumReplaces (r : Replacer) : Nat := r.replaces.length

/-- `replacer.Remove`: delete the entry with the given index. -/
def rRemove (r : Replacer) (index : Int) : Replacer :=
  { r with replaces := r.replaces.filter (fun v => v.index ≠ index) }

/-- `replacer.Hit`: record a value as absorbed — never the representative
itself; a map overwrite replaces the entry with the same index. -/
def rHit (r : Replacer) (ref : GeometryValue) : Replacer :=
  if ref.index = r.ref.index then r
  else { r with replaces := r.replaces.filter (fun v => v.index ≠ ref.index) ++ [ref] }

/-- `replacer.Hits`. -/
def rHits (r : Replacer) (index : Int) : Bool :=
  r.replaces.any (fun v => v.index = index)

/-- The loop of `replacer.Merge`: iterate the snapshot of
`other.Replaces()` while both replacers are updated in place. -/
def rMergeLoop (epsilon : ℚ) :
    List GeometryValue → Replacer → Replacer → Replacer × Replacer
  | [], r, other => (r, other)
  | value :: rest, r, other =>
    if value.index = r.ref.index then
      rMergeLoop epsilon rest r (rRemove other r.ref.index)
    else if rHits r value.index then
      rMergeLoop epsilon rest r (rRemove other value.index)
    else if r.ref.Equals value epsilon then
      rMergeLoop epsilon rest (rHit r value) (rRemove other value.index)
    else
      rMergeLoop epsilon rest r other

/-- `replacer.Merge`: fold `other` into `r`; a hit moves only when `r`
already absorbed it or it equals `r`'s value within epsilon.  When `other`
is not completely merged, `other`'s own index is rejected from `r`'s hit
list.  Returns both updated replacers and whether the merge completed. -/
def rMerge (epsilon : ℚ) (r other : Replacer) : Replacer × Replacer × Bool :=
  let p := rMergeLoop epsilon other.replaces r other
  if rIsEmpty p.2 then (p.1, p.2, true)
  else (rRemove p.1 (rIndex other), p.2, false)

/-- The scan of `findDuplicates` for each `first` index: absorb every
later value within epsilon; only non-empty replacers are collected.  The
concurrent partition into worker ranges with a shared collector and the
later `sort.Sort(replacerByIndex)` are modelled by this sequential
in-order scan — the two coincide when the slice indices are strictly
increasing, which holds for every parsed channel. -/
def scanPass (epsilon : ℚ) : List GeometryValue → List Replacer
  | [] => []
  | v :: rest =>
    let r := rest.foldl (fun r other =>
      if other.Equals r.ref epsilon then rHit r other else r) { ref := v }
    if rIsEmpty r then scanPass epsilon rest
    else r :: scanPass epsilon rest

/-- The inner loop of the sequential merge pass (1st run) of
`findDuplicates`, with `r` playing `r1`: empty replacers are skipped, a
pair of replacers with the same index is an internal-consistency
`logFatal` (modelled as a skip — unreachable when the indices are
distinct), and when `r1` absorbed `r2`'s own index the two are merged. -/
def mergeOne (epsilon : ℚ) : Replacer → List Replacer → Replacer × List Replacer
  | r, [] => (r, [])
  | r, s :: ss =>
    if rIsEmpty s then
      let p := mergeOne epsilon r ss
      (p.1, s :: p.2)
    else if rIndex r = rIndex s then
      let p := mergeOne epsilon r ss
      (p.1, s :: p.2)
    else if rHits r (rIndex s) then
      let q := rMerge epsilon r s
      let p := mergeOne epsilon q.1 ss
      (p.1, q.2.1 :: p.2)
    else
      let p := mergeOne epsilon r ss
      (p.1, s :: p.2)

/-- The outer loop of the merge pass of `findDuplicates`, with explicit
fuel (the list length never changes, so the fuel never runs out). -/
def mergePassAux (epsilon : ℚ) : Nat → List Replacer → List Replacer
  | 0, l => l
  | _ + 1, [] => []
  | fuel + 1, r :: rest =>
    if rIsEmpty r then r :: mergePassAux epsilon fuel rest
    else
      let p := mergeOne epsilon r rest
      p.1 :: mergePassAux epsilon fuel p.2

/-- The outer loop of the merge pass of `findDuplicates`. -/
def mergePass (epsilon : ℚ) (l : List Replacer) : List Replacer :=
  mergePassAux epsilon l.length l

/-- The loop of `deduplicate`: every hit shared by `r1` and `r2` is kept
only in the replacer whose representative is at smaller squared
distance. -/
def dedupLoop : List GeometryValue → Replacer → Replacer → Replacer × Replacer
  | [], r1, r2 => (r1, r2)
  | value :: rest, r1, r2 =>
    if rHits r1 value.index then
      if r1.ref.Distance value < r2.ref.Distance value then
        dedupLoop rest r1 (rRemove r2 value.index)
      else
        dedupLoop rest (rRemove r1 value.index) r2
    else dedupLoop rest r1 r2

/-- `deduplicate` over the snapshot of `r2.Replaces()`. -/
def dedupPair (r1 r2 : Replacer) : Replacer × Replacer :=
  dedupLoop r2.replaces r1 r2

/-- The inner loop of the deduplicate pass (2nd run) of
`findDuplicates`. -/
def dedupOne : Replacer → List Replacer → Replacer × List Replacer
  | r1, [] => (r1, [])
  | r1, s :: ss =>
    if rIsEmpty s then
      let p := dedupOne r1 ss
      (p.1, s :: p.2)
    else
      let q := dedupPair r1 s
      let p := dedupOne q.1 ss
      (p.1, q.2 :: p.2)

/-- The outer loop of the deduplicate pass of `findDuplicates`, with
explicit fuel (the list length never changes). -/
def dedupPassAux : Nat → List Replacer → List Replacer
  | 0, l => l
  | _ + 1, [] => []
  | fuel + 1, r :: rest =>
    if rIsEmpty r then r :: dedupPassAux fuel rest
    else
      let p := dedupOne r rest
      p.1 :: dedupPassAux fuel p.2

/-- The outer loop of the deduplicate pass of `findDuplicates`. -/
def dedupPass (l : List Replacer) : List Replacer :=
  dedupPassAux l.length l

/-- `findDuplicates` for one channel: scan, merge pass, deduplicate pass,
then gather the non-empty results. -/
def findDuplicates (epsilon : ℚ) (slice : List GeometryValue) : List Replacer :=
  let results := scanPass epsilon slice
  if results.isEmpty then []
  else
    let results := mergePass epsilon results
    let results := dedupPass results
    results.filter (fun r => ¬ rIsEmpty r)

/-- `replacerList.FlattenGeometry`: the flat index-to-canonical map as an
association list (a later write overwrites an earlier entry with the same
index, matching the Go map assignment). -/
def flattenGeometry (rl : List Replacer) : List (Int × GeometryValue) :=
  rl.foldl (fun out r =>
    r.replaces.foldl
      (fun out v => out.filter (fun p => p.1 ≠ v.index) ++ [(v.index, r.ref)]) out) []

/-- Lookup in the flat map. -/
def lookupFlat (m : List (Int × GeometryValue)) (i : Int) : Option GeometryValue :=
  (m.find? (fun p => p.1 = i)).map (fun p => p.2)

/-- Set the discard flag of the arena slot a declaration points to
(`decl.RefVertex.Discard = true`).  A missing pointer or a dangling
position cannot occur after parsing; the model leaves the arena
unchanged there. -/
def discardAt (arena : List GeometryValue) : Option Nat → List GeometryValue
  | none => arena
  | some p =>
    match arena.get? p with
    | some v => arena.set p { v with discard := true }
    | none => arena

/-- One declaration step of `replaceDuplicates` for channel `t`: when the
raw index is a key of the flat map, mark the currently referenced value
discarded and repoint the reference to the canonical value, whose arena
position is `index - 1` by the parse invariant (the Go code stores the
pointer directly).  Channels other than v/vt/vn — in particular `vp` —
have no case in the Go switch and are untouched. -/
def replaceDecl (t : ObjType) (m : List (Int × GeometryValue))
    (arena : List GeometryValue) (d : Declaration) : List GeometryValue × Declaration :=
  match t with
  | .Vertex =>
    match lookupFlat m d.vertex with
    | some ref =>
      (discardAt arena d.refVertex, { d with refVertex := some (ref.index - 1).toNat })
    | none => (arena, d)
  | .UV =>
    match lookupFlat m d.uv with
    | some ref =>
      (discardAt arena d.refUV, { d with refUV := some (ref.index - 1).toNat })
    | none => (arena, d)
  | .Normal =>
    match lookupFlat m d.normal with
    | some ref =>
      (discardAt arena d.refNormal, { d with refNormal := some (ref.index - 1).toNat })
    | none => (arena, d)
  | _ => (arena, d)

/-- `replaceDuplicates` over the declarations of one element. -/
def replaceDecls (t : ObjType) (m : List (Int × GeometryValue)) :
    List GeometryValue → List Declaration → List GeometryValue × List Declaration
  | arena, [] => (arena, [])
  | arena, d :: ds =>
    let p := replaceDecl t m arena d
    let q := replaceDecls t m p.1 ds
    (q.1, p.2 :: q.2)

/-- `replaceDuplicates` over the elements of one object.  A non-Face
element is `logFatal` in Go ("Unsupported vertex data type for replacing
duplicates"); the model skips it — the pipeline completes only on
Face-only documents. -/
def replaceVDs (t : ObjType) (m : List (Int × GeometryValue)) :
    List GeometryValue → List VertexData → List GeometryValue × List VertexData
  | arena, [] => (arena, [])
  | arena, vd :: vds =>
    if vd.vtype = ObjType.Face then
      let p := replaceDecls t m arena vd.decls
      let q := replaceVDs t m p.1 vds
      (q.1, { vd with decls := p.2 } :: q.2)
    else
      let q := replaceVDs t m arena vds
      (q.1, vd :: q.2)

/-- `replaceDuplicates` over all objects. -/
def replaceObjs (t : ObjType) (m : List (Int × GeometryValue)) :
    List GeometryValue → List Object → List GeometryValue × List Object
  | arena, [] => (arena, [])
  | arena, o :: os =>
    let p := replaceVDs t m arena o.vertexData
    let q := replaceObjs t m p.1 os
    (q.1, { o with vertexData := p.2 } :: q.2)

/-- `replaceDuplicates` from the Duplicates processor: flatten the
replacer results into the index-to-canonical map and walk every
declaration, discarding replaced values and repointing references. -/
def replaceDuplicates (t : ObjType) (obj : OBJ) (replacements : List Replacer) : OBJ :=
  let m := flattenGeometry replacements
  let p := replaceObjs t m (geomGet obj.geometry t) obj.objects
  { obj with geometry := geomSet obj.geometry t p.1, objects := p.2 }

/-- The compaction loop of `Duplicates.Execute` (`n` is `len(dest)` so
far): non-discarded values are reindexed 1..N in place; discarded values
keep their stale index and stay reachable only through old pointers. -/
def compactArenaAux : Nat → List GeometryValue → List GeometryValue
  | _, [] => []
  | n, gv :: rest =>
    if gv.discard then gv :: compactArenaAux n rest
    else { gv with index := (n : Int) + 1 } :: compactArenaAux (n + 1) rest

/-- The compaction of one channel.  The visible channel array after
compaction (Go's `dest` slice) is the non-discarded sub-list
(`geomView`). -/
def compactArena (src : List GeometryValue) : List GeometryValue :=
  compactArenaAux 0 src

/-- The visible channel array: the non-discarded values in arena order. -/
def geomView (g : Geometry) (t : ObjType) : List GeometryValue :=
  (geomGet g t).filter (fun v => !v.discard)

/-- The channel order of both loops of `Duplicates.Execute`. -/
def fourTypes : List ObjType :=
  [ObjType.Vertex, ObjType.Normal, ObjType.UV, ObjType.Param]

/-- One step of the duplicate-search loop of `Duplicates.Execute`: an
empty channel is skipped. -/
def dupStep (epsilon : ℚ) (obj : OBJ) (t : ObjType) : OBJ :=
  let slice := geomGet obj.geometry t
  if slice.isEmpty then obj
  else replaceDuplicates t obj (findDuplicates epsilon slice)

/-- One step of the rewrite-geometry loop of `Duplicates.Execute`. -/
def compactStep (obj : OBJ) (t : ObjType) : OBJ :=
  { obj with geometry := geomSet obj.geometry t (compactArena (geomGet obj.geometry t)) }

/-- `Duplicates.Execute`: per channel, find duplicates and rewrite the
references (the four channels are scanned concurrently over disjoint
state in Go and sequentially here), then compact every channel. -/
def duplicatesExecute (epsilon : ℚ) (obj : OBJ) : OBJ :=
  fourTypes.foldl compactStep (fourTypes.foldl (dupStep epsilon) obj)

/-- The raw channel index of a declaration (`decl.Vertex` etc.); channels
other than v/vt/vn have no declaration field. -/
def rawOf (d : Declaration) : ObjType → Int
  | .Vertex => d.vertex
  | .UV => d.uv
  | .Normal => d.normal
  | _ => 0

/-- The channel reference of a declaration (`decl.RefVertex` etc.). -/
def refOf (d : Declaration) : ObjType → Option Nat
  | .Vertex => d.refVertex
  | .UV => d.refUV
  | .Normal => d.refNormal
  | _ => none

/-- The parse invariant on one channel arena: the value stored at position
`p` has index `p + 1` and is not discarded. -/
def DenseArena (A : List GeometryValue) : Prop :=
  ∀ p : Fin A.length, (A.get p).index = (p : Int) + 1 ∧ (A.get p).discard = false

instance : DecidablePred DenseArena := by
  intro A
  unfold DenseArena
  infer_instance

/-- The parse invariant on one channel of one declaration: a zero raw
index has no reference, a non-zero raw index is within the channel count
and the reference points at the arena slot holding it. -/
def ChannelOK (A : List GeometryValue) (raw : Int) (ref : Option Nat) : Prop :=
  (raw = 0 → ref = none) ∧
  (raw ≠ 0 → 1 ≤ raw ∧ raw ≤ (A.length : Int) ∧ ref = some (raw - 1).toNat)

instance (A : List GeometryValue) (raw : Int) (ref : Option Nat) :
    Decidable (ChannelOK A raw ref) := by
  unfold ChannelOK
  infer_instance

/-- Invariant of the flat index-to-canonical map over a channel arena:
keys are valid indices and a canonical value's own index is never a
key. -/
def GoodMap (A : List GeometryValue) (m : List (Int × GeometryValue)) : Prop :=
  ∀ k c, lookupFlat m k = some c →
    1 ≤ k ∧ lookupFlat m c.index = none ∧ 1 ≤ c.index ∧ c.index ≤ (A.length : Int)

/-- Evolution of a channel arena during `replaceDuplicates`: positions are
unchanged except that slots whose value's index is a key of the flat map
may be marked discarded. -/
def Marked (m : List (Int × GeometryValue)) (A B : List GeometryValue) : Prop :=
  B.length = A.length ∧ ∀ p : Nat, B.get? p = A.get? p ∨
    ∃ v, A.get? p = some v ∧ B.get? p = some { v with discard := true } ∧
      lookupFlat m v.index ≠ none

/-- Evolution of one declaration on the processed channel `t`: a non-zero
raw index ends up referring to an arena slot whose index is not a key (so
it is never discarded); the raw fields and the other channels' references
are untouched. -/
def DStep (m : List (Int × GeometryValue)) (A : List GeometryValue) (t : ObjType)
    (d d2 : Declaration) : Prop :=
  (rawOf d2 t ≠ 0 → ∃ q : Nat, refOf d2 t = some q ∧ q < A.length ∧
    lookupFlat m ((q : Int) + 1) = none) ∧
  rawOf d2 t = rawOf d t ∧
  ∀ t2, t2 ≠ t → rawOf d2 t2 = rawOf d t2 ∧ refOf d2 t2 = refOf d t2

def VStep (m : List (Int × GeometryValue)) (A : List GeometryValue) (t : ObjType)
    (vd vd2 : VertexData) : Prop :=
  vd2.vtype = vd.vtype ∧ List.Forall₂ (DStep m A t) vd.decls vd2.decls

def OStep (m : List (Int × GeometryValue)) (A : List GeometryValue) (t : ObjType)
    (o o2 : Object) : Prop :=
  List.Forall₂ (VStep m A t) o.vertexData o2.vertexData

/-- Input invariant of one channel of the document. -/
def PreCh (o : OBJ) (t : ObjType) : Prop :=
  DenseArena (geomGet o.geometry t) ∧
  ∀ obj ∈ o.objects, ∀ vd ∈ obj.vertexData, ∀ d ∈ vd.decls,
    ChannelOK (geomGet o.geometry t) (rawOf d t) (refOf d t)

/-- After the rewrite of channel `t`: every non-zero reference points at a
live (non-discarded) arena slot that still holds its original index. -/
def SafeCh (o : OBJ) (t : ObjType) : Prop :=
  ∀ obj ∈ o.objects, ∀ vd ∈ obj.vertexData, ∀ d ∈ vd.decls,
    rawOf d t ≠ 0 → ∃ (q : Nat) (v : GeometryValue), refOf d t = some q ∧
      (geomGet o.geometry t).get? q = some v ∧ v.discard = false ∧
      v.index = (q : Int) + 1

/-- Only Face elements (the pipeline aborts on any other topology kind in
`replaceDuplicates`). -/
def FaceOnly (o : OBJ) : Prop :=
  ∀ obj ∈ o.objects, ∀ vd ∈ obj.vertexData, vd.vtype = ObjType.Face

instance (o : OBJ) (t : ObjType) : Decidable (PreCh o t) := by
  unfold PreCh
  infer_instance

instance (o : OBJ) : Decidable (FaceOnly o) := by
  unfold FaceOnly
  infer_instance

/-- `ApplicationName` from `main.go`. -/
def applicationName : String := "obj-simplify"

/-- `ApplicationURL` from `main.go`. -/
def applicationURL : String := "https://github.com/jonnenauha/" ++ applicationName

/-- Build-time `Version` (ldflags; empty in a dev build). -/
def buildVersion : String := ""

/-- `getVersion(false)` from `main.go`. -/
def getVersionNoDate : String :=
  if buildVersion = "" then "dev" else "v" ++ buildVersion

/-- Left-pad with zeros to the given width. -/
def padZeros (s : String) (w : Nat) : String :=
  String.mk (List.replicate (w - s.length) '0') ++ s

/-- Strip trailing zero digits. -/
def trimZeros (s : String) : String :=
  String.mk ((s.toList.reverse.dropWhile (fun c => c = '0')).reverse)

/-- Model of `strconv.FormatFloat(f, 'g', -1, 64)` on the decimal
rationals the parser produces: exact decimal notation (no exponent form),
with the numerator-slash-denominator fallback for denominators that divide
no small power of ten.  Any fixed total function works for the
determinism analysis; this one agrees with Go on plain decimals. -/
def formatFloatG (q : ℚ) : String :=
  let sign := if q < 0 then "-" else ""
  let n := q.num.natAbs
  let d := q.den
  match (List.range 61).find? (fun e => (10 ^ e) % d = 0) with
  | some e =>
    if e = 0 then sign ++ toString (n / d)
    else
      let scaled := n * ((10 ^ e) / d)
      let ip := scaled / 10 ^ e
      let fs := trimZeros (padZeros (toString (scaled % 10 ^ e)) e)
      if fs = "" then sign ++ toString ip else sign ++ toString ip ++ "." ++ fs
  | none => sign ++ toString n ++ "/" ++ toString d

/-- `equals` from `objectfile/structs.go` (epsilon comparison used by the
serializer). -/
def goEquals (a b eps : ℚ) : Bool := |a - b| ≤ eps

/-- `GeometryValue.String` from `objectfile/structs.go`: x/y for vt, x/y/z
otherwise, appending w for v/p only when it differs from 1 by more than
1e-10. -/
def gvString (gv : GeometryValue) (t : ObjType) : String :=
  let out := match t with
    | ObjType.UV => formatFloatG gv.x ++ " " ++ formatFloatG gv.y
    | _ => formatFloatG gv.x ++ " " ++ formatFloatG gv.y ++ " " ++ formatFloatG gv.z
  match t with
  | ObjType.Vertex | ObjType.Point =>
    if goEquals gv.w 1 (1/10000000000) then out else out ++ " " ++ formatFloatG gv.w
  | _ => out

/-- One Face declaration of `VertexData.String`: `v[/vt][/vn]` with empty
slots left blank. -/
def faceDeclString (g : Geometry) (hasUVs hasNormals : Bool) (d : Declaration) : String :=
  let out := toString (declIndex g d ObjType.Vertex)
  let out := if hasUVs || hasNormals then
      out ++ "/" ++ (if declIndex g d ObjType.UV ≠ 0 then
        toString (declIndex g d ObjType.UV) else "")
    else out
  if hasNormals then
    out ++ "/" ++ (if declIndex g d ObjType.Normal ≠ 0 then
      toString (declIndex g d ObjType.Normal) else "")
  else out

/-- One Line/Point declaration of `VertexData.String`. -/
def pointDeclString (g : Geometry) (hasUVs : Bool) (d : Declaration) : String :=
  toString (declIndex g d ObjType.Vertex) ++
  (if hasUVs then
    "/" ++ (if declIndex g d ObjType.UV ≠ 0 then toString (declIndex g d ObjType.UV) else "")
   else "")

/-- The Line/Point loop of `VertexData.String`: consecutive duplicate
points are dropped. -/
def pointsDedup (g : Geometry) : Option Declaration → List Declaration → List Declaration
  | _, [] => []
  | none, d :: ds => d :: pointsDedup g (some d) ds
  | some p, d :: ds =>
    if declEquals g p d then pointsDedup g (some p) ds
    else d :: pointsDedup g (some d) ds

/-- `VertexData.String` from `objectfile/structs.go`. -/
def vdString (g : Geometry) (vd : VertexData) : String :=
  match vd.vtype with
  | ObjType.Line | ObjType.Point =>
    let hasUVs := vd.vtype = ObjType.Line ∧
      vd.decls.any (fun d => declIndex g d ObjType.UV ≠ 0)
    String.intercalate " "
      ((pointsDedup g none vd.decls).map (pointDeclString g hasUVs))
  | ObjType.Face =>
    let hasUVs := vd.decls.any (fun d => declIndex g d ObjType.UV ≠ 0)
    let hasNormals := vd.decls.any (fun d => declIndex g d ObjType.Normal ≠ 0)
    String.intercalate " " (vd.decls.map (faceDeclString g hasUVs hasNormals))
  | _ => ""

/-- One `writeLine` chunk of `Writer.WriteTo`: `fmt.Fprintf("%s %s\n", t, value)`. -/
def writeLineS (t : ObjType) (value : String) : String :=
  typeString t ++ " " ++ value ++ "\n"

/-- `writeLines` of `Writer.WriteTo` (second generation): the trailing
blank line is only written when something was written. -/
def writeLinesS (t : ObjType) (values : List String) (newline : Bool) : List String :=
  values.map (fun v => writeLineS t v) ++
  (if newline ∧ values.length > 0 then ["\n"] else [])

/-- `writeComments` of `Writer.WriteTo`: strip empty lines from both ends,
keep interior blanks. -/
def writeCommentsS (t : ObjType) (values : List String) (newline : Bool) : List String :=
  if values.isEmpty then []
  else
    writeLinesS t
      (((values.dropWhile (fun s => s = "")).reverse.dropWhile (fun s => s = "")).reverse)
      newline

/-- One geometry channel of `Writer.WriteTo` (`ti` is the loop index). -/
def writeChannelS (g : Geometry) (ti : Nat) (t : ObjType) : List String :=
  let slice := geomGet g t
  if slice.isEmpty then []
  else
    (if ti > 0 then ["\n"] else []) ++
    [writeLineS ObjType.Comment (typeName t ++ " [" ++ toString slice.length ++ "]"), "\n"] ++
    slice.map (fun v => writeLineS t (gvString v t))

/-- One child object of `Writer.WriteTo`. -/
def writeObjectS (g : Geometry) (child : Object) : List String :=
  writeCommentsS ObjType.Comment child.comments true ++
  [writeLineS child.otype child.name] ++
  (if child.material.length > 0 then [writeLineS ObjType.MtlUse child.material] else []) ++
  ["\n"] ++
  (child.vertexData.map (fun vd =>
    (if (getMeta vd ObjType.SmoothingGroup).length > 0 then
        [writeLineS ObjType.SmoothingGroup (getMeta vd ObjType.SmoothingGroup)] else []) ++
    [writeLineS vd.vtype (vdString g vd)])).join ++
  ["\n"]

/-- `Writer.WriteTo` (second generation, gzip disabled): the stream of
written chunks.  `ts` is the formatted `time.Now().UTC()` reading — an
input of the run, made explicit. -/
def writeTo (obj : OBJ) (ts : String) : List String :=
  [writeLineS ObjType.Comment
    ("Processed with " ++ applicationName ++ " " ++ getVersionNoDate ++ " | " ++ ts ++
      " | " ++ applicationURL), "\n"] ++
  writeCommentsS ObjType.Comment obj.comments true ++
  writeLinesS ObjType.MtlLib obj.materialLibraries true ++
  writeChannelS obj.geometry 0 ObjType.Vertex ++
  writeChannelS obj.geometry 1 ObjType.Normal ++
  writeChannelS obj.geometry 2 ObjType.UV ++
  writeChannelS obj.geometry 3 ObjType.Param ++
  ["\n"] ++
  [writeLineS ObjType.Comment ("objects [" ++ toString obj.objects.length ++ "]"), "\n"] ++
  (obj.objects.map (writeObjectS obj.geometry)).join

/-- C8 counterexample document: the empty document. -/
def c8Doc : OBJ := {}

/-- The property C4 claims of one channel of the finished document: the
visible channel is densely indexed `1..N`, and every declaration with a
non-zero raw index references a live value whose stored index matches its
position in the visible channel. -/
def FinalCh (o : OBJ) (t : ObjType) : Prop :=
  (∀ (i : Nat) (v : GeometryValue), (geomView o.geometry t).get? i = some v →
    v.index = (i : Int) + 1) ∧
  ∀ obj ∈ o.objects, ∀ vd ∈ obj.vertexData, ∀ d ∈ vd.decls,
    rawOf d t ≠ 0 → ∃ (q : Nat) (v : GeometryValue) (k : Nat),
      refOf d t = some q ∧ (geomGet o.geometry t).get? q = some v ∧
      v.discard = false ∧ declIndex o.geometry d t = v.index ∧
      (geomView o.geometry t).get? k = some v ∧ v.index = (k : Int) + 1

/-- C2 helper: the componentwise predicate the spec states. -/
def withinEpsilon (a b : GeometryValue) (epsilon : ℚ) : Prop :=
  |a.x - b.x| ≤ epsilon ∧ |a.y - b.y| ≤ epsilon ∧
  |a.z - b.z| ≤ epsilon ∧ |a.w - b.w| ≤ epsilon

instance : DecidablePred fun p : GeometryValue × GeometryValue × ℚ =>
    withinEpsilon p.1 p.2.1 p.2.2 := by
  intro p
  unfold withinEpsilon
  infer_instance

instance {ε α : Type _} [DecidableEq ε] [DecidableEq α] : DecidableEq (Except ε α) :=
  fun x y =>
    match x, y with
    | .ok a, .ok b => if h : a = b then .isTrue (by simp [h]) else .isFalse (by simp [h])
    | .error a, .error b => if h : a = b then .isTrue (by simp [h]) else .isFalse (by simp [h])
    | .ok _, .error _ => .isFalse (by simp)
    | .error _, .ok _ => .isFalse (by simp)

/-- A payload part is readable when it is nonempty and parses as a number
after `-0` normalisation. -/
def readablePart (p : String) : Prop :=
  p.length ≠ 0 ∧ (parseFloatQ (normalizeNegZero p)).isSome = true

instance : DecidablePred readablePart := by
  intro p
  unfold readablePart
  infer_instance

/-- A channel with ten declared Positions (indices 1..10), used by the
concrete negative-index scenario. -/
def tenVertices : Geometry :=
  { vertices := (List.range 10).map (fun i => { index := (i : Int) + 1, x := (i : ℚ) }) }

/-- A declaration is fully resolved: every non-zero channel field carries
an arena reference to a value whose stored index matches the field. -/
def declResolved (g : Geometry) (d : Declaration) : Prop :=
  (d.vertex ≠ 0 → 0 < d.vertex ∧
    ∃ gv, g.vertices.get? (d.vertex - 1).toNat = some gv ∧ gv.index = d.vertex ∧
      d.refVertex = some (d.vertex - 1).toNat) ∧
  (d.uv ≠ 0 → 0 < d.uv ∧
    ∃ gv, g.uvs.get? (d.uv - 1).toNat = some gv ∧ gv.index = d.uv ∧
      d.refUV = some (d.uv - 1).toNat) ∧
  (d.normal ≠ 0 → 0 < d.normal ∧
    ∃ gv, g.normals.get? (d.normal - 1).toNat = some gv ∧ gv.index = d.normal ∧
      d.refNormal = some (d.normal - 1).toNat)

/-- The input of the C6 scenario: `o A`, faces under `usemtl m1`, then
faces under `usemtl m2` with no intervening `o`/`g`. -/
def multiMaterialLines : List String :=
  ["v 0 0 0", "v 1 0 0", "v 0 1 0", "o A", "usemtl m1", "f 1 2 3", "usemtl m2", "f 1 2 3"]

/-- The current SubMesh of the C6 step witness: kind `o`, name `A`,
material `m1`, one face. -/
def mmObjA : Object :=
  { otype := ObjType.ChildObject, name := "A", material := "m1",
    vertexData := [{ vtype := ObjType.Face }] }

/-- The parser state of the C6 step witness before the `usemtl m2` line. -/
def mmStateBefore : ParserState :=
  { dest := { objects := [mmObjA] }, currentIdx := some 0, currentObjectName := "A",
    currentObjectChildIndex := 0, currentMaterial := "m1" }

/-- The synthetic sibling the C6 step witness expects. -/
def mmObjA1 : Object :=
  { otype := ObjType.ChildObject, name := "A_1", material := "m2" }

/-- The parser state the C6 step witness expects after the `usemtl m2`
line. -/
def mmStateAfter : ParserState :=
  { dest := { objects := [mmObjA, mmObjA1] }, currentIdx := some 1,
    currentObjectName := "A", currentObjectChildIndex := 1, currentMaterial := "m2" }

/-- The concrete document of the C7 scenario: two SubMeshes with material
`glass` and topology, one empty `glass` SubMesh, one other material. -/
def glassDoc : OBJ :=
  { objects :=
      [{ otype := ObjType.ChildObject, name := "G1", material := "glass",
         vertexData := [{ vtype := ObjType.Face }] },
       { otype := ObjType.ChildObject, name := "E", material := "glass" },
       { otype := ObjType.ChildGroup, name := "G2", material := "glass",
         vertexData := [{ vtype := ObjType.Face }] },
       { otype := ObjType.ChildObject, name := "Other", material := "m2",
         vertexData := [{ vtype := ObjType.Face }] }] }

/-- Every absorbed member is within epsilon of its representative. -/
def InvEq (epsilon : ℚ) (r : Replacer) : Prop :=
  ∀ v ∈ r.replaces, r.ref.Equals v epsilon = true

/-- Every absorbed member has a strictly larger index than its
representative. -/
def InvGt (r : Replacer) : Prop :=
  ∀ v ∈ r.replaces, r.ref.index < v.index

/-- Evolution of one replacer by a shrink-only pass: same representative,
members only removed. -/
def Shrinks (a b : Replacer) : Prop :=
  b.ref = a.ref ∧ ∀ w ∈ b.replaces, w ∈ a.replaces

/-- Evolution of one replacer by the merge pass: same representative, and
an empty replacer stays empty. -/
def KeepsEmpty (a b : Replacer) : Prop :=
  b.ref = a.ref ∧ (rIsEmpty a = true → rIsEmpty b = true)

/-- C3 counterexample data: B at index 1, A at index 2, C at index 3 with
`A ≈ B`, `B ≈ C`, `A ̸≈ C` for ε = 1. -/
def c3B : GeometryValue := { index := 1, x := 1 }

def c3A : GeometryValue := { index := 2, x := 0 }

def c3C : GeometryValue := { index := 3, x := 2 }

/-- The group the engine produces on `[B, A, C]`. -/
def c3Group : Replacer := { ref := c3B, replaces := [c3A, c3C] }

/-- C1 scenario data: the parsed Position channel
`[(0,0,0), (1e-7,0,0), (5,5,5)]` (parsed positions carry `w = 1`), one
face referencing all three. -/
def c1V1 : GeometryValue := { index := 1, w := 1 }

def c1V2 : GeometryValue := { index := 2, x := 1/10000000, w := 1 }

def c1V3 : GeometryValue := { index := 3, x := 5, y := 5, z := 5, w := 1 }

def c1Face : VertexData :=
  { vtype := ObjType.Face, decls := [
    { vertex := 1, refVertex := some 0 },
    { vertex := 2, refVertex := some 1 },
    { vertex := 3, refVertex := some 2 }] }

def c1Obj : Object :=
  { otype := ObjType.ChildObject, name := "o", vertexData := [c1Face] }

def dupDoc : OBJ :=
  { geometry := { vertices := [c1V1, c1V2, c1V3] }, objects := [c1Obj] }

def c1Out : OBJ := duplicatesExecute (1/1000000) dupDoc

/-- The two survivors the scenario expects after compaction. -/
def c1SurvA : GeometryValue := { index := 1, w := 1 }

def c1SurvB : GeometryValue := { index := 2, x := 5, y := 5, z := 5, w := 1 }

/-- The duplicate group of the scenario: `(0,0,0)` absorbs the value at
index 2. -/
def c1GroupA : Replacer := { ref := c1V1, replaces := [c1V2] }

/-- C1 counterexample data: the chain `[(0,0,0), (1,0,0), (2,0,0)]` with
ε = 1 — consecutive values are within ε but the ends are not. -/
def chV1 : GeometryValue := { index := 1, w := 1 }

def chV2 : GeometryValue := { index := 2, x := 1, w := 1 }

def chV3 : GeometryValue := { index := 3, x := 2, w := 1 }

def chFace : VertexData :=
  { vtype := ObjType.Face, decls := [
    { vertex := 1, refVertex := some 0 },
    { vertex := 2, refVertex := some 1 },
    { vertex := 3, refVertex := some 2 }] }

def chObj : Object :=
  { otype := ObjType.ChildObject, name := "o", vertexData := [chFace] }

def chainDoc : OBJ :=
  { geometry := { vertices := [chV1, chV2, chV3] }, objects := [chObj] }

def chOut : OBJ := duplicatesExecute 1 chainDoc

/-- C4 witness document: two coincident positions (a duplicate pair), one
uv, one normal, one face using all channels. -/
def c4V1 : GeometryValue := { index := 1, w := 1 }

def c4V2 : GeometryValue := { index := 2, w := 1 }

def c4UV1 : GeometryValue := { index := 1, x := 1/2, y := 1/2 }

def c4N1 : GeometryValue := { index := 1, z := 1 }

def c4Face : VertexData :=
  { vtype := ObjType.Face, decls := [
    { vertex := 1, uv := 1, normal := 1, refVertex := some 0, refUV := some 0,
      refNormal := some 0 },
    { vertex := 2, uv := 1, normal := 1, refVertex := some 1, refUV := some 0,
      refNormal := some 0 }] }

def c4Obj : Object :=
  { otype := ObjType.ChildObject, name := "c", vertexData := [c4Face] }

def c4Doc : OBJ :=
  { geometry := { vertices := [c4V1, c4V2], normals := [c4N1], uvs := [c4UV1] },
    objects := [c4Obj] }

end ObjSimplify

namespace ObjSimplify

/-- **C2**: two `GeometryValue`s are treated as duplicates iff each of the
four componentwise absolute differences is at most the configured epsilon
(componentwise, not Euclidean): `Equals` holds exactly on the componentwise
condition, a pair differing only by `Δz = 1.5·ε > ε` in the z component is
never merged, and `Distance` (the tie-break measure) is the squared
Euclidean distance `Δx² + Δy² + Δz²`. -/
theorem duplicates_equality_componentwise (a b : GeometryValue) (epsilon : ℚ)
    (hε : 0 < epsilon) :
    (a.Equals b epsilon = true ↔ withinEpsilon a b epsilon) ∧
    (a.x = b.x → a.y = b.y → a.w = b.w → |a.z - b.z| = 3 / 2 * epsilon →
      a.Equals b epsilon = false) ∧
    a.Distance b = (a.x - b.x) * (a.x - b.x) + (a.y - b.y) * (a.y - b.y) +
      (a.z - b.z) * (a.z - b.z) := by
  refine ⟨?_, ?_, rfl⟩
  · simp [GeometryValue.Equals, withinEpsilon]
  · intro hx hy hw hz
    have hlt : ¬ (|a.z - b.z| ≤ epsilon) := by
      rw [hz]
      nlinarith
    simp [GeometryValue.Equals, hlt]

section ReadValueLemmas

theorem readValueLoop_step_x (t : ObjType) (strict : Bool) (value : String)
    (p : String) (rest : List String) (gv : GeometryValue) (num : ℚ)
    (hp : p.length ≠ 0) (hnum : parseFloatQ (normalizeNegZero p) = some num) :
    readValueLoop t strict value 0 (p :: rest) gv =
      readValueLoop t strict value 1 rest { gv with x := num } := by
  simp [readValueLoop, hp, hnum]

theorem readValueLoop_step_y (t : ObjType) (strict : Bool) (value : String)
    (p : String) (rest : List String) (gv : GeometryValue) (num : ℚ)
    (hp : p.length ≠ 0) (hnum : parseFloatQ (normalizeNegZero p) = some num) :
    readValueLoop t strict value 1 (p :: rest) gv =
      readValueLoop t strict value 2 rest { gv with y := num } := by
  simp [readValueLoop, hp, hnum]

theorem readValueLoop_step_z (t : ObjType) (strict : Bool) (value : String)
    (p : String) (rest : List String) (gv : GeometryValue) (num : ℚ)
    (hp : p.length ≠ 0) (hnum : parseFloatQ (normalizeNegZero p) = some num) :
    readValueLoop t strict value 2 (p :: rest) gv =
      readValueLoop t strict value 3 rest { gv with z := num } := by
  simp [readValueLoop, hp, hnum]

theorem readValueLoop_step_w (t : ObjType) (strict : Bool) (value : String)
    (p : String) (rest : List String) (gv : GeometryValue) (num : ℚ)
    (hp : p.length ≠ 0) (hnum : parseFloatQ (normalizeNegZero p) = some num) :
    readValueLoop t strict value 3 (p :: rest) gv =
      if strict ∧ t ≠ ObjType.Vertex then
        .error ("Found invalid fourth component: " ++ typeString t ++ " " ++ value)
      else readValueLoop t strict value 4 rest { gv with w := num } := by
  simp [readValueLoop, hp, hnum]

theorem readValueLoop_step_overflow (t : ObjType) (strict : Bool) (value : String)
    (i : Nat) (p : String) (rest : List String) (gv : GeometryValue) (num : ℚ)
    (hi : 4 ≤ i) (hp : p.length ≠ 0) (hnum : parseFloatQ (normalizeNegZero p) = some num) :
    readValueLoop t strict value i (p :: rest) gv =
      if strict then
        .error ("Found invalid fifth component: " ++ typeString t ++ " " ++ value)
      else readValueLoop t strict value (i + 1) rest gv := by
  obtain ⟨j, rfl⟩ : ∃ j, i = j + 4 := ⟨i - 4, by omega⟩
  simp [readValueLoop, hp, hnum]

/-- In non-strict mode, parts at positions 4 and later are skipped without
changing the value being built. -/
theorem readValueLoop_drops_tail (t : ObjType) (value : String) :
    ∀ (parts : List String) (i : Nat) (gv : GeometryValue), 4 ≤ i →
      (∀ p ∈ parts, readablePart p) →
      readValueLoop t false value i parts gv = .ok gv := by
  intro parts
  induction parts with
  | nil => intro i gv _ _; rfl
  | cons p rest ih =>
    intro i gv hi H
    obtain ⟨hp, hnum⟩ := H p (by simp)
    obtain ⟨num, hnum⟩ := Option.isSome_iff_exists.mp hnum
    rw [readValueLoop_step_overflow t false value i p rest gv num hi hp hnum]
    simpa using ih (i + 1) gv (by omega) (fun q hq => H q (by simp [hq]))

/-- In non-strict mode the loop never fails on readable parts. -/
theorem readValueLoop_isOk (t : ObjType) (value : String) :
    ∀ (parts : List String) (i : Nat) (gv : GeometryValue),
      (∀ p ∈ parts, readablePart p) →
      (readValueLoop t false value i parts gv).isOk = true := by
  intro parts
  induction parts with
  | nil => intro i gv _; rfl
  | cons p rest ih =>
    intro i gv H
    obtain ⟨hp, hnum⟩ := H p (by simp)
    obtain ⟨num, hnum⟩ := Option.isSome_iff_exists.mp hnum
    have Hrest : ∀ q ∈ rest, readablePart q := fun q hq => H q (by simp [hq])
    match i with
    | 0 => rw [readValueLoop_step_x t false value p rest gv num hp hnum]; exact ih 1 _ Hrest
    | 1 => rw [readValueLoop_step_y t false value p rest gv num hp hnum]; exact ih 2 _ Hrest
    | 2 => rw [readValueLoop_step_z t false value p rest gv num hp hnum]; exact ih 3 _ Hrest
    | 3 =>
      rw [readValueLoop_step_w t false value p rest gv num hp hnum]
      simpa using ih 4 _ Hrest
    | j + 4 =>
      rw [readValueLoop_step_overflow t false value (j + 4) p rest gv num (by omega) hp hnum]
      simpa using ih (j + 5) _ Hrest

end ReadValueLemmas

/-- **C9 (amended)**: on a numeric geometry line, strict mode rejects a 4th
component on any non-Position channel and any 5th-or-later component on
every channel, and non-strict mode never errors and silently drops the 5th
and later components; however, a 4th component on a non-Position channel is
not dropped in non-strict mode: it is stored into the value's `w`
component. -/
theorem strict_component_overflow (t : ObjType) (value : String)
    (gv : GeometryValue) (parts : List String)
    (H : ∀ p ∈ parts, readablePart p) :
    (t ≠ ObjType.Vertex → 4 ≤ parts.length →
      readValueLoop t true value 0 parts gv =
        .error ("Found invalid fourth component: " ++ typeString t ++ " " ++ value)) ∧
    (5 ≤ parts.length →
      readValueLoop ObjType.Vertex true value 0 parts gv =
        .error ("Found invalid fifth component: v " ++ value)) ∧
    ((readValueLoop t false value 0 parts gv).isOk = true) ∧
    (readValueLoop t false value 0 parts gv =
      readValueLoop t false value 0 (parts.take 4) gv) ∧
    (∀ p0 p1 p2 p3 rest, parts = p0 :: p1 :: p2 :: p3 :: rest →
      ∃ num gv', parseFloatQ (normalizeNegZero p3) = some num ∧
        readValueLoop t false value 0 parts gv = .ok gv' ∧ gv'.w = num) := by
  refine ⟨?_, ?_, readValueLoop_isOk t value parts 0 gv H, ?_, ?_⟩
  · intro ht hlen
    match parts, hlen with
    | p0 :: p1 :: p2 :: p3 :: rest, _ =>
      obtain ⟨hp0, num0, hnum0⟩ :
          p0.length ≠ 0 ∧ ∃ n, parseFloatQ (normalizeNegZero p0) = some n := by
        obtain ⟨h1, h2⟩ := H p0 (by simp)
        exact ⟨h1, Option.isSome_iff_exists.mp h2⟩
      obtain ⟨hp1, num1, hnum1⟩ :
          p1.length ≠ 0 ∧ ∃ n, parseFloatQ (normalizeNegZero p1) = some n := by
        obtain ⟨h1, h2⟩ := H p1 (by simp)
        exact ⟨h1, Option.isSome_iff_exists.mp h2⟩
      obtain ⟨hp2, num2, hnum2⟩ :
          p2.length ≠ 0 ∧ ∃ n, parseFloatQ (normalizeNegZero p2) = some n := by
        obtain ⟨h1, h2⟩ := H p2 (by simp)
        exact ⟨h1, Option.isSome_iff_exists.mp h2⟩
      obtain ⟨hp3, num3, hnum3⟩ :
          p3.length ≠ 0 ∧ ∃ n, parseFloatQ (normalizeNegZero p3) = some n := by
        obtain ⟨h1, h2⟩ := H p3 (by simp)
        exact ⟨h1, Option.isSome_iff_exists.mp h2⟩
      rw [readValueLoop_step_x t true value p0 _ _ num0 hp0 hnum0,
        readValueLoop_step_y t true value p1 _ _ num1 hp1 hnum1,
        readValueLoop_step_z t true value p2 _ _ num2 hp2 hnum2,
        readValueLoop_step_w t true value p3 _ _ num3 hp3 hnum3]
      simp [ht]
  · intro hlen
    match parts, hlen with
    | p0 :: p1 :: p2 :: p3 :: p4 :: rest, _ =>
      obtain ⟨hp0, num0, hnum0⟩ :
          p0.length ≠ 0 ∧ ∃ n, parseFloatQ (normalizeNegZero p0) = some n := by
        obtain ⟨h1, h2⟩ := H p0 (by simp)
        exact ⟨h1, Option.isSome_iff_exists.mp h2⟩
      obtain ⟨hp1, num1, hnum1⟩ :
          p1.length ≠ 0 ∧ ∃ n, parseFloatQ (normalizeNegZero p1) = some n := by
        obtain ⟨h1, h2⟩ := H p1 (by simp)
        exact ⟨h1, Option.isSome_iff_exists.mp h2⟩
      obtain ⟨hp2, num2, hnum2⟩ :
          p2.length ≠ 0 ∧ ∃ n, parseFloatQ (normalizeNegZero p2) = some n := by
        obtain ⟨h1, h2⟩ := H p2 (by simp)
        exact ⟨h1, Option.isSome_iff_exists.mp h2⟩
      obtain ⟨hp3, num3, hnum3⟩ :
          p3.length ≠ 0 ∧ ∃ n, parseFloatQ (normalizeNegZero p3) = some n := by
        obtain ⟨h1, h2⟩ := H p3 (by simp)
        exact ⟨h1, Option.isSome_iff_exists.mp h2⟩
      obtain ⟨hp4, num4, hnum4⟩ :
          p4.length ≠ 0 ∧ ∃ n, parseFloatQ (normalizeNegZero p4) = some n := by
        obtain ⟨h1, h2⟩ := H p4 (by simp)
        exact ⟨h1, Option.isSome_iff_exists.mp h2⟩
      rw [readValueLoop_step_x _ true value p0 _ _ num0 hp0 hnum0,
        readValueLoop_step_y _ true value p1 _ _ num1 hp1 hnum1,
        readValueLoop_step_z _ true value p2 _ _ num2 hp2 hnum2,
        readValueLoop_step_w _ true value p3 _ _ num3 hp3 hnum3]
      simp only [ne_eq, not_true_eq_false, and_false, if_false, reduceIte]
      rw [readValueLoop_step_overflow _ true value 4 p4 _ _ num4 (by omega) hp4 hnum4]
      simp [typeString]
  · match parts with
    | [] => rfl
    | [p0] => rfl
    | [p0, p1] => rfl
    | [p0, p1, p2] => rfl
    | [p0, p1, p2, p3] => rfl
    | p0 :: p1 :: p2 :: p3 :: rest =>
      obtain ⟨hp0, num0, hnum0⟩ :
          p0.length ≠ 0 ∧ ∃ n, parseFloatQ (normalizeNegZero p0) = some n := by
        obtain ⟨h1, h2⟩ := H p0 (by simp)
        exact ⟨h1, Option.isSome_iff_exists.mp h2⟩
      obtain ⟨hp1, num1, hnum1⟩ :
          p1.length ≠ 0 ∧ ∃ n, parseFloatQ (normalizeNegZero p1) = some n := by
        obtain ⟨h1, h2⟩ := H p1 (by simp)
        exact ⟨h1, Option.isSome_iff_exists.mp h2⟩
      obtain ⟨hp2, num2, hnum2⟩ :
          p2.length ≠ 0 ∧ ∃ n, parseFloatQ (normalizeNegZero p2) = some n := by
        obtain ⟨h1, h2⟩ := H p2 (by simp)
        exact ⟨h1, Option.isSome_iff_exists.mp h2⟩
      obtain ⟨hp3, num3, hnum3⟩ :
          p3.length ≠ 0 ∧ ∃ n, parseFloatQ (normalizeNegZero p3) = some n := by
        obtain ⟨h1, h2⟩ := H p3 (by simp)
        exact ⟨h1, Option.isSome_iff_exists.mp h2⟩
      have expand : ∀ tail : List String, (∀ p ∈ tail, readablePart p) →
          readValueLoop t false value 0 (p0 :: p1 :: p2 :: p3 :: tail) gv =
            .ok { gv with x := num0, y := num1, z := num2, w := num3 } := by
        intro tail Htail
        rw [readValueLoop_step_x t false value p0 _ _ num0 hp0 hnum0,
          readValueLoop_step_y t false value p1 _ _ num1 hp1 hnum1,
          readValueLoop_step_z t false value p2 _ _ num2 hp2 hnum2,
          readValueLoop_step_w t false value p3 _ _ num3 hp3 hnum3]
        simp only [Bool.false_eq_true, false_and, if_false, reduceIte]
        exact readValueLoop_drops_tail t value tail 4 _ (by omega) Htail
      simp only [List.take_succ_cons, List.take_zero]
      rw [expand rest (fun q hq => H q (by simp [hq])),
        expand [] (fun q hq => by simp at hq)]
  · intro p0 p1 p2 p3 rest hparts
    subst hparts
    obtain ⟨hp0, num0, hnum0⟩ :
        p0.length ≠ 0 ∧ ∃ n, parseFloatQ (normalizeNegZero p0) = some n := by
      obtain ⟨h1, h2⟩ := H p0 (by simp)
      exact ⟨h1, Option.isSome_iff_exists.mp h2⟩
    obtain ⟨hp1, num1, hnum1⟩ :
        p1.length ≠ 0 ∧ ∃ n, parseFloatQ (normalizeNegZero p1) = some n := by
      obtain ⟨h1, h2⟩ := H p1 (by simp)
      exact ⟨h1, Option.isSome_iff_exists.mp h2⟩
    obtain ⟨hp2, num2, hnum2⟩ :
        p2.length ≠ 0 ∧ ∃ n, parseFloatQ (normalizeNegZero p2) = some n := by
      obtain ⟨h1, h2⟩ := H p2 (by simp)
      exact ⟨h1, Option.isSome_iff_exists.mp h2⟩
    obtain ⟨hp3, num3, hnum3⟩ :
        p3.length ≠ 0 ∧ ∃ n, parseFloatQ (normalizeNegZero p3) = some n := by
      obtain ⟨h1, h2⟩ := H p3 (by simp)
      exact ⟨h1, Option.isSome_iff_exists.mp h2⟩
    refine ⟨num3, { gv with x := num0, y := num1, z := num2, w := num3 }, hnum3, ?_, rfl⟩
    rw [readValueLoop_step_x t false value p0 _ _ num0 hp0 hnum0,
      readValueLoop_step_y t false value p1 _ _ num1 hp1 hnum1,
      readValueLoop_step_z t false value p2 _ _ num2 hp2 hnum2,
      readValueLoop_step_w t false value p3 _ _ num3 hp3 hnum3]
    simp only [Bool.false_eq_true, false_and, if_false, reduceIte]
    exact readValueLoop_drops_tail t value rest 4 _ (by omega)
      (fun q hq => H q (by simp [hq]))

/-- Witness for C9's amended theorem at a concrete input:
channel `vn`, payload `1 2 3 9 10`. -/
theorem strict_component_overflow_witness :
    (∀ p ∈ ["1", "2", "3", "9", "10"], readablePart p) ∧
    ((ObjType.Normal ≠ ObjType.Vertex → 4 ≤ (["1", "2", "3", "9", "10"] : List String).length →
      readValueLoop ObjType.Normal true "1 2 3 9 10" 0 ["1", "2", "3", "9", "10"] {} =
        .error ("Found invalid fourth component: " ++ typeString ObjType.Normal ++ " " ++
          "1 2 3 9 10")) ∧
    (5 ≤ (["1", "2", "3", "9", "10"] : List String).length →
      readValueLoop ObjType.Vertex true "1 2 3 9 10" 0 ["1", "2", "3", "9", "10"] {} =
        .error ("Found invalid fifth component: v " ++ "1 2 3 9 10")) ∧
    ((readValueLoop ObjType.Normal false "1 2 3 9 10" 0 ["1", "2", "3", "9", "10"] {}).isOk
        = true) ∧
    (readValueLoop ObjType.Normal false "1 2 3 9 10" 0 ["1", "2", "3", "9", "10"] {} =
      readValueLoop ObjType.Normal false "1 2 3 9 10" 0
        ((["1", "2", "3", "9", "10"] : List String).take 4) {}) ∧
    (∀ p0 p1 p2 p3 rest, (["1", "2", "3", "9", "10"] : List String)
          = p0 :: p1 :: p2 :: p3 :: rest →
      ∃ num gv', parseFloatQ (normalizeNegZero p3) = some num ∧
        readValueLoop ObjType.Normal false "1 2 3 9 10" 0 ["1", "2", "3", "9", "10"] {} =
          .ok gv' ∧ gv'.w = num)) :=
  ⟨by with_unfolding_all decide, strict_component_overflow ObjType.Normal "1 2 3 9 10" {}
    ["1", "2", "3", "9", "10"] (by with_unfolding_all decide)⟩

/-- **C9 counterexample**: in non-strict mode a 4th component on the Normal
channel is not dropped: reading `vn 1 2 3 9` stores `w = 9`, whereas
reading `vn 1 2 3` (the component absent) leaves `w = 0`, so the stored
values differ — the claim's "leaving the stored value as if they were
absent" fails. -/
theorem non_strict_fourth_component_not_dropped :
    (readValue {} ObjType.Normal "1 2 3 9" false ≠
      readValue {} ObjType.Normal "1 2 3" false) ∧
    readValue {} ObjType.Normal "1 2 3 9" false =
      .ok ({ normals := [{ index := 1, x := 1, y := 2, z := 3, w := 9 }] },
        { index := 1, x := 1, y := 2, z := 3, w := 9 }) := by
  constructor
  · with_unfolding_all decide
  · with_unfolding_all decide

section Resolution

/-- **C5**: during reference resolution every non-zero negative channel
index `i` is converted to `i + count_so_far + 1`; when the converted value
is `≤ 0` or exceeds the count declared so far, resolution fails with an
out-of-bounds error naming the (converted) index and the count, otherwise
the reference resolves to the value at that position; `f -1 -2 -3` with 10
Positions declared resolves to indices 10, 9, 8. -/
theorem negative_index_conversion :
    (∀ (g : Geometry) (stats : GeometryStats) (d : Declaration), d.vertex < 0 →
      ((d.vertex + stats.vertices + 1 ≤ 0 ∨ d.vertex + stats.vertices + 1 > stats.vertices →
        resolveVertexRef g stats d =
          .error ("vertex index " ++ toString (d.vertex + stats.vertices + 1) ++
            " out of bounds, " ++ toString stats.vertices ++ " declared so far")) ∧
       (0 < d.vertex + stats.vertices + 1 → d.vertex + stats.vertices + 1 ≤ stats.vertices →
        ∀ gv, g.vertices.get? (d.vertex + stats.vertices + 1 - 1).toNat = some gv →
          gv.index = d.vertex + stats.vertices + 1 →
          resolveVertexRef g stats d =
            .ok { d with vertex := d.vertex + stats.vertices + 1,
                         refVertex := some (d.vertex + stats.vertices + 1 - 1).toNat }))) ∧
    (∀ (g : Geometry) (stats : GeometryStats) (d : Declaration), d.uv < 0 →
      (d.uv + stats.uvs + 1 ≤ 0 ∨ d.uv + stats.uvs + 1 > stats.uvs →
        resolveUVRef g stats d =
          .error ("uv index " ++ toString (d.uv + stats.uvs + 1) ++
            " out of bounds, " ++ toString stats.uvs ++ " declared so far"))) ∧
    (∀ (g : Geometry) (stats : GeometryStats) (d : Declaration), d.normal < 0 →
      (d.normal + stats.normals + 1 ≤ 0 ∨ d.normal + stats.normals + 1 > stats.normals →
        resolveNormalRef g stats d =
          .error ("normal index " ++ toString (d.normal + stats.normals + 1) ++
            " out of bounds, " ++ toString stats.normals ++ " declared so far"))) ∧
    Except.map (fun vt => vt.decls.map (fun d => d.vertex))
      (readVertexData {} (some tenVertices) ObjType.Face "-1 -2 -3" false).2 =
      .ok [10, 9, 8] := by
  refine ⟨?_, ?_, ?_, by with_unfolding_all decide⟩
  · intro g stats d hneg
    have hne : ¬ d.vertex = 0 := by omega
    have hconv : convAbs d.vertex stats.vertices = d.vertex + stats.vertices + 1 := by
      rw [convAbs, if_pos hneg]
    constructor
    · intro hout
      rw [resolveVertexRef, if_neg hne, hconv, if_pos hout]
    · intro h1 h2 gv hget hidx
      rw [resolveVertexRef, if_neg hne, hconv, if_neg (by omega), hget]
      dsimp only
      rw [if_neg (by simp [hidx])]
  · intro g stats d hneg
    have hne : ¬ d.uv = 0 := by omega
    have hconv : convAbs d.uv stats.uvs = d.uv + stats.uvs + 1 := by
      rw [convAbs, if_pos hneg]
    intro hout
    rw [resolveUVRef, if_neg hne, hconv, if_pos hout]
  · intro g stats d hneg
    have hne : ¬ d.normal = 0 := by omega
    have hconv : convAbs d.normal stats.normals = d.normal + stats.normals + 1 := by
      rw [convAbs, if_pos hneg]
    intro hout
    rw [resolveNormalRef, if_neg hne, hconv, if_pos hout]

/-- Witness for C5 at a concrete input: index `-1` with 10 declared
Positions resolves to index 10 (arena position 9). -/
theorem negative_index_conversion_witness :
    ((-1 : Int) < 0) ∧
    resolveVertexRef tenVertices (geomStats tenVertices) { vertex := -1 } =
      .ok { vertex := 10, refVertex := some 9 } := by
  refine ⟨by norm_num, ?_⟩
  have h := (negative_index_conversion.1 tenVertices (geomStats tenVertices)
    { vertex := -1 } (by norm_num)).2
  have hres := h (by with_unfolding_all decide) (by with_unfolding_all decide)
    { index := 10, x := 9 } (by with_unfolding_all decide) (by with_unfolding_all decide)
  rw [hres]
  with_unfolding_all decide

/-- Post-state facts of the Vertex block: other channels untouched; a
resolved non-zero vertex reference points at an arena slot whose stored
index matches. -/
theorem resolveVertexRef_ok (g : Geometry) (stats : GeometryStats)
    (d d' : Declaration) (h : resolveVertexRef g stats d = .ok d') :
    d'.uv = d.uv ∧ d'.normal = d.normal ∧ d'.refUV = d.refUV ∧ d'.refNormal = d.refNormal ∧
    (d.vertex = 0 → d' = d) ∧
    (d.vertex ≠ 0 → d'.vertex ≠ 0 ∧ 0 < d'.vertex ∧ d'.vertex ≤ stats.vertices ∧
      ∃ gv, g.vertices.get? (d'.vertex - 1).toNat = some gv ∧ gv.index = d'.vertex ∧
        d'.refVertex = some (d'.vertex - 1).toNat) := by
  rw [resolveVertexRef] at h
  by_cases h0 : d.vertex = 0
  · rw [if_pos h0] at h
    cases h
    simp [h0]
  · rw [if_neg h0] at h
    by_cases hb : convAbs d.vertex stats.vertices ≤ 0 ∨
        convAbs d.vertex stats.vertices > stats.vertices
    · rw [if_pos hb] at h
      cases h
    · rw [if_neg hb] at h
      push_neg at hb
      cases hget : g.vertices.get? (convAbs d.vertex stats.vertices - 1).toNat with
      | none =>
        rw [hget] at h
        cases h
      | some gv =>
        rw [hget] at h
        dsimp only at h
        by_cases hidx : gv.index ≠ convAbs d.vertex stats.vertices
        · rw [if_pos hidx] at h
          cases h
        · rw [if_neg hidx] at h
          cases h
          push_neg at hidx
          refine ⟨rfl, rfl, rfl, rfl, fun hc => absurd hc h0, fun _ => ?_⟩
          dsimp only
          exact ⟨by omega, by omega, by omega, gv, hget, hidx, rfl⟩

/-- Post-state facts of the UV block. -/
theorem resolveUVRef_ok (g : Geometry) (stats : GeometryStats)
    (d d' : Declaration) (h : resolveUVRef g stats d = .ok d') :
    d'.vertex = d.vertex ∧ d'.normal = d.normal ∧ d'.refVertex = d.refVertex ∧
    d'.refNormal = d.refNormal ∧
    (d.uv = 0 → d' = d) ∧
    (d.uv ≠ 0 → d'.uv ≠ 0 ∧ 0 < d'.uv ∧ d'.uv ≤ stats.uvs ∧
      ∃ gv, g.uvs.get? (d'.uv - 1).toNat = some gv ∧ gv.index = d'.uv ∧
        d'.refUV = some (d'.uv - 1).toNat) := by
  rw [resolveUVRef] at h
  by_cases h0 : d.uv = 0
  · rw [if_pos h0] at h
    cases h
    simp [h0]
  · rw [if_neg h0] at h
    by_cases hb : convAbs d.uv stats.uvs ≤ 0 ∨ convAbs d.uv stats.uvs > stats.uvs
    · rw [if_pos hb] at h
      cases h
    · rw [if_neg hb] at h
      push_neg at hb
      cases hget : g.uvs.get? (convAbs d.uv stats.uvs - 1).toNat with
      | none =>
        rw [hget] at h
        cases h
      | some gv =>
        rw [hget] at h
        dsimp only at h
        by_cases hidx : gv.index ≠ convAbs d.uv stats.uvs
        · rw [if_pos hidx] at h
          cases h
        · rw [if_neg hidx] at h
          cases h
          push_neg at hidx
          refine ⟨rfl, rfl, rfl, rfl, fun hc => absurd hc h0, fun _ => ?_⟩
          dsimp only
          exact ⟨by omega, by omega, by omega, gv, hget, hidx, rfl⟩

/-- Post-state facts of the Normal block. -/
theorem resolveNormalRef_ok (g : Geometry) (stats : GeometryStats)
    (d d' : Declaration) (h : resolveNormalRef g stats d = .ok d') :
    d'.vertex = d.vertex ∧ d'.uv = d.uv ∧ d'.refVertex = d.refVertex ∧
    d'.refUV = d.refUV ∧
    (d.normal = 0 → d' = d) ∧
    (d.normal ≠ 0 → d'.normal ≠ 0 ∧ 0 < d'.normal ∧ d'.normal ≤ stats.normals ∧
      ∃ gv, g.normals.get? (d'.normal - 1).toNat = some gv ∧ gv.index = d'.normal ∧
        d'.refNormal = some (d'.normal - 1).toNat) := by
  rw [resolveNormalRef] at h
  by_cases h0 : d.normal = 0
  · rw [if_pos h0] at h
    cases h
    simp [h0]
  · rw [if_neg h0] at h
    by_cases hb : convAbs d.normal stats.normals ≤ 0 ∨
        convAbs d.normal stats.normals > stats.normals
    · rw [if_pos hb] at h
      cases h
    · rw [if_neg hb] at h
      push_neg at hb
      cases hget : g.normals.get? (convAbs d.normal stats.normals - 1).toNat with
      | none =>
        rw [hget] at h
        cases h
      | some gv =>
        rw [hget] at h
        dsimp only at h
        by_cases hidx : gv.index ≠ convAbs d.normal stats.normals
        · rw [if_pos hidx] at h
          cases h
        · rw [if_neg hidx] at h
          cases h
          push_neg at hidx
          refine ⟨rfl, rfl, rfl, rfl, fun hc => absurd hc h0, fun _ => ?_⟩
          dsimp only
          exact ⟨by omega, by omega, by omega, gv, hget, hidx, rfl⟩

/-- A successfully resolved declaration satisfies `declResolved`. -/
theorem resolveDecl_ok (g : Geometry) (stats : GeometryStats)
    (d d' : Declaration) (h : resolveDecl g stats d = .ok d') :
    declResolved g d' := by
  rw [resolveDecl] at h
  split at h
  · cases h
  · rename_i d1 h1
    split at h
    · cases h
    · rename_i d2 h2
      obtain ⟨h1uv, h1n, h1ruv, h1rn, h1z, h1nz⟩ := resolveVertexRef_ok g stats d d1 h1
      obtain ⟨h2v, h2n, h2rv, h2rn, h2z, h2nz⟩ := resolveUVRef_ok g stats d1 d2 h2
      obtain ⟨h3v, h3uv, h3rv, h3ruv, h3z, h3nz⟩ := resolveNormalRef_ok g stats d2 d' h
      refine ⟨?_, ?_, ?_⟩
      · intro hv
        rw [h3v, h2v] at hv ⊢
        rw [h3rv, h2rv]
        by_cases hdz : d.vertex = 0
        · rw [h1z hdz] at hv
          exact absurd hdz hv
        · obtain ⟨_, hpos, _, gv, hget, hidx, href⟩ := h1nz hdz
          exact ⟨hpos, gv, hget, hidx, href⟩
      · intro huv
        rw [h3uv] at huv ⊢
        rw [h3ruv]
        by_cases hdz : d1.uv = 0
        · rw [h2z hdz] at huv
          exact absurd hdz huv
        · obtain ⟨_, hpos, _, gv, hget, hidx, href⟩ := h2nz hdz
          exact ⟨hpos, gv, hget, hidx, href⟩
      · intro hn
        by_cases hdz : d2.normal = 0
        · rw [h3z hdz] at hn
          exact absurd hdz hn
        · obtain ⟨_, hpos, _, gv, hget, hidx, href⟩ := h3nz hdz
          exact ⟨hpos, gv, hget, hidx, href⟩

/-- Every output of a successful resolution loop comes from the
accumulator or from resolving an input declaration. -/
theorem resolveDecls_mem (g : Geometry) (stats : GeometryStats) :
    ∀ (ds acc out : List Declaration), resolveDecls g stats ds acc = .ok out →
      ∀ d' ∈ out, d' ∈ acc ∨ ∃ d ∈ ds, resolveDecl g stats d = .ok d' := by
  intro ds
  induction ds with
  | nil =>
    intro acc out h d' hd'
    rw [resolveDecls] at h
    cases h
    exact Or.inl hd'
  | cons d rest ih =>
    intro acc out h d' hd'
    rw [resolveDecls] at h
    split at h
    · cases h
    · rename_i dr hdr
      rcases ih (acc ++ [dr]) out h d' hd' with hmem | ⟨d0, hd0, hres⟩
      · rcases List.mem_append.mp hmem with hL | hR
        · exact Or.inl hL
        · refine Or.inr ⟨d, by simp, ?_⟩
          rw [List.mem_singleton] at hR
          rw [hR]
          exact hdr
      · exact Or.inr ⟨d0, by simp [hd0], hres⟩

/-- **C10**: reading a Face/Line/Point payload into a SubMesh is atomic:
on any parse or resolution failure the object's topology-element list is
unchanged, and on success exactly the new element is appended, all of its
declarations fully resolved. -/
theorem read_vertex_data_atomic :
    (∀ (o : Object) (g : Geometry) (t : ObjType) (value : String) (strict : Bool)
      (e : String),
      (readVertexData o (some g) t value strict).2 = .error e →
      (readVertexData o (some g) t value strict).1 = o) ∧
    (∀ (o : Object) (g : Geometry) (t : ObjType) (value : String) (strict : Bool)
      (vt : VertexData),
      (readVertexData o (some g) t value strict).2 = .ok vt →
      (readVertexData o (some g) t value strict).1 =
        { o with vertexData := o.vertexData ++ [vt] } ∧
      ∀ d ∈ vt.decls, declResolved g d) := by
  constructor
  · intro o g t value strict e herr
    cases hp : readVertexDataParsed t value strict with
    | error e0 =>
      rw [readVertexData, hp]
    | ok vt0 =>
      rw [readVertexData, hp] at herr ⊢
      dsimp only at herr ⊢
      cases hr : resolveDecls g (geomStats g) vt0.decls [] with
      | error e0 =>
        rfl
      | ok ds =>
        rw [hr] at herr
        dsimp only at herr
        cases herr
  · intro o g t value strict vt hok
    cases hp : readVertexDataParsed t value strict with
    | error e0 =>
      rw [readVertexData, hp] at hok
      dsimp only at hok
      cases hok
    | ok vt0 =>
      rw [readVertexData, hp] at hok ⊢
      dsimp only at hok ⊢
      cases hr : resolveDecls g (geomStats g) vt0.decls [] with
      | error e0 =>
        rw [hr] at hok
        dsimp only at hok
        cases hok
      | ok ds =>
        rw [hr] at hok
        dsimp only at hok ⊢
        have hvt : vt = { vt0 with decls := ds } := by
          injection hok with h
          exact h.symm
        subst hvt
        refine ⟨rfl, ?_⟩
        intro d hd
        dsimp only at hd
        rcases resolveDecls_mem g (geomStats g) vt0.decls [] ds hr d hd with hmem | ⟨d0, _, hres⟩
        · simp at hmem
        · exact resolveDecl_ok g (geomStats g) d0 d hres

/-- Witness for C10 at concrete inputs: a failing face payload (`f 1 2 x`)
leaves the object unchanged, a succeeding one (`f 1 2 3`) appends one
resolved element. -/
theorem read_vertex_data_atomic_witness :
    ((readVertexData { name := "A" } (some tenVertices) ObjType.Face "1 2 x" false).2 =
        .error "parsing x: invalid syntax") ∧
    ((readVertexData { name := "A" } (some tenVertices) ObjType.Face "1 2 x" false).1 =
        { name := "A" }) ∧
    ∀ vt, (readVertexData { name := "A" } (some tenVertices) ObjType.Face "1 2 3" false).2 =
        .ok vt →
      (readVertexData { name := "A" } (some tenVertices) ObjType.Face "1 2 3" false).1 =
        { name := "A", vertexData := [vt] } ∧
      ∀ d ∈ vt.decls, declResolved tenVertices d := by
  refine ⟨by with_unfolding_all decide, ?_, ?_⟩
  · exact read_vertex_data_atomic.1 { name := "A" } tenVertices ObjType.Face "1 2 x" false
      "parsing x: invalid syntax" (by with_unfolding_all decide)
  · intro vt hvt
    have h := read_vertex_data_atomic.2 { name := "A" } tenVertices ObjType.Face "1 2 3"
      false vt hvt
    exact ⟨h.1, h.2⟩

end Resolution

section MultiMaterial

theorem set_concat_length {α : Type _} (l : List α) (a b : α) :
    (l ++ [a]).set l.length b = l ++ [b] := by
  induction l with
  | nil => rfl
  | cons x xs ih => simp [List.set, ih]

/-- **C6**: on a material-use line, when the current SubMesh already has a
topology element and its material differs from the new value, the parser
appends a synthetic sibling SubMesh of the same kind named
`{prevName}_{n}` (with `n` the per-group counter incremented from the
state, which is reset by every `o`/`g` marker) and makes it current; the
scenario `o A`, faces under `usemtl m1`, then faces under `usemtl m2`
yields exactly the two SubMeshes `A` and `A_1`. -/
theorem multi_material_split (strict : Bool) (base : String) (st : ParserState)
    (line m : String) (i : Nat) (cur : Object)
    (h0 : trimSpace line = line) (h1 : ¬ line.length = 0)
    (h2 : parseLineType line = (ObjType.MtlUse, m))
    (h3 : st.currentIdx = some i)
    (h4 : st.dest.objects.get? i = some cur)
    (h5 : 0 < cur.vertexData.length)
    (h6 : cur.material ≠ m)
    (h7 : cur.otype = ObjType.ChildObject ∨ cur.otype = ObjType.ChildGroup) :
    parseLine strict base st line = .ok
      { st with
        dest := { st.dest with objects := st.dest.objects ++
          [{ otype := cur.otype,
             name := st.currentObjectName ++ "_" ++ toString (st.currentObjectChildIndex + 1),
             material := m }] },
        currentObjectChildIndex := st.currentObjectChildIndex + 1,
        currentIdx := some st.dest.objects.length,
        currentMaterial := m } ∧
    Except.map (fun o => o.objects.map (fun c => (c.name, c.material, c.vertexData.length)))
      (parse false "input" multiMaterialLines) = .ok [("A", "m1", 1), ("A_1", "m2", 1)] := by
  refine ⟨?_, by with_unfolding_all decide⟩
  have hname : ¬ (st.currentObjectName ++ "_" ++
      toString (st.currentObjectChildIndex + 1) = "") := by
    intro hc
    have hlen := congrArg String.length hc
    rw [String.length_append, String.length_append] at hlen
    have hus : ("_" : String).length = 1 := rfl
    have hes : ("" : String).length = 0 := rfl
    omega
  rw [parseLine, h0, if_neg h1, h2]
  dsimp only
  rw [h3]
  dsimp only
  rw [h4]
  dsimp only
  rw [if_pos ⟨h5, h6⟩, createObject,
    if_neg (by rcases h7 with h | h <;> simp [h]), if_neg hname]
  dsimp only
  rw [modifyObjectAt]
  dsimp only
  rw [List.get?_eq_getElem?, List.getElem?_concat_length]
  dsimp only
  rw [set_concat_length]

/-- Witness for C6's general step at a concrete state: current SubMesh `A`
of kind `o` with one face under material `m1`, line `usemtl m2`. -/
theorem multi_material_split_witness :
    (trimSpace "usemtl m2" = "usemtl m2") ∧
    (¬ ("usemtl m2" : String).length = 0) ∧
    (parseLineType "usemtl m2" = (ObjType.MtlUse, "m2")) ∧
    (mmStateBefore.currentIdx = some 0) ∧
    (mmStateBefore.dest.objects.get? 0 = some mmObjA) ∧
    (0 < mmObjA.vertexData.length) ∧
    (mmObjA.material ≠ "m2") ∧
    parseLine false "input" mmStateBefore "usemtl m2" = .ok mmStateAfter := by
  refine ⟨by with_unfolding_all decide, by with_unfolding_all decide,
    by with_unfolding_all decide, rfl, by with_unfolding_all decide,
    by with_unfolding_all decide, by with_unfolding_all decide, ?_⟩
  have h := (multi_material_split false "input" mmStateBefore "usemtl m2" "m2" 0 mmObjA
    (by with_unfolding_all decide) (by with_unfolding_all decide)
    (by with_unfolding_all decide) rfl (by with_unfolding_all decide)
    (by with_unfolding_all decide) (by with_unfolding_all decide) (Or.inl rfl)).1
  rw [h]
  with_unfolding_all decide

end MultiMaterial

section MergePass

theorem dedupFirstSeen_concat (l : List String) (x : String) :
    dedupFirstSeen (l ++ [x]) =
      if x ∈ dedupFirstSeen l then dedupFirstSeen l else dedupFirstSeen l ++ [x] := by
  rw [dedupFirstSeen, List.foldl_append]
  rfl

theorem mem_foldl_dedup (x : String) :
    ∀ (l acc : List String),
      x ∈ l.foldl (fun acc m => if m ∈ acc then acc else acc ++ [m]) acc ↔
        x ∈ acc ∨ x ∈ l := by
  intro l
  induction l with
  | nil => intro acc; simp
  | cons a l ih =>
    intro acc
    rw [List.foldl_cons, ih]
    by_cases ha : a ∈ acc
    · rw [if_pos ha]
      constructor
      · exact fun h => h.elim Or.inl (fun h => Or.inr (List.mem_cons_of_mem a h))
      · rintro (h | h)
        · exact Or.inl h
        · rcases List.mem_cons.mp h with rfl | h
          · exact Or.inl ha
          · exact Or.inr h
    · rw [if_neg ha]
      simp only [List.mem_append, List.mem_singleton, List.mem_cons]
      tauto

theorem mem_dedupFirstSeen (x : String) (l : List String) :
    x ∈ dedupFirstSeen l ↔ x ∈ l := by
  rw [dedupFirstSeen, mem_foldl_dedup]
  simp

theorem nodup_foldl_dedup :
    ∀ (l acc : List String), acc.Nodup →
      (l.foldl (fun acc m => if m ∈ acc then acc else acc ++ [m]) acc).Nodup := by
  intro l
  induction l with
  | nil => intro acc h; exact h
  | cons a l ih =>
    intro acc h
    rw [List.foldl_cons]
    by_cases ha : a ∈ acc
    · rw [if_pos ha]
      exact ih acc h
    · rw [if_neg ha]
      refine ih _ ?_
      rw [List.nodup_append]
      exact ⟨h, List.nodup_singleton a, by simp [List.disjoint_left, ha]⟩

theorem nodup_dedupFirstSeen (l : List String) : (dedupFirstSeen l).Nodup :=
  nodup_foldl_dedup l [] List.nodup_nil

theorem addToMergers_mem (fn : String → List Object) (c : Object) :
    ∀ L : List String, L.Nodup → c.material ∈ L →
      addToMergers (L.map (fun mat => { material := mat, objects := fn mat })) c =
        L.map (fun mat =>
          { material := mat,
            objects := fn mat ++ if c.material = mat then [c] else [] }) := by
  intro L
  induction L with
  | nil => intro _ h; simp at h
  | cons mat L ih =>
    intro hnd hmem
    rw [List.map_cons, List.map_cons, addToMergers]
    dsimp only
    by_cases heq : mat = c.material
    · rw [if_pos heq, if_pos heq.symm]
      congr 1
      apply List.map_congr_left
      intro y hy
      have hne : ¬ (c.material = y) := by
        intro hc
        exact (List.nodup_cons.mp hnd).1 (by rw [heq, hc]; exact hy)
      rw [if_neg hne, List.append_nil]
    · rw [if_neg heq]
      have hmem' : c.material ∈ L := by
        rcases List.mem_cons.mp hmem with h | h
        · exact absurd h.symm heq
        · exact h
      rw [ih (List.nodup_cons.mp hnd).2 hmem']
      congr 1
      rw [if_neg (fun hc => heq hc.symm), List.append_nil]

theorem addToMergers_newMat (fn : String → List Object) (c : Object) :
    ∀ L : List String, (∀ mat ∈ L, mat ≠ c.material) →
      addToMergers (L.map (fun mat => { material := mat, objects := fn mat })) c =
        L.map (fun mat => { material := mat, objects := fn mat }) ++
          [{ material := c.material, objects := [c] }] := by
  intro L
  induction L with
  | nil => intro _; rfl
  | cons mat L ih =>
    intro h
    rw [List.map_cons, addToMergers]
    dsimp only
    rw [if_neg (h mat (by simp)), ih (fun y hy => h y (by simp [hy]))]
    rfl

theorem grouping_eq (children : List Object) :
    children.foldl
      (fun ms child => if child.vertexData.length = 0 then ms else addToMergers ms child)
      [] = groupedBy children := by
  induction children using List.reverseRecOn with
  | nil => rfl
  | append_singleton xs c ih =>
    rw [List.foldl_append, List.foldl_cons, List.foldl_nil, ih]
    by_cases hempty : c.vertexData.length = 0
    · rw [if_pos hempty, groupedBy, groupedBy]
      have hfilter : (xs ++ [c]).filter (fun o => o.vertexData.length ≠ 0) =
          xs.filter (fun o => o.vertexData.length ≠ 0) := by
        rw [List.filter_append]
        have hone : [c].filter (fun o => o.vertexData.length ≠ 0) = [] := by
          simp [List.filter_singleton, List.length_eq_zero.mp hempty]
        rw [hone, List.append_nil]
      rw [hfilter]
    · rw [if_neg hempty, groupedBy, groupedBy]
      have hcne : c.vertexData ≠ [] := fun hc => hempty (by rw [hc]; rfl)
      have hfilter : (xs ++ [c]).filter (fun o => o.vertexData.length ≠ 0) =
          xs.filter (fun o => o.vertexData.length ≠ 0) ++ [c] := by
        rw [List.filter_append]
        have hone : [c].filter (fun o => o.vertexData.length ≠ 0) = [c] := by
          simp [List.filter_singleton, hcne]
        rw [hone]
      rw [hfilter, List.map_append, List.map_singleton, dedupFirstSeen_concat]
      by_cases hin : c.material ∈
          dedupFirstSeen ((xs.filter (fun o => o.vertexData.length ≠ 0)).map
            (fun o => o.material))
      · rw [if_pos hin]
        rw [addToMergers_mem (fun mat =>
            (xs.filter (fun o => o.vertexData.length ≠ 0)).filter
              (fun o => o.material = mat)) c _ (nodup_dedupFirstSeen _) hin]
        apply List.map_congr_left
        intro mat _
        have : (xs.filter (fun o => o.vertexData.length ≠ 0) ++ [c]).filter
            (fun o => o.material = mat) =
            (xs.filter (fun o => o.vertexData.length ≠ 0)).filter
              (fun o => o.material = mat) ++ if c.material = mat then [c] else [] := by
          rw [List.filter_append]
          congr 1
          by_cases hc : c.material = mat
          · simp [hc]
          · simp [hc]
        rw [this]
      · rw [if_neg hin]
        rw [addToMergers_newMat (fun mat =>
            (xs.filter (fun o => o.vertexData.length ≠ 0)).filter
              (fun o => o.material = mat)) c _
          (fun mat hmat => fun hc => hin (hc ▸ hmat))]
        rw [List.map_append, List.map_singleton]
        have hnomem : ∀ o ∈ xs.filter (fun o => o.vertexData.length ≠ 0),
            ¬ (o.material = c.material) := by
          intro o ho hc
          apply hin
          rw [mem_dedupFirstSeen]
          exact List.mem_map.mpr ⟨o, ho, hc⟩
        congr 1
        · apply List.map_congr_left
          intro mat hmat
          have : (xs.filter (fun o => o.vertexData.length ≠ 0) ++ [c]).filter
              (fun o => o.material = mat) =
              (xs.filter (fun o => o.vertexData.length ≠ 0)).filter
                (fun o => o.material = mat) := by
            rw [List.filter_append]
            have hc : ¬ (c.material = mat) := fun hc => hin (hc ▸ hmat)
            simp [hc]
          rw [this]
        · have : (xs.filter (fun o => o.vertexData.length ≠ 0) ++ [c]).filter
              (fun o => o.material = c.material) = [c] := by
            rw [List.filter_append]
            rw [List.filter_eq_nil_iff.mpr (by simpa using hnomem)]
            simp
          rw [this]

theorem joinSpace_length_ge (a : String) (rest : List String) :
    a.length ≤ (joinSpace (a :: rest)).length := by
  cases rest with
  | nil => exact le_refl _
  | cons b rest =>
    rw [joinSpace, String.length_append, String.length_append]
    omega

theorem mergeName_ne_empty (objs : List Object) : mergeName objs ≠ "" := by
  rw [mergeName]
  cases hp : (objs.filter (fun c => c.name.length > 0)).map (fun c => c.name) with
  | nil => simp
  | cons a rest =>
    simp only [List.isEmpty_cons, Bool.false_eq_true, if_false]
    have ha : 0 < a.length := by
      have : a ∈ (objs.filter (fun c => c.name.length > 0)).map (fun c => c.name) := by
        rw [hp]
        exact List.mem_cons_self a rest
      obtain ⟨o, ho, rfl⟩ := List.mem_map.mp this
      have := (List.mem_filter.mp ho).2
      simpa using this
    intro hc
    have := joinSpace_length_ge a rest
    rw [hc] at this
    have hz : ("" : String).length = 0 := rfl
    omega

theorem mergeStep_append (start : OBJ) (m : Merger)
    (hne : m.objects ≠ [])
    (hkind : (m.objects.headD {}).otype = ObjType.ChildObject ∨
      (m.objects.headD {}).otype = ObjType.ChildGroup) :
    mergeStep start m = { start with objects := start.objects ++ [buildOne m] } := by
  rw [mergeStep]
  cases hobj : m.objects with
  | nil => exact absurd hobj hne
  | cons src rest =>
    rw [hobj] at hkind
    dsimp only [List.headD_cons] at hkind
    dsimp only
    rw [createObject, if_neg (by rcases hkind with h | h <;> simp [h]),
      if_neg (mergeName_ne_empty (src :: rest))]
    dsimp only
    rw [modifyLastObject]
    dsimp only
    rw [List.getLast?_concat, List.dropLast_concat]
    simp only [buildOne, hobj, List.headD_cons]

theorem mergeFold_eq :
    ∀ (ms : List Merger) (start : OBJ),
      (∀ m ∈ ms, m.objects ≠ [] ∧ ((m.objects.headD {}).otype = ObjType.ChildObject ∨
        (m.objects.headD {}).otype = ObjType.ChildGroup)) →
      ms.foldl mergeStep start = { start with objects := start.objects ++ ms.map buildOne } := by
  intro ms
  induction ms with
  | nil => intro start _; simp
  | cons m rest ih =>
    intro start h
    rw [List.foldl_cons, mergeStep_append start m (h m (by simp)).1 (h m (by simp)).2,
      ih _ (fun x hx => h x (by simp [hx]))]
    simp

theorem groupedBy_members (children : List Object)
    (hkinds : ∀ c ∈ children, c.vertexData ≠ [] →
      c.otype = ObjType.ChildObject ∨ c.otype = ObjType.ChildGroup) :
    ∀ m ∈ groupedBy children, m.objects ≠ [] ∧
      ((m.objects.headD {}).otype = ObjType.ChildObject ∨
        (m.objects.headD {}).otype = ObjType.ChildGroup) := by
  intro m hm
  rw [groupedBy] at hm
  simp only [List.mem_map] at hm
  obtain ⟨mat, hmat, rfl⟩ := hm
  obtain ⟨o, ho, homat⟩ := List.mem_map.mp ((mem_dedupFirstSeen _ _).mp hmat)
  have hofilter : o ∈ (children.filter (fun c => c.vertexData.length ≠ 0)).filter
      (fun c => c.material = mat) := by
    rw [List.mem_filter]
    exact ⟨ho, by simpa using homat⟩
  dsimp only
  refine ⟨List.ne_nil_of_mem hofilter, ?_⟩
  cases hmem : (children.filter (fun c => c.vertexData.length ≠ 0)).filter
      (fun c => c.material = mat) with
  | nil =>
    rw [hmem] at hofilter
    simp at hofilter
  | cons hd tl =>
    rw [List.headD_cons]
    have hhd : hd ∈ children ∧ hd.vertexData.length ≠ 0 := by
      have : hd ∈ (children.filter (fun c => c.vertexData.length ≠ 0)).filter
          (fun c => c.material = mat) := by
        rw [hmem]
        exact List.mem_cons_self hd tl
      have h2 := (List.mem_filter.mp this).1
      have h3 := List.mem_filter.mp h2
      exact ⟨h3.1, by simpa using h3.2⟩
    exact hkinds hd hhd.1 (by
      intro hc
      apply hhd.2
      rw [hc]
      rfl)

/-- **C7**: the Merge pass replaces the document's SubMesh list with one
SubMesh per distinct material among the SubMeshes that have topology, in
first-seen material order, each taking the kind of its group's first
member, the space-joined non-empty names (`Unnamed` if none), and the
concatenation of the members' topology in original order; SubMeshes with
zero topology elements are dropped.  Concretely: two `glass` SubMeshes
merge into one named `G1 G2` while the empty `glass` SubMesh is dropped. -/
theorem merge_pass_refines :
    (∀ obj : OBJ,
      (∀ c ∈ obj.objects, c.vertexData ≠ [] →
        c.otype = ObjType.ChildObject ∨ c.otype = ObjType.ChildGroup) →
      mergeExecute obj = { obj with objects := mergeSpecObjects obj.objects }) ∧
    (mergeExecute glassDoc).objects.map (fun c => (c.name, c.material, c.vertexData.length)) =
      [("G1 G2", "glass", 2), ("Other", "m2", 1)] := by
  constructor
  · intro obj hkinds
    rw [mergeExecute]
    rw [grouping_eq,
      mergeFold_eq (groupedBy obj.objects) _ (groupedBy_members obj.objects hkinds)]
    rw [mergeSpecObjects]
    simp
  · with_unfolding_all decide

/-- Witness for C7 at the concrete glass document. -/
theorem merge_pass_refines_witness :
    (∀ c ∈ glassDoc.objects, c.vertexData ≠ [] →
      c.otype = ObjType.ChildObject ∨ c.otype = ObjType.ChildGroup) ∧
    mergeExecute glassDoc = { glassDoc with objects := mergeSpecObjects glassDoc.objects } := by
  have hkinds : ∀ c ∈ glassDoc.objects, c.vertexData ≠ [] →
      c.otype = ObjType.ChildObject ∨ c.otype = ObjType.ChildGroup := by
    intro c hc _
    simp only [glassDoc, List.mem_cons, List.not_mem_nil, or_false] at hc
    rcases hc with rfl | rfl | rfl | rfl
    · exact Or.inl rfl
    · exact Or.inl rfl
    · exact Or.inr rfl
    · exact Or.inl rfl
  exact ⟨hkinds, merge_pass_refines.1 glassDoc hkinds⟩

end MergePass

section DuplicateEngine

/-- `Equals` is symmetric. -/
theorem gvEquals_symm (a b : GeometryValue) (epsilon : ℚ) :
    a.Equals b epsilon = b.Equals a epsilon := by
  simp [GeometryValue.Equals, abs_sub_comm]

theorem rRemove_ref (r : Replacer) (i : Int) : (rRemove r i).ref = r.ref := rfl

theorem mem_rRemove (r : Replacer) (i : Int) (v : GeometryValue) :
    v ∈ (rRemove r i).replaces → v ∈ r.replaces ∧ v.index ≠ i := by
  intro h
  rw [rRemove] at h
  have := List.mem_filter.mp h
  exact ⟨this.1, by simpa using this.2⟩

theorem rHits_rRemove_self (r : Replacer) (i : Int) : rHits (rRemove r i) i = false := by
  rw [rHits, rRemove]
  simp only [List.any_eq_false]
  intro v hv
  have := (List.mem_filter.mp hv).2
  simpa using this

theorem rHit_ref (r : Replacer) (v : GeometryValue) : (rHit r v).ref = r.ref := by
  rw [rHit]
  split <;> rfl

theorem mem_rHit (r : Replacer) (v w : GeometryValue) :
    w ∈ (rHit r v).replaces → w ∈ r.replaces ∨ w = v := by
  intro h
  rw [rHit] at h
  split at h
  · exact Or.inl h
  · rcases List.mem_append.mp h with h | h
    · exact Or.inl (List.mem_filter.mp h).1
    · exact Or.inr (List.mem_singleton.mp h)

theorem rHits_iff (r : Replacer) (i : Int) :
    rHits r i = true ↔ ∃ v ∈ r.replaces, v.index = i := by
  rw [rHits]
  simp

theorem rIsEmpty_iff (r : Replacer) : rIsEmpty r = true ↔ r.replaces = [] := by
  rw [rIsEmpty]
  simp

/-- The members of `r` after `rMergeLoop`: an old member of `r`, or a
member of the iterated snapshot that equals `r`'s value within epsilon;
`other` only shrinks; neither representative changes. -/
theorem rMergeLoop_facts (epsilon : ℚ) :
    ∀ (vs : List GeometryValue) (r other : Replacer),
      (rMergeLoop epsilon vs r other).1.ref = r.ref ∧
      (rMergeLoop epsilon vs r other).2.ref = other.ref ∧
      (∀ w ∈ (rMergeLoop epsilon vs r other).1.replaces,
        w ∈ r.replaces ∨ (w ∈ vs ∧ r.ref.Equals w epsilon = true)) ∧
      (∀ w ∈ (rMergeLoop epsilon vs r other).2.replaces, w ∈ other.replaces) := by
  intro vs
  induction vs with
  | nil => exact fun r other => ⟨rfl, rfl, fun w hw => Or.inl hw, fun w hw => hw⟩
  | cons value rest ih =>
    intro r other
    rw [rMergeLoop]
    by_cases h1 : value.index = r.ref.index
    · rw [if_pos h1]
      obtain ⟨hr, ho, hm, hs⟩ := ih r (rRemove other r.ref.index)
      refine ⟨hr, ho, ?_, ?_⟩
      · intro w hw
        rcases hm w hw with h | ⟨h, he⟩
        · exact Or.inl h
        · exact Or.inr ⟨List.mem_cons_of_mem _ h, he⟩
      · intro w hw
        exact (mem_rRemove _ _ _ (hs w hw)).1
    · rw [if_neg h1]
      by_cases h2 : rHits r value.index
      · rw [if_pos h2]
        obtain ⟨hr, ho, hm, hs⟩ := ih r (rRemove other value.index)
        refine ⟨hr, ho, ?_, ?_⟩
        · intro w hw
          rcases hm w hw with h | ⟨h, he⟩
          · exact Or.inl h
          · exact Or.inr ⟨List.mem_cons_of_mem _ h, he⟩
        · intro w hw
          exact (mem_rRemove _ _ _ (hs w hw)).1
      · rw [if_neg (by simpa using h2)]
        by_cases h3 : r.ref.Equals value epsilon = true
        · rw [if_pos h3]
          obtain ⟨hr, ho, hm, hs⟩ := ih (rHit r value) (rRemove other value.index)
          refine ⟨by rw [hr, rHit_ref], ho, ?_, ?_⟩
          · intro w hw
            rcases hm w hw with h | ⟨h, he⟩
            · rcases mem_rHit r value w h with h' | rfl
              · exact Or.inl h'
              · exact Or.inr ⟨by simp, h3⟩
            · rw [rHit_ref] at he
              exact Or.inr ⟨List.mem_cons_of_mem _ h, he⟩
          · intro w hw
            exact (mem_rRemove _ _ _ (hs w hw)).1
        · rw [if_neg h3]
          obtain ⟨hr, ho, hm, hs⟩ := ih r other
          refine ⟨hr, ho, ?_, ?_⟩
          · intro w hw
            rcases hm w hw with h | ⟨h, he⟩
            · exact Or.inl h
            · exact Or.inr ⟨List.mem_cons_of_mem _ h, he⟩
          · exact hs

/-- **C3 step lemma**: `replacer.Merge` moves a member of `other` into `r`
only when `r` already absorbed it or it is itself within epsilon of `r`'s
value; when `other` retains members the fold is incomplete and `other`'s
own index is removed from `r`'s hit list. -/
theorem rMerge_facts (epsilon : ℚ) (r other : Replacer) :
    (rMerge epsilon r other).1.ref = r.ref ∧
    (rMerge epsilon r other).2.1.ref = other.ref ∧
    (∀ w ∈ (rMerge epsilon r other).1.replaces,
      w ∈ r.replaces ∨ (w ∈ other.replaces ∧ r.ref.Equals w epsilon = true)) ∧
    (∀ w ∈ (rMerge epsilon r other).2.1.replaces, w ∈ other.replaces) ∧
    ((rMerge epsilon r other).2.2 = false →
      rHits (rMerge epsilon r other).1 (rIndex other) = false) ∧
    ((rMerge epsilon r other).2.2 = false ↔ ¬ rIsEmpty (rMerge epsilon r other).2.1) := by
  obtain ⟨hr, ho, hm, hs⟩ := rMergeLoop_facts epsilon other.replaces r other
  rw [rMerge]
  by_cases hc : rIsEmpty (rMergeLoop epsilon other.replaces r other).2
  · rw [if_pos hc]
    refine ⟨hr, ho, fun w hw => hm w hw, hs, fun h => ?_, ?_⟩
    · exact absurd h (by simp)
    · constructor
      · intro h
        exact absurd h (by simp)
      · intro h
        exact absurd hc h
  · rw [if_neg hc]
    refine ⟨by rw [rRemove_ref, hr], ho, ?_, hs, ?_, by simp [hc]⟩
    · intro w hw
      exact hm w (mem_rRemove _ _ _ hw).1
    · intro _
      exact rHits_rRemove_self _ _

theorem Shrinks.keepsEmpty {a b : Replacer} (h : Shrinks a b) : KeepsEmpty a b := by
  refine ⟨h.1, fun he => ?_⟩
  rw [rIsEmpty_iff] at he ⊢
  rcases hb : b.replaces with _ | ⟨w, ws⟩
  · rfl
  · have := h.2 w (by rw [hb]; simp)
    rw [he] at this
    simp at this

theorem rHits_of_empty {r : Replacer} (h : rIsEmpty r = true) (i : Int) :
    rHits r i = false := by
  rw [rIsEmpty_iff] at h
  rw [rHits, h]
  rfl

theorem rHits_false_of_invGt_lt {a b : Replacer} (hb : InvGt b)
    (hlt : a.ref.index < b.ref.index) : rHits b (rIndex a) = false := by
  rw [rHits]
  simp only [List.any_eq_false]
  intro v hv
  have := hb v hv
  rw [rIndex]
  simp only [decide_eq_true_eq]
  omega

/-- The scan fold for one `first` value: the representative is unchanged
and every absorbed member is one of the scanned values, within epsilon. -/
theorem scanFold_facts (epsilon : ℚ) (rest : List GeometryValue) :
    ∀ (r : Replacer),
      ((rest.foldl (fun r other => if other.Equals r.ref epsilon then rHit r other else r)
          r).ref = r.ref) ∧
      ∀ w ∈ (rest.foldl (fun r other => if other.Equals r.ref epsilon then rHit r other else r)
          r).replaces,
        w ∈ r.replaces ∨ (w ∈ rest ∧ r.ref.Equals w epsilon = true) := by
  induction rest with
  | nil => exact fun r => ⟨rfl, fun w hw => Or.inl hw⟩
  | cons o rest ih =>
    intro r
    rw [List.foldl_cons]
    by_cases h : o.Equals r.ref epsilon = true
    · rw [if_pos h]
      obtain ⟨h1, h2⟩ := ih (rHit r o)
      refine ⟨by rw [h1, rHit_ref], ?_⟩
      intro w hw
      rcases h2 w hw with hw' | ⟨hw', he⟩
      · rcases mem_rHit r o w hw' with h' | rfl
        · exact Or.inl h'
        · exact Or.inr ⟨by simp, by rw [gvEquals_symm]; exact h⟩
      · rw [rHit_ref] at he
        exact Or.inr ⟨by simp [hw'], he⟩
    · rw [if_neg h]
      obtain ⟨h1, h2⟩ := ih r
      refine ⟨h1, ?_⟩
      intro w hw
      rcases h2 w hw with hw' | ⟨hw', he⟩
      · exact Or.inl hw'
      · exact Or.inr ⟨by simp [hw'], he⟩

/-- Scan results: each representative is a slice element and every member
is a slice element within epsilon of the representative. -/
theorem scanPass_facts (epsilon : ℚ) :
    ∀ slice : List GeometryValue, ∀ r ∈ scanPass epsilon slice,
      r.ref ∈ slice ∧ ∀ w ∈ r.replaces, w ∈ slice ∧ r.ref.Equals w epsilon = true := by
  intro slice
  induction slice with
  | nil => intro r hr; rw [scanPass] at hr; simp at hr
  | cons v rest ih =>
    intro r hr
    rw [scanPass] at hr
    split at hr
    · obtain ⟨h1, h2⟩ := ih r hr
      exact ⟨List.mem_cons_of_mem _ h1, fun w hw =>
        ⟨List.mem_cons_of_mem _ (h2 w hw).1, (h2 w hw).2⟩⟩
    · rcases List.mem_cons.mp hr with rfl | hr
      · obtain ⟨h1, h2⟩ := scanFold_facts epsilon rest { ref := v }
        refine ⟨by rw [h1]; simp, ?_⟩
        intro w hw
        rcases h2 w hw with hw' | ⟨hw', he⟩
        · simp at hw'
        · refine ⟨List.mem_cons_of_mem _ hw', ?_⟩
          rw [h1]
          exact he
      · obtain ⟨h1, h2⟩ := ih r hr
        exact ⟨List.mem_cons_of_mem _ h1, fun w hw =>
          ⟨List.mem_cons_of_mem _ (h2 w hw).1, (h2 w hw).2⟩⟩

/-- The scanned representatives are a sublist of the slice. -/
theorem scanPass_refs_sublist (epsilon : ℚ) :
    ∀ slice : List GeometryValue,
      ((scanPass epsilon slice).map (fun r => r.ref)).Sublist slice := by
  intro slice
  induction slice with
  | nil => rw [scanPass]; simp
  | cons v rest ih =>
    rw [scanPass]
    split
    · exact ih.cons v
    · rw [List.map_cons]
      have href : (rest.foldl
          (fun (r : Replacer) (other : GeometryValue) =>
            if other.Equals r.ref epsilon then rHit r other else r)
          { ref := v }).ref = v := (scanFold_facts epsilon rest { ref := v }).1
      rw [href]
      exact ih.cons₂ v

theorem forall₂_mem_right {α : Type _} {R : α → α → Prop} :
    ∀ {l l' : List α}, List.Forall₂ R l l' → ∀ b ∈ l', ∃ a ∈ l, R a b := by
  intro l l' h
  induction h with
  | nil => intro b hb; simp at hb
  | cons hab hrest ih =>
    intro b hb
    rcases List.mem_cons.mp hb with rfl | hb
    · exact ⟨_, by simp, hab⟩
    · obtain ⟨a, ha, hR⟩ := ih b hb
      exact ⟨a, by simp [ha], hR⟩

theorem pairwise_of_forall₂_refEq {R : Replacer → Replacer → Prop}
    (href : ∀ a b, R a b → b.ref = a.ref) :
    ∀ {l l' : List Replacer}, List.Forall₂ R l l' →
      l.Pairwise (fun a b => a.ref.index < b.ref.index) →
      l'.Pairwise (fun a b => a.ref.index < b.ref.index) := by
  intro l l' h
  induction h with
  | nil => intro _; exact List.Pairwise.nil
  | cons hab hrest ih =>
    intro hp
    rw [List.pairwise_cons] at hp ⊢
    refine ⟨?_, ih hp.2⟩
    intro b' hb'
    obtain ⟨b, hb, hR⟩ := forall₂_mem_right hrest b' hb'
    rw [href _ _ hR, href _ _ hab]
    exact hp.1 b hb

/-- `mergeOne` basics: `r1`'s representative is unchanged, the processed
tail pointwise shrinks, and `r1` gains only members of tail replacers that
equal its value within epsilon. -/
theorem mergeOne_basic (epsilon : ℚ) :
    ∀ (ss : List Replacer) (r : Replacer),
      (mergeOne epsilon r ss).1.ref = r.ref ∧
      List.Forall₂ Shrinks ss (mergeOne epsilon r ss).2 ∧
      ∀ w ∈ (mergeOne epsilon r ss).1.replaces,
        w ∈ r.replaces ∨ ∃ s ∈ ss, w ∈ s.replaces ∧ r.ref.Equals w epsilon = true := by
  intro ss
  induction ss with
  | nil =>
    intro r
    exact ⟨rfl, List.Forall₂.nil, fun w hw => Or.inl hw⟩
  | cons s ss ih =>
    intro r
    rw [mergeOne]
    by_cases h1 : rIsEmpty s = true
    · rw [if_pos h1]
      obtain ⟨ir, if2, im⟩ := ih r
      refine ⟨ir, List.Forall₂.cons ⟨rfl, fun w hw => hw⟩ if2, ?_⟩
      intro w hw
      rcases im w hw with h | ⟨t, ht, hw', he⟩
      · exact Or.inl h
      · exact Or.inr ⟨t, List.mem_cons_of_mem _ ht, hw', he⟩
    · rw [if_neg h1]
      by_cases h2 : rIndex r = rIndex s
      · rw [if_pos h2]
        obtain ⟨ir, if2, im⟩ := ih r
        refine ⟨ir, List.Forall₂.cons ⟨rfl, fun w hw => hw⟩ if2, ?_⟩
        intro w hw
        rcases im w hw with h | ⟨t, ht, hw', he⟩
        · exact Or.inl h
        · exact Or.inr ⟨t, List.mem_cons_of_mem _ ht, hw', he⟩
      · rw [if_neg h2]
        by_cases h3 : rHits r (rIndex s) = true
        · rw [if_pos h3]
          obtain ⟨qr, qo, qm, qs, _, _⟩ := rMerge_facts epsilon r s
          obtain ⟨ir, if2, im⟩ := ih (rMerge epsilon r s).1
          refine ⟨by rw [ir, qr], List.Forall₂.cons ⟨qo, qs⟩ if2, ?_⟩
          intro w hw
          rcases im w hw with h | ⟨t, ht, hw', he⟩
          · rcases qm w h with h' | ⟨h', he'⟩
            · exact Or.inl h'
            · exact Or.inr ⟨s, by simp, h', he'⟩
          · rw [qr] at he
            exact Or.inr ⟨t, List.mem_cons_of_mem _ ht, hw', he⟩
        · rw [if_neg (by simpa using h3)]
          obtain ⟨ir, if2, im⟩ := ih r
          refine ⟨ir, List.Forall₂.cons ⟨rfl, fun w hw => hw⟩ if2, ?_⟩
          intro w hw
          rcases im w hw with h | ⟨t, ht, hw', he⟩
          · exact Or.inl h
          · exact Or.inr ⟨t, List.mem_cons_of_mem _ ht, hw', he⟩

theorem rHits_eq_false_iff (r : Replacer) (i : Int) :
    rHits r i = false ↔ ∀ v ∈ r.replaces, v.index ≠ i := by
  rw [rHits]
  simp

/-- Key merge-pass fact: after `r1`'s inner loop, no surviving (non-empty)
tail replacer has its own index left in `r1`'s hit list. -/
theorem mergeOne_no_self_hits (epsilon : ℚ) :
    ∀ (ss : List Replacer) (r : Replacer),
      InvGt r → (∀ s ∈ ss, InvGt s) →
      (∀ s ∈ ss, r.ref.index < s.ref.index) →
      ss.Pairwise (fun a b => a.ref.index < b.ref.index) →
      ∀ b ∈ (mergeOne epsilon r ss).2, ¬ rIsEmpty b = true →
        rHits (mergeOne epsilon r ss).1 (rIndex b) = false := by
  intro ss
  induction ss with
  | nil =>
    intro r _ _ _ _ b hb
    rw [mergeOne] at hb
    simp at hb
  | cons s ss ih =>
    intro r hGr hGss hlt hpair b hb hbne
    rw [mergeOne] at hb ⊢
    by_cases h1 : rIsEmpty s = true
    · rw [if_pos h1] at hb ⊢
      rcases List.mem_cons.mp hb with rfl | hb
      · exact absurd h1 hbne
      · exact ih r hGr (fun t ht => hGss t (by simp [ht]))
          (fun t ht => hlt t (by simp [ht])) (List.pairwise_cons.mp hpair).2 b hb hbne
    · rw [if_neg h1] at hb ⊢
      by_cases h2 : rIndex r = rIndex s
      · exact absurd h2 (ne_of_lt (hlt s (by simp)))
      · rw [if_neg h2] at hb ⊢
        by_cases h3 : rHits r (rIndex s) = true
        · rw [if_pos h3] at hb ⊢
          obtain ⟨qr, qo, qm, qs, qrej, qiff⟩ := rMerge_facts epsilon r s
          have hGq1 : InvGt (rMerge epsilon r s).1 := by
            intro w hw
            rw [qr]
            rcases qm w hw with h | ⟨h, _⟩
            · exact hGr w h
            · have h4 := hGss s (by simp) w h
              have h5 := hlt s (by simp)
              omega
          have hGss' : ∀ t ∈ ss, InvGt t := fun t ht => hGss t (by simp [ht])
          have hlt' : ∀ t ∈ ss, (rMerge epsilon r s).1.ref.index < t.ref.index := by
            intro t ht
            rw [qr]
            exact hlt t (by simp [ht])
          have hpair' := (List.pairwise_cons.mp hpair)
          rcases List.mem_cons.mp hb with rfl | hb
          · have hq22 : (rMerge epsilon r s).2.2 = false := qiff.mpr hbne
            have hrej := qrej hq22
            have hidx : rIndex (rMerge epsilon r s).2.1 = rIndex s := by
              rw [rIndex, rIndex, qo]
            rw [hidx, rHits_eq_false_iff]
            intro w hw
            obtain ⟨pr, pf2, pm⟩ := mergeOne_basic epsilon ss (rMerge epsilon r s).1
            rcases pm w hw with h | ⟨t, ht, hw', _⟩
            · exact (rHits_eq_false_iff _ _).mp hrej w h
            · have h4 := hGss' t ht w hw'
              have h5 := hpair'.1 t ht
              rw [rIndex]
              omega
          · exact ih (rMerge epsilon r s).1 hGq1 hGss' hlt' hpair'.2 b hb hbne
        · rw [if_neg (by simpa using h3)] at hb ⊢
          have hpair' := (List.pairwise_cons.mp hpair)
          rcases List.mem_cons.mp hb with rfl | hb
          · rw [rHits_eq_false_iff]
            intro w hw
            obtain ⟨pr, pf2, pm⟩ := mergeOne_basic epsilon ss r
            rcases pm w hw with h | ⟨t, ht, hw', _⟩
            · have h4 : rHits r (rIndex b) = false := by simpa using h3
              exact (rHits_eq_false_iff _ _).mp h4 w h
            · have h4 := hGss t (by simp [ht]) w hw'
              have h5 := hpair'.1 t ht
              rw [rIndex]
              omega
          · exact ih r hGr (fun t ht => hGss t (by simp [ht]))
              (fun t ht => hlt t (by simp [ht])) hpair'.2 b hb hbne

theorem rHits_self_false {r : Replacer} (h : InvGt r) : rHits r (rIndex r) = false :=
  (rHits_eq_false_iff _ _).mpr fun v hv => by
    have := h v hv
    rw [rIndex]
    omega

theorem forall₂_trans_keepsEmpty :
    ∀ {a b c : List Replacer}, List.Forall₂ Shrinks a b → List.Forall₂ KeepsEmpty b c →
      List.Forall₂ KeepsEmpty a c := by
  intro a b c hab
  induction hab generalizing c with
  | nil =>
    intro h
    cases h
    exact .nil
  | cons h1 _ ih =>
    intro hbc
    cases hbc with
    | cons h3 h4 =>
      exact .cons ⟨by rw [h3.1, h1.1], fun he => h3.2 (h1.keepsEmpty.2 he)⟩ (ih h4)

/-- Merge-pass invariants: representatives and emptiness evolve pointwise,
`InvGt` is preserved, members only move between replacers, and afterwards
no non-empty replacer's own index is left in any replacer's hit list. -/
theorem mergePassAux_facts (epsilon : ℚ) :
    ∀ (fuel : Nat) (l : List Replacer), l.length ≤ fuel →
      (∀ r ∈ l, InvGt r) →
      l.Pairwise (fun a b => a.ref.index < b.ref.index) →
      List.Forall₂ KeepsEmpty l (mergePassAux epsilon fuel l) ∧
      (∀ r ∈ mergePassAux epsilon fuel l, InvGt r) ∧
      (∀ r ∈ mergePassAux epsilon fuel l, ∀ w ∈ r.replaces, ∃ a ∈ l, w ∈ a.replaces) ∧
      (∀ r ∈ mergePassAux epsilon fuel l, ∀ s ∈ mergePassAux epsilon fuel l,
        ¬ rIsEmpty s = true → rHits r (rIndex s) = false) := by
  intro fuel
  induction fuel with
  | zero =>
    intro l hlen _ _
    have hnil : l = [] := List.length_eq_zero.mp (Nat.le_zero.mp hlen)
    subst hnil
    exact ⟨List.Forall₂.nil, by simp [mergePassAux], by simp [mergePassAux],
      by simp [mergePassAux]⟩
  | succ fuel ih =>
    intro l hlen hG hpair
    cases l with
    | nil =>
      exact ⟨List.Forall₂.nil, by simp [mergePassAux], by simp [mergePassAux],
        by simp [mergePassAux]⟩
    | cons r rest =>
      have hlen' : rest.length ≤ fuel := by
        simp only [List.length_cons] at hlen
        omega
      have hGrest : ∀ t ∈ rest, InvGt t := fun t ht => hG t (by simp [ht])
      have hpairc := List.pairwise_cons.mp hpair
      rw [mergePassAux]
      by_cases h1 : rIsEmpty r = true
      · rw [if_pos h1]
        obtain ⟨f2, G2, M2, P4⟩ := ih rest hlen' hGrest hpairc.2
        refine ⟨List.Forall₂.cons ⟨rfl, fun h => h⟩ f2, ?_, ?_, ?_⟩
        · intro x hx
          rcases List.mem_cons.mp hx with rfl | hx
          · exact hG x (by simp)
          · exact G2 x hx
        · intro x hx w hw
          rcases List.mem_cons.mp hx with rfl | hx
          · exact ⟨x, by simp, hw⟩
          · obtain ⟨a, ha, hwa⟩ := M2 x hx w hw
            exact ⟨a, by simp [ha], hwa⟩
        · intro x hx y hy hyne
          rcases List.mem_cons.mp hx with rfl | hx
          · exact rHits_of_empty h1 _
          · rcases List.mem_cons.mp hy with rfl | hy
            · exact absurd h1 hyne
            · exact P4 x hx y hy hyne
      · rw [if_neg h1]
        obtain ⟨pr, pf2, pm⟩ := mergeOne_basic epsilon rest r
        have hGp1 : InvGt (mergeOne epsilon r rest).1 := by
          intro w hw
          rw [pr]
          rcases pm w hw with h | ⟨t, ht, hw', _⟩
          · exact hG r (by simp) w h
          · have h4 := hGrest t ht w hw'
            have h5 := hpairc.1 t ht
            omega
        have hG2 : ∀ b ∈ (mergeOne epsilon r rest).2, InvGt b := by
          intro b hb w hw
          obtain ⟨a, ha, hshr⟩ := forall₂_mem_right pf2 b hb
          rw [hshr.1]
          exact hGrest a ha w (hshr.2 w hw)
        have hpair2 : (mergeOne epsilon r rest).2.Pairwise
            (fun a b => a.ref.index < b.ref.index) :=
          pairwise_of_forall₂_refEq (fun a b h => h.1) pf2 hpairc.2
        have hlen2 : (mergeOne epsilon r rest).2.length ≤ fuel := by
          rw [← pf2.length_eq]
          exact hlen'
        obtain ⟨f2, G2, M2, P4⟩ := ih (mergeOne epsilon r rest).2 hlen2 hG2 hpair2
        have hmemrest : ∀ x ∈ mergePassAux epsilon fuel (mergeOne epsilon r rest).2,
            ∃ a ∈ rest, x.ref = a.ref ∧ ∀ w ∈ x.replaces, w ∈ a.replaces ∨
              ∃ t ∈ rest, w ∈ t.replaces := by
          intro x hx
          obtain ⟨b, hb, hke⟩ := forall₂_mem_right f2 x hx
          obtain ⟨a, ha, hshr⟩ := forall₂_mem_right pf2 b hb
          refine ⟨a, ha, by rw [hke.1, hshr.1], ?_⟩
          intro w hw
          obtain ⟨b2, hb2, hwb2⟩ := M2 x hx w hw
          obtain ⟨a2, ha2, hshr2⟩ := forall₂_mem_right pf2 b2 hb2
          exact Or.inr ⟨a2, ha2, hshr2.2 w hwb2⟩
        refine ⟨List.Forall₂.cons ⟨pr, fun he => absurd he h1⟩
          (forall₂_trans_keepsEmpty pf2 f2), ?_, ?_, ?_⟩
        · intro x hx
          rcases List.mem_cons.mp hx with rfl | hx
          · exact hGp1
          · exact G2 x hx
        · intro x hx w hw
          rcases List.mem_cons.mp hx with rfl | hx
          · rcases pm w hw with h | ⟨t, ht, hw', _⟩
            · exact ⟨r, by simp, h⟩
            · exact ⟨t, by simp [ht], hw'⟩
          · obtain ⟨b, hb, hwb⟩ := M2 x hx w hw
            obtain ⟨a, ha, hshr⟩ := forall₂_mem_right pf2 b hb
            exact ⟨a, by simp [ha], hshr.2 w hwb⟩
        · intro x hx y hy hyne
          rcases List.mem_cons.mp hx with rfl | hx
          · rcases List.mem_cons.mp hy with rfl | hy
            · exact rHits_self_false hGp1
            · obtain ⟨b, hb, hke⟩ := forall₂_mem_right f2 y hy
              have hbne : ¬ rIsEmpty b = true := by
                intro hc
                exact hyne (hke.2 hc)
              have := mergeOne_no_self_hits epsilon rest r (hG r (by simp)) hGrest
                hpairc.1 hpairc.2 b hb hbne
              rw [show rIndex y = rIndex b from by rw [rIndex, rIndex, hke.1]]
              exact this
          · rcases List.mem_cons.mp hy with rfl | hy
            · refine rHits_false_of_invGt_lt (G2 x hx) ?_
              obtain ⟨a, ha, hrefeq, _⟩ := hmemrest x hx
              rw [pr, hrefeq]
              exact hpairc.1 a ha
            · exact P4 x hx y hy hyne

theorem shrinks_refl (a : Replacer) : Shrinks a a := ⟨rfl, fun _ hw => hw⟩

theorem shrinks_trans {a b c : Replacer} (h1 : Shrinks a b) (h2 : Shrinks b c) :
    Shrinks a c :=
  ⟨by rw [h2.1, h1.1], fun w hw => h1.2 w (h2.2 w hw)⟩

theorem shrinks_rRemove (r : Replacer) (i : Int) : Shrinks r (rRemove r i) :=
  ⟨rfl, fun _ hw => (mem_rRemove _ _ _ hw).1⟩

theorem forall₂_shrinks_refl : ∀ l : List Replacer, List.Forall₂ Shrinks l l
  | [] => .nil
  | a :: l => .cons (shrinks_refl a) (forall₂_shrinks_refl l)

theorem forall₂_shrinks_trans :
    ∀ {a b c : List Replacer}, List.Forall₂ Shrinks a b → List.Forall₂ Shrinks b c →
      List.Forall₂ Shrinks a c := by
  intro a b c hab
  induction hab generalizing c with
  | nil =>
    intro h
    cases h
    exact .nil
  | cons h1 _ ih =>
    intro hbc
    cases hbc with
    | cons h3 h4 => exact .cons (shrinks_trans h1 h3) (ih h4)

/-- `deduplicate`'s loop only removes members; representatives are kept. -/
theorem dedupLoop_shrinks :
    ∀ (vs : List GeometryValue) (r1 r2 : Replacer),
      Shrinks r1 (dedupLoop vs r1 r2).1 ∧ Shrinks r2 (dedupLoop vs r1 r2).2 := by
  intro vs
  induction vs with
  | nil => exact fun r1 r2 => ⟨shrinks_refl r1, shrinks_refl r2⟩
  | cons value rest ih =>
    intro r1 r2
    rw [dedupLoop]
    by_cases h1 : rHits r1 value.index = true
    · rw [if_pos h1]
      by_cases h2 : r1.ref.Distance value < r2.ref.Distance value
      · rw [if_pos h2]
        obtain ⟨a, b⟩ := ih r1 (rRemove r2 value.index)
        exact ⟨a, shrinks_trans (shrinks_rRemove r2 _) b⟩
      · rw [if_neg h2]
        obtain ⟨a, b⟩ := ih (rRemove r1 value.index) r2
        exact ⟨shrinks_trans (shrinks_rRemove r1 _) a, b⟩
    · rw [if_neg h1]
      exact ih r1 r2

/-- The deduplicate inner loop only removes members. -/
theorem dedupOne_shrinks :
    ∀ (ss : List Replacer) (r1 : Replacer),
      Shrinks r1 (dedupOne r1 ss).1 ∧ List.Forall₂ Shrinks ss (dedupOne r1 ss).2 := by
  intro ss
  induction ss with
  | nil => exact fun r1 => ⟨shrinks_refl r1, .nil⟩
  | cons s ss ih =>
    intro r1
    rw [dedupOne]
    by_cases h1 : rIsEmpty s = true
    · rw [if_pos h1]
      obtain ⟨a, b⟩ := ih r1
      exact ⟨a, .cons (shrinks_refl s) b⟩
    · rw [if_neg h1]
      obtain ⟨a, b⟩ := ih (dedupPair r1 s).1
      obtain ⟨c, d⟩ := dedupLoop_shrinks s.replaces r1 s
      exact ⟨shrinks_trans c a, .cons d b⟩

/-- The deduplicate pass only removes members, pointwise. -/
theorem dedupPassAux_shrinks :
    ∀ (fuel : Nat) (l : List Replacer), List.Forall₂ Shrinks l (dedupPassAux fuel l) := by
  intro fuel
  induction fuel with
  | zero =>
    intro l
    rw [dedupPassAux]
    exact forall₂_shrinks_refl l
  | succ fuel ih =>
    intro l
    cases l with
    | nil =>
      rw [dedupPassAux]
      exact .nil
    | cons r rest =>
      rw [dedupPassAux]
      by_cases h1 : rIsEmpty r = true
      · rw [if_pos h1]
        exact .cons (shrinks_refl r) (ih rest)
      · rw [if_neg h1]
        obtain ⟨a, b⟩ := dedupOne_shrinks rest r
        exact .cons a (forall₂_shrinks_trans b (ih (dedupOne r rest).2))

theorem invEq_of_shrinks {epsilon : ℚ} {a b : Replacer} (h : Shrinks a b)
    (ha : InvEq epsilon a) : InvEq epsilon b := by
  intro w hw
  rw [h.1]
  exact ha w (h.2 w hw)

theorem invGt_of_shrinks {a b : Replacer} (h : Shrinks a b) (ha : InvGt a) : InvGt b := by
  intro w hw
  rw [h.1]
  exact ha w (h.2 w hw)

theorem rHits_false_of_shrinks {a b : Replacer} (h : Shrinks a b) {i : Int}
    (ha : rHits a i = false) : rHits b i = false := by
  rw [rHits_eq_false_iff] at ha ⊢
  intro v hv
  exact ha v (h.2 v hv)

/-- One merge-pass step keeps every replacer's members within epsilon of
its own representative. -/
theorem mergeOne_invEq (epsilon : ℚ) (ss : List Replacer) (r : Replacer)
    (hr : InvEq epsilon r) (hss : ∀ s ∈ ss, InvEq epsilon s) :
    InvEq epsilon (mergeOne epsilon r ss).1 ∧
    ∀ b ∈ (mergeOne epsilon r ss).2, InvEq epsilon b := by
  obtain ⟨h1, h2, h3⟩ := mergeOne_basic epsilon ss r
  constructor
  · intro w hw
    rw [h1]
    rcases h3 w hw with h | ⟨_, _, _, he⟩
    · exact hr w h
    · exact he
  · intro b hb
    obtain ⟨a, ha, hshr⟩ := forall₂_mem_right h2 b hb
    exact invEq_of_shrinks hshr (hss a ha)

/-- The merge pass keeps every replacer's members within epsilon of its
own representative. -/
theorem mergePassAux_invEq (epsilon : ℚ) :
    ∀ (fuel : Nat) (l : List Replacer), (∀ r ∈ l, InvEq epsilon r) →
      ∀ r ∈ mergePassAux epsilon fuel l, InvEq epsilon r := by
  intro fuel
  induction fuel with
  | zero =>
    intro l h
    rw [mergePassAux]
    exact h
  | succ fuel ih =>
    intro l h
    cases l with
    | nil =>
      rw [mergePassAux]
      intro r hr
      simp at hr
    | cons r rest =>
      rw [mergePassAux]
      by_cases h1 : rIsEmpty r = true
      · rw [if_pos h1]
        intro x hx
        rcases List.mem_cons.mp hx with rfl | hx
        · exact h x (by simp)
        · exact ih rest (fun s hs => h s (by simp [hs])) x hx
      · rw [if_neg h1]
        obtain ⟨ha, hb⟩ := mergeOne_invEq epsilon rest r (h r (by simp))
          (fun s hs => h s (by simp [hs]))
        intro x hx
        rcases List.mem_cons.mp hx with rfl | hx
        · exact ha
        · exact ih (mergeOne epsilon r rest).2 hb x hx

/-- Every member of a surviving duplicate group is within epsilon of the
group's representative: values only group under representatives they are
directly equal to within tolerance. -/
theorem findDuplicates_invEq (epsilon : ℚ) (slice : List GeometryValue) :
    ∀ r ∈ findDuplicates epsilon slice, InvEq epsilon r := by
  intro r hr
  rw [findDuplicates] at hr
  by_cases h0 : (scanPass epsilon slice).isEmpty = true
  · rw [if_pos h0] at hr
    simp at hr
  · rw [if_neg h0] at hr
    have hscan : ∀ s ∈ scanPass epsilon slice, InvEq epsilon s := by
      intro s hs w hw
      exact ((scanPass_facts epsilon slice s hs).2 w hw).2
    have hmerge := mergePassAux_invEq epsilon (scanPass epsilon slice).length
      (scanPass epsilon slice) hscan
    obtain ⟨a, ha, hshr⟩ := forall₂_mem_right
      (dedupPassAux_shrinks
        (mergePassAux epsilon (scanPass epsilon slice).length (scanPass epsilon slice)).length
        (mergePassAux epsilon (scanPass epsilon slice).length (scanPass epsilon slice)))
      r (List.mem_filter.mp hr).1
    exact invEq_of_shrinks hshr (hmerge a ha)

/-- The scan fold for `first = v` absorbs only later values. -/
theorem scanFold_invGt (epsilon : ℚ) (rest : List GeometryValue) (v : GeometryValue)
    (hlt : ∀ w ∈ rest, v.index < w.index) :
    InvGt (rest.foldl (fun r other => if other.Equals r.ref epsilon then rHit r other else r)
      { ref := v }) := by
  intro w hw
  obtain ⟨h1, h2⟩ := scanFold_facts epsilon rest { ref := v }
  rw [h1]
  rcases h2 w hw with h | ⟨h, _⟩
  · simp at h
  · exact hlt w h

/-- With strictly increasing slice indices, every scan group absorbs only
values of strictly larger index than its representative. -/
theorem scanPass_invGt (epsilon : ℚ) :
    ∀ slice : List GeometryValue,
      slice.Pairwise (fun a b => a.index < b.index) →
      ∀ r ∈ scanPass epsilon slice, InvGt r := by
  intro slice
  induction slice with
  | nil =>
    intro _ r hr
    rw [scanPass] at hr
    simp at hr
  | cons v rest ih =>
    intro hp r hr
    have hpc := List.pairwise_cons.mp hp
    rw [scanPass] at hr
    split at hr
    · exact ih hpc.2 r hr
    · rcases List.mem_cons.mp hr with rfl | hr
      · exact scanFold_invGt epsilon rest v hpc.1
      · exact ih hpc.2 r hr

/-- With strictly increasing slice indices, the scan output is ordered by
representative index. -/
theorem scanPass_pairwise (epsilon : ℚ) (slice : List GeometryValue)
    (hp : slice.Pairwise (fun a b => a.index < b.index)) :
    (scanPass epsilon slice).Pairwise (fun a b => a.ref.index < b.ref.index) := by
  have hsub := scanPass_refs_sublist epsilon slice
  have h2 := List.Pairwise.sublist hsub hp
  exact List.Pairwise.of_map (fun r => r.ref) (fun a b h => h) h2

/-- `findDuplicates` on a slice with strictly increasing indices: every
surviving group is non-empty, absorbs only later slice values, has its
representative in the slice, and no surviving group's representative index
is in any surviving group's absorbed set. -/
theorem findDuplicates_facts (epsilon : ℚ) (slice : List GeometryValue)
    (hp : slice.Pairwise (fun a b => a.index < b.index)) :
    ∀ r ∈ findDuplicates epsilon slice,
      InvGt r ∧ ¬ rIsEmpty r = true ∧ r.ref ∈ slice ∧
      (∀ w ∈ r.replaces, w ∈ slice) ∧
      (∀ s ∈ findDuplicates epsilon slice, rHits r (rIndex s) = false) := by
  have hSI := scanPass_invGt epsilon slice hp
  have hSP := scanPass_pairwise epsilon slice hp
  obtain ⟨F2, G2, M2, P4⟩ := mergePassAux_facts epsilon (scanPass epsilon slice).length
    (scanPass epsilon slice) (Nat.le_refl _) hSI hSP
  have hD := dedupPassAux_shrinks
    (mergePassAux epsilon (scanPass epsilon slice).length (scanPass epsilon slice)).length
    (mergePassAux epsilon (scanPass epsilon slice).length (scanPass epsilon slice))
  intro r hr
  rw [findDuplicates] at hr
  by_cases h0 : (scanPass epsilon slice).isEmpty = true
  · rw [if_pos h0] at hr
    simp at hr
  · rw [if_neg h0] at hr
    have hr1 := List.mem_filter.mp hr
    obtain ⟨a, haM, hshr⟩ := forall₂_mem_right hD r hr1.1
    have hne : ¬ rIsEmpty r = true := by simpa using hr1.2
    refine ⟨invGt_of_shrinks hshr (G2 a haM), hne, ?_, ?_, ?_⟩
    · obtain ⟨s0, hs0, hke⟩ := forall₂_mem_right F2 a haM
      rw [hshr.1, hke.1]
      exact (scanPass_facts epsilon slice s0 hs0).1
    · intro w hw
      obtain ⟨s0, hs0, hws0⟩ := M2 a haM w (hshr.2 w hw)
      exact ((scanPass_facts epsilon slice s0 hs0).2 w hws0).1
    · intro s hs
      rw [findDuplicates] at hs
      rw [if_neg h0] at hs
      have hs1 := List.mem_filter.mp hs
      obtain ⟨b, hbM, hshrb⟩ := forall₂_mem_right hD s hs1.1
      have hsne : ¬ rIsEmpty s = true := by simpa using hs1.2
      have hbne : ¬ rIsEmpty b = true := fun hc => hsne (hshrb.keepsEmpty.2 hc)
      have h4 := P4 a haM b hbM hbne
      have hidx : rIndex s = rIndex b := by rw [rIndex, rIndex, hshrb.1]
      rw [hidx]
      exact rHits_false_of_shrinks hshr h4

/-- **C3** (amended): the merge fold moves a member of `r2` into `r1` only
when `r1` already absorbed it or it is itself within epsilon of `r1`'s
value, and an incomplete merge removes `r2`'s own index from `r1`'s
absorbed set; consequently every member of a surviving duplicate group is
directly within epsilon of the group's *representative* — so `A` and `C`
with `A ̸≈ C` are never grouped with one as the other's representative.
The original claim's stronger reading — that `A` and `C` are never in the
same surviving group at all — is refuted by
`transitive_pair_shares_group`: both can be absorbed by a common middle
value `B`. -/
theorem no_transitive_merge :
    (∀ (epsilon : ℚ) (r other : Replacer),
      (∀ w ∈ (rMerge epsilon r other).1.replaces,
        w ∈ r.replaces ∨ (w ∈ other.replaces ∧ r.ref.Equals w epsilon = true)) ∧
      ((rMerge epsilon r other).2.2 = false →
        rHits (rMerge epsilon r other).1 (rIndex other) = false)) ∧
    (∀ (epsilon : ℚ) (slice : List GeometryValue),
      ∀ r ∈ findDuplicates epsilon slice, ∀ w ∈ r.replaces,
        r.ref.Equals w epsilon = true) := by
  refine ⟨fun epsilon r other =>
    ⟨(rMerge_facts epsilon r other).2.2.1, (rMerge_facts epsilon r other).2.2.2.2.1⟩, ?_⟩
  exact fun epsilon slice => findDuplicates_invEq epsilon slice

/-- **C3 counterexample**: with ε = 1 and input `[B, A, C]` where
`A ≈ B`, `B ≈ C` but `A ̸≈ C`, the engine's unique surviving group is
`{B ↦ [A, C]}` — `A` and `C` *are* in the same surviving duplicate group
(under the middle representative `B`), refuting the claim that values not
directly within epsilon of each other are never in the same group. -/
theorem transitive_pair_shares_group :
    c3A.Equals c3B 1 = true ∧ c3B.Equals c3C 1 = true ∧
    c3A.Equals c3C 1 = false ∧
    findDuplicates 1 [c3B, c3A, c3C] = [c3Group] := by
  with_unfolding_all decide

/-- **C1** (amended): the claim's concrete scenario holds end to end — on
the parsed document with Position channel `[(0,0,0), (1e-7,0,0), (5,5,5)]`
and ε = 1e-6, the engine forms the single group `(0,0,0) ↦ [value @2]`,
exactly two values survive (`(0,0,0)` at index 1 and `(5,5,5)` reindexed
to 2), and the face's three declarations resolve to effective indices
`1, 1, 2`, each pointing at the corresponding survivor.  The claim's
universal clause — *every* within-ε pair leaves exactly one survivor — is
refuted by `within_epsilon_pair_both_survive` (a merge chain can leave
both members of a within-ε pair alive). -/
theorem duplicates_pipeline_scenario :
    findDuplicates (1/1000000) [c1V1, c1V2, c1V3] = [c1GroupA] ∧
    geomView c1Out.geometry ObjType.Vertex = [c1SurvA, c1SurvB] ∧
    c1Out.objects.map (fun o => o.vertexData.map (fun vd =>
      vd.decls.map (fun d => declIndex c1Out.geometry d ObjType.Vertex))) = [[[1, 1, 2]]] ∧
    c1Out.objects.map (fun o => o.vertexData.map (fun vd =>
      vd.decls.map (fun d => d.refVertex.bind
        (fun p => (geomGet c1Out.geometry ObjType.Vertex).get? p)))) =
      [[[some c1SurvA, some c1SurvA, some c1SurvB]]] := by
  refine ⟨?_, ?_, ?_, ?_⟩ <;> with_unfolding_all rfl

/-- **C1 counterexample**: on the chain document
`[(0,0,0), (1,0,0), (2,0,0)]` with ε = 1, the first two values are within
ε of each other yet *both* survive the Duplicates processor: the scan
groups `1↦[2]` and `2↦[3]` force an incomplete merge that empties the
first group, so the value at index 2 is never replaced.  This refutes the
claim's universal clause that exactly one of every within-ε pair
survives. -/
theorem within_epsilon_pair_both_survive :
    chV1 ∈ geomView chOut.geometry ObjType.Vertex ∧
    chV2 ∈ geomView chOut.geometry ObjType.Vertex ∧
    chV1 ≠ chV2 ∧ chV1.Equals chV2 1 = true := by
  with_unfolding_all decide

end DuplicateEngine

section C4Pipeline

theorem denseArena_get? {A : List GeometryValue} (hA : DenseArena A) {p : Nat}
    {v : GeometryValue} (h : A.get? p = some v) :
    v.index = (p : Int) + 1 ∧ v.discard = false := by
  obtain ⟨hlt, hv⟩ := List.get?_eq_some.mp h
  have h2 := hA ⟨p, hlt⟩
  rw [hv] at h2
  exact h2

theorem denseArena_pairwise {A : List GeometryValue} (hA : DenseArena A) :
    A.Pairwise (fun a b => a.index < b.index) := by
  rw [List.pairwise_iff_get]
  intro i j hij
  have hi := (hA i).1
  have hj := (hA j).1
  have hlt : (i : Int) < (j : Int) := by exact_mod_cast hij
  omega

theorem lookupFlat_some_mem {m : List (Int × GeometryValue)} {k : Int}
    {c : GeometryValue} (h : lookupFlat m k = some c) : (k, c) ∈ m := by
  rw [lookupFlat, Option.map_eq_some'] at h
  obtain ⟨e, hfind, hc⟩ := h
  have hmem := List.mem_of_find?_eq_some hfind
  have hpred := List.find?_some hfind
  simp only [decide_eq_true_eq] at hpred
  cases e with
  | mk k2 c2 =>
    simp only at hc hpred
    rw [hpred, hc] at hmem
    exact hmem

theorem lookupFlat_none_iff {m : List (Int × GeometryValue)} {k : Int} :
    lookupFlat m k = none ↔ ∀ e ∈ m, e.1 ≠ k := by
  rw [lookupFlat, Option.map_eq_none', List.find?_eq_none]
  simp

theorem innerFold_mem (c : GeometryValue) :
    ∀ (vs : List GeometryValue) (out : List (Int × GeometryValue))
      (e : Int × GeometryValue),
      e ∈ vs.foldl (fun out v => out.filter (fun p => p.1 ≠ v.index) ++ [(v.index, c)]) out →
      e ∈ out ∨ ∃ w ∈ vs, w.index = e.1 ∧ e.2 = c := by
  intro vs
  induction vs with
  | nil =>
    intro out e he
    exact Or.inl he
  | cons v vs ih =>
    intro out e he
    rw [List.foldl_cons] at he
    rcases ih _ e he with h | ⟨w, hw, h1, h2⟩
    · rcases List.mem_append.mp h with h | h
      · exact Or.inl (List.mem_filter.mp h).1
      · rw [List.mem_singleton] at h
        subst h
        exact Or.inr ⟨v, by simp, rfl, rfl⟩
    · exact Or.inr ⟨w, by simp [hw], h1, h2⟩

theorem outerFold_mem :
    ∀ (rl : List Replacer) (out : List (Int × GeometryValue))
      (e : Int × GeometryValue),
      e ∈ rl.foldl (fun out r => r.replaces.foldl
        (fun out v => out.filter (fun p => p.1 ≠ v.index) ++ [(v.index, r.ref)]) out) out →
      e ∈ out ∨ ∃ r ∈ rl, e.2 = r.ref ∧ ∃ w ∈ r.replaces, w.index = e.1 := by
  intro rl
  induction rl with
  | nil =>
    intro out e he
    exact Or.inl he
  | cons r rl ih =>
    intro out e he
    rw [List.foldl_cons] at he
    rcases ih _ e he with h | ⟨r2, hr2, h1, h2⟩
    · rcases innerFold_mem r.ref r.replaces out e h with h | ⟨w, hw, h1, h2⟩
      · exact Or.inl h
      · exact Or.inr ⟨r, by simp, h2, w, hw, h1⟩
    · exact Or.inr ⟨r2, by simp [hr2], h1, h2⟩

/-- Every entry of the flat map is an absorbed value's index mapped to its
group's representative. -/
theorem flattenGeometry_mem (rl : List Replacer) (e : Int × GeometryValue)
    (he : e ∈ flattenGeometry rl) :
    ∃ r ∈ rl, e.2 = r.ref ∧ ∃ w ∈ r.replaces, w.index = e.1 := by
  rcases outerFold_mem rl [] e he with h | h
  · simp at h
  · exact h

/-- The flat map of the duplicate groups of a dense channel is good: keys
are valid indices and no canonical value's own index is a key. -/
theorem goodMap_flatten (epsilon : ℚ) (A : List GeometryValue) (hA : DenseArena A) :
    GoodMap A (flattenGeometry (findDuplicates epsilon A)) := by
  have hfd := findDuplicates_facts epsilon A (denseArena_pairwise hA)
  intro k c hl
  obtain ⟨r, hr, hc, w, hw, hwk⟩ := flattenGeometry_mem _ _ (lookupFlat_some_mem hl)
  obtain ⟨hGt, hne, href, hmem, hP4⟩ := hfd r hr
  refine ⟨?_, ?_, ?_, ?_⟩
  · obtain ⟨n, hn⟩ := List.get?_of_mem (hmem w hw)
    have hi := (denseArena_get? hA hn).1
    simp only at hwk
    omega
  · rw [lookupFlat_none_iff]
    intro e2 he2 hek
    obtain ⟨r2, hr2, _, w2, hw2, hwk2⟩ := flattenGeometry_mem _ e2 he2
    have h4 := (hfd r2 hr2).2.2.2.2 r hr
    rw [rHits_eq_false_iff] at h4
    refine h4 w2 hw2 ?_
    rw [hwk2, hek]
    simp only at hc
    rw [hc, rIndex]
  · obtain ⟨n, hn⟩ := List.get?_of_mem href
    have hi := (denseArena_get? hA hn).1
    simp only at hc
    rw [hc]
    omega
  · obtain ⟨n, hn⟩ := List.get?_of_mem href
    have hi := (denseArena_get? hA hn).1
    have hlt := (List.get?_eq_some.mp hn).1
    simp only at hc
    rw [hc, hi]
    omega

theorem marked_refl (m : List (Int × GeometryValue)) (A : List GeometryValue) :
    Marked m A A :=
  ⟨rfl, fun _ => Or.inl rfl⟩

/-- `discardAt` at a position whose value's index is a key keeps the
marking invariant. -/
theorem marked_discardAt {m : List (Int × GeometryValue)} {A B : List GeometryValue}
    (hM : Marked m A B) (p : Nat) (v : GeometryValue)
    (hv : A.get? p = some v) (hk : lookupFlat m v.index ≠ none) :
    Marked m A (discardAt B (some p)) := by
  rw [discardAt]
  rcases hb : B.get? p with _ | w
  · exact hM
  · dsimp only
    refine ⟨by rw [List.length_set]; exact hM.1, ?_⟩
    intro q
    by_cases hq : p = q
    · subst hq
      have hlt : p < B.length := (List.get?_eq_some.mp hb).1
      have hget : (B.set p { w with discard := true }).get? p =
          some { w with discard := true } := List.get?_set_eq_of_lt _ hlt
      rcases hM.2 p with h | ⟨v0, hv0, hb0, hk0⟩
      · rw [hb, hv] at h
        have hwv : w = v := Option.some_injective _ h
        rw [hwv] at hget ⊢
        exact Or.inr ⟨v, hv, hget, hk⟩
      · rw [hv] at hv0
        have hv0e : v = v0 := Option.some_injective _ hv0
        rw [hb] at hb0
        have hwe : w = { v0 with discard := true } := Option.some_injective _ hb0
        refine Or.inr ⟨v, hv, ?_, hk⟩
        rw [hget, hwe, hv0e]
    · have hne : (B.set p { w with discard := true }).get? q = B.get? q :=
        List.get?_set_ne _ _ hq
      rw [hne]
      exact hM.2 q

/-- A position whose index is not a key of the flat map is never
discarded by the rewrite. -/
theorem marked_get_nonkey {m : List (Int × GeometryValue)} {A B : List GeometryValue}
    (hA : DenseArena A) (hM : Marked m A B) {q : Nat} {v : GeometryValue}
    (hq : A.get? q = some v) (hnk : lookupFlat m ((q : Int) + 1) = none) :
    B.get? q = some v := by
  rcases hM.2 q with h | ⟨v0, hv0, _, hk0⟩
  · rw [h, hq]
  · exfalso
    rw [hq] at hv0
    obtain rfl : v = v0 := Option.some_injective _ hv0
    rw [(denseArena_get? hA hq).1] at hk0
    exact hk0 hnk

/-- One declaration of `replaceDuplicates`: the marking invariant is kept
and the output declaration steps correctly on channel `t` while leaving
the other channels alone. -/
theorem replaceDecl_step (t : ObjType) (ht : t ∈ fourTypes)
    (m : List (Int × GeometryValue)) (A B : List GeometryValue) (d : Declaration)
    (hA : DenseArena A) (hM : Marked m A B) (hG : GoodMap A m)
    (hd : ChannelOK A (rawOf d t) (refOf d t)) :
    Marked m A (replaceDecl t m B d).1 ∧ DStep m A t d (replaceDecl t m B d).2 := by
  have hfour : t = ObjType.Vertex ∨ t = ObjType.UV ∨ t = ObjType.Normal ∨
      t = ObjType.Param := by
    simpa [fourTypes, or_comm, or_left_comm] using ht
  rcases hfour with rfl | rfl | rfl | rfl
  · simp only [replaceDecl]
    rcases hl : lookupFlat m d.vertex with _ | c
    · dsimp only
      refine ⟨hM, ?_, rfl, fun t2 _ => ⟨rfl, rfl⟩⟩
      intro hraw
      obtain ⟨h1, h2, h3⟩ := hd.2 hraw
      have hra : rawOf d ObjType.Vertex = d.vertex := rfl
      refine ⟨(rawOf d ObjType.Vertex - 1).toNat, h3, by omega, ?_⟩
      have heq : (((rawOf d ObjType.Vertex - 1).toNat : Int) + 1) =
          rawOf d ObjType.Vertex := by omega
      rw [heq, hra]
      exact hl
    · dsimp only
      obtain ⟨hk1, hknone, hc1, hcle⟩ := hG d.vertex c hl
      have hra : rawOf d ObjType.Vertex = d.vertex := rfl
      have hraw : rawOf d ObjType.Vertex ≠ 0 := by omega
      obtain ⟨h1, h2, h3⟩ := hd.2 hraw
      have hplt : (rawOf d ObjType.Vertex - 1).toNat < A.length := by omega
      rcases hv : A.get? ((rawOf d ObjType.Vertex - 1).toNat) with _ | v
      · rw [List.get?_eq_none] at hv
        omega
      · have hvi := (denseArena_get? hA hv).1
        refine ⟨?_, ?_, rfl, ?_⟩
        · have h3' : d.refVertex = some (rawOf d ObjType.Vertex - 1).toNat := h3
          rw [h3']
          refine marked_discardAt hM _ v hv ?_
          have hvi2 : v.index = d.vertex := by omega
          rw [hvi2, hl]
          simp
        · intro _
          refine ⟨(c.index - 1).toNat, rfl, by omega, ?_⟩
          have heq : (((c.index - 1).toNat : Int) + 1) = c.index := by omega
          rw [heq]
          exact hknone
        · intro t2 ht2
          cases t2 <;> first | exact absurd rfl ht2 | exact ⟨rfl, rfl⟩
  · simp only [replaceDecl]
    rcases hl : lookupFlat m d.uv with _ | c
    · dsimp only
      refine ⟨hM, ?_, rfl, fun t2 _ => ⟨rfl, rfl⟩⟩
      intro hraw
      obtain ⟨h1, h2, h3⟩ := hd.2 hraw
      have hra : rawOf d ObjType.UV = d.uv := rfl
      refine ⟨(rawOf d ObjType.UV - 1).toNat, h3, by omega, ?_⟩
      have heq : (((rawOf d ObjType.UV - 1).toNat : Int) + 1) =
          rawOf d ObjType.UV := by omega
      rw [heq, hra]
      exact hl
    · dsimp only
      obtain ⟨hk1, hknone, hc1, hcle⟩ := hG d.uv c hl
      have hra : rawOf d ObjType.UV = d.uv := rfl
      have hraw : rawOf d ObjType.UV ≠ 0 := by omega
      obtain ⟨h1, h2, h3⟩ := hd.2 hraw
      have hplt : (rawOf d ObjType.UV - 1).toNat < A.length := by omega
      rcases hv : A.get? ((rawOf d ObjType.UV - 1).toNat) with _ | v
      · rw [List.get?_eq_none] at hv
        omega
      · have hvi := (denseArena_get? hA hv).1
        refine ⟨?_, ?_, rfl, ?_⟩
        · have h3' : d.refUV = some (rawOf d ObjType.UV - 1).toNat := h3
          rw [h3']
          refine marked_discardAt hM _ v hv ?_
          have hvi2 : v.index = d.uv := by omega
          rw [hvi2, hl]
          simp
        · intro _
          refine ⟨(c.index - 1).toNat, rfl, by omega, ?_⟩
          have heq : (((c.index - 1).toNat : Int) + 1) = c.index := by omega
          rw [heq]
          exact hknone
        · intro t2 ht2
          cases t2 <;> first | exact absurd rfl ht2 | exact ⟨rfl, rfl⟩
  · simp only [replaceDecl]
    rcases hl : lookupFlat m d.normal with _ | c
    · dsimp only
      refine ⟨hM, ?_, rfl, fun t2 _ => ⟨rfl, rfl⟩⟩
      intro hraw
      obtain ⟨h1, h2, h3⟩ := hd.2 hraw
      have hra : rawOf d ObjType.Normal = d.normal := rfl
      refine ⟨(rawOf d ObjType.Normal - 1).toNat, h3, by omega, ?_⟩
      have heq : (((rawOf d ObjType.Normal - 1).toNat : Int) + 1) =
          rawOf d ObjType.Normal := by omega
      rw [heq, hra]
      exact hl
    · dsimp only
      obtain ⟨hk1, hknone, hc1, hcle⟩ := hG d.normal c hl
      have hra : rawOf d ObjType.Normal = d.normal := rfl
      have hraw : rawOf d ObjType.Normal ≠ 0 := by omega
      obtain ⟨h1, h2, h3⟩ := hd.2 hraw
      have hplt : (rawOf d ObjType.Normal - 1).toNat < A.length := by omega
      rcases hv : A.get? ((rawOf d ObjType.Normal - 1).toNat) with _ | v
      · rw [List.get?_eq_none] at hv
        omega
      · have hvi := (denseArena_get? hA hv).1
        refine ⟨?_, ?_, rfl, ?_⟩
        · have h3' : d.refNormal = some (rawOf d ObjType.Normal - 1).toNat := h3
          rw [h3']
          refine marked_discardAt hM _ v hv ?_
          have hvi2 : v.index = d.normal := by omega
          rw [hvi2, hl]
          simp
        · intro _
          refine ⟨(c.index - 1).toNat, rfl, by omega, ?_⟩
          have heq : (((c.index - 1).toNat : Int) + 1) = c.index := by omega
          rw [heq]
          exact hknone
        · intro t2 ht2
          cases t2 <;> first | exact absurd rfl ht2 | exact ⟨rfl, rfl⟩
  · simp only [replaceDecl]
    refine ⟨hM, ?_, rfl, fun t2 _ => ⟨rfl, rfl⟩⟩
    intro hraw
    exact absurd rfl hraw

theorem replaceDecls_step (t : ObjType) (ht : t ∈ fourTypes)
    (m : List (Int × GeometryValue)) (A : List GeometryValue)
    (hA : DenseArena A) (hG : GoodMap A m) :
    ∀ (ds : List Declaration) (B : List GeometryValue), Marked m A B →
      (∀ d ∈ ds, ChannelOK A (rawOf d t) (refOf d t)) →
      Marked m A (replaceDecls t m B ds).1 ∧
      List.Forall₂ (DStep m A t) ds (replaceDecls t m B ds).2 := by
  intro ds
  induction ds with
  | nil =>
    intro B hM _
    rw [replaceDecls]
    exact ⟨hM, .nil⟩
  | cons d ds ih =>
    intro B hM hok
    rw [replaceDecls]
    obtain ⟨hM1, hD1⟩ := replaceDecl_step t ht m A B d hA hM hG (hok d (by simp))
    obtain ⟨hM2, hF2⟩ := ih (replaceDecl t m B d).1 hM1
      (fun d2 hd2 => hok d2 (by simp [hd2]))
    exact ⟨hM2, .cons hD1 hF2⟩

theorem replaceVDs_step (t : ObjType) (ht : t ∈ fourTypes)
    (m : List (Int × GeometryValue)) (A : List GeometryValue)
    (hA : DenseArena A) (hG : GoodMap A m) :
    ∀ (vds : List VertexData) (B : List GeometryValue), Marked m A B →
      (∀ vd ∈ vds, vd.vtype = ObjType.Face) →
      (∀ vd ∈ vds, ∀ d ∈ vd.decls, ChannelOK A (rawOf d t) (refOf d t)) →
      Marked m A (replaceVDs t m B vds).1 ∧
      List.Forall₂ (VStep m A t) vds (replaceVDs t m B vds).2 := by
  intro vds
  induction vds with
  | nil =>
    intro B hM _ _
    rw [replaceVDs]
    exact ⟨hM, .nil⟩
  | cons vd vds ih =>
    intro B hM hfaces hoks
    rw [replaceVDs, if_pos (hfaces vd (by simp))]
    obtain ⟨hM1, hF1⟩ := replaceDecls_step t ht m A hA hG vd.decls B hM
      (hoks vd (by simp))
    obtain ⟨hM2, hF2⟩ := ih (replaceDecls t m B vd.decls).1 hM1
      (fun v2 h2 => hfaces v2 (by simp [h2]))
      (fun v2 h2 => hoks v2 (by simp [h2]))
    exact ⟨hM2, .cons ⟨rfl, hF1⟩ hF2⟩

theorem replaceObjs_step (t : ObjType) (ht : t ∈ fourTypes)
    (m : List (Int × GeometryValue)) (A : List GeometryValue)
    (hA : DenseArena A) (hG : GoodMap A m) :
    ∀ (objs : List Object) (B : List GeometryValue), Marked m A B →
      (∀ o ∈ objs, ∀ vd ∈ o.vertexData, vd.vtype = ObjType.Face) →
      (∀ o ∈ objs, ∀ vd ∈ o.vertexData, ∀ d ∈ vd.decls,
        ChannelOK A (rawOf d t) (refOf d t)) →
      Marked m A (replaceObjs t m B objs).1 ∧
      List.Forall₂ (OStep m A t) objs (replaceObjs t m B objs).2 := by
  intro objs
  induction objs with
  | nil =>
    intro B hM _ _
    rw [replaceObjs]
    exact ⟨hM, .nil⟩
  | cons o objs ih =>
    intro B hM hfaces hoks
    rw [replaceObjs]
    obtain ⟨hM1, hF1⟩ := replaceVDs_step t ht m A hA hG o.vertexData B hM
      (hfaces o (by simp)) (hoks o (by simp))
    obtain ⟨hM2, hF2⟩ := ih (replaceVDs t m B o.vertexData).1 hM1
      (fun o2 h2 => hfaces o2 (by simp [h2]))
      (fun o2 h2 => hoks o2 (by simp [h2]))
    exact ⟨hM2, .cons hF1 hF2⟩

theorem geomGet_set_ne (g : Geometry) (t t2 : ObjType) (l : List GeometryValue)
    (h : t2 ≠ t) : geomGet (geomSet g t l) t2 = geomGet g t2 := by
  cases t <;> cases t2 <;> first | exact absurd rfl h | rfl

theorem geomGet_set_same (g : Geometry) (t : ObjType) (l : List GeometryValue)
    (ht : t ∈ fourTypes) : geomGet (geomSet g t l) t = l := by
  have hfour : t = ObjType.Vertex ∨ t = ObjType.UV ∨ t = ObjType.Normal ∨
      t = ObjType.Param := by
    simpa [fourTypes, or_comm, or_left_comm] using ht
  rcases hfour with rfl | rfl | rfl | rfl <;> rfl

/-- One step of the duplicate-search loop establishes `SafeCh` for its
channel and preserves the invariants and safety of the others. -/
theorem dupStep_facts (epsilon : ℚ) (t : ObjType) (ht : t ∈ fourTypes) (o : OBJ)
    (hpre : PreCh o t) (hface : FaceOnly o) :
    SafeCh (dupStep epsilon o t) t ∧ FaceOnly (dupStep epsilon o t) ∧
    (∀ t2, t2 ≠ t →
      geomGet (dupStep epsilon o t).geometry t2 = geomGet o.geometry t2) ∧
    (∀ t2, t2 ≠ t → PreCh o t2 → PreCh (dupStep epsilon o t) t2) ∧
    (∀ t2, t2 ≠ t → SafeCh o t2 → SafeCh (dupStep epsilon o t) t2) := by
  rw [dupStep]
  by_cases hempty : (geomGet o.geometry t).isEmpty = true
  · rw [if_pos hempty]
    refine ⟨?_, hface, fun _ _ => rfl, fun _ _ h => h, fun _ _ h => h⟩
    intro obj hobj vd hvd d hd hraw
    obtain ⟨h1, h2, _⟩ := (hpre.2 obj hobj vd hvd d hd).2 hraw
    rw [List.isEmpty_iff_length_eq_zero] at hempty
    omega
  · rw [if_neg hempty]
    rw [replaceDuplicates]
    obtain ⟨hMf, hOf⟩ := replaceObjs_step t ht
      (flattenGeometry (findDuplicates epsilon (geomGet o.geometry t)))
      (geomGet o.geometry t) hpre.1
      (goodMap_flatten epsilon (geomGet o.geometry t) hpre.1)
      o.objects (geomGet o.geometry t) (marked_refl _ _) hface hpre.2
    have harena : ∀ t2, t2 ≠ t →
        geomGet (geomSet o.geometry t
          (replaceObjs t (flattenGeometry (findDuplicates epsilon (geomGet o.geometry t)))
            (geomGet o.geometry t) o.objects).1) t2 = geomGet o.geometry t2 :=
      fun t2 h2 => geomGet_set_ne _ _ _ _ h2
    refine ⟨?_, ?_, harena, ?_, ?_⟩
    · intro obj2 hobj2 vd2 hvd2 d2 hd2 hraw
      obtain ⟨obj, hobj, hO⟩ := forall₂_mem_right hOf obj2 hobj2
      obtain ⟨vd, hvd, hV⟩ := forall₂_mem_right hO vd2 hvd2
      obtain ⟨d, hd, hD⟩ := forall₂_mem_right hV.2 d2 hd2
      obtain ⟨q, hq, hqlt, hqnk⟩ := hD.1 hraw
      rcases hv : (geomGet o.geometry t).get? q with _ | v
      · rw [List.get?_eq_none] at hv
        omega
      · have hlive := marked_get_nonkey hpre.1 hMf hv hqnk
        obtain ⟨hvi, hvd0⟩ := denseArena_get? hpre.1 hv
        refine ⟨q, v, hq, ?_, hvd0, hvi⟩
        rw [geomGet_set_same _ _ _ ht]
        exact hlive
    · intro obj2 hobj2 vd2 hvd2
      obtain ⟨obj, hobj, hO⟩ := forall₂_mem_right hOf obj2 hobj2
      obtain ⟨vd, hvd, hV⟩ := forall₂_mem_right hO vd2 hvd2
      rw [hV.1]
      exact hface obj hobj vd hvd
    · intro t2 h2 hpre2
      refine ⟨by rw [harena t2 h2]; exact hpre2.1, ?_⟩
      intro obj2 hobj2 vd2 hvd2 d2 hd2
      obtain ⟨obj, hobj, hO⟩ := forall₂_mem_right hOf obj2 hobj2
      obtain ⟨vd, hvd, hV⟩ := forall₂_mem_right hO vd2 hvd2
      obtain ⟨d, hd, hD⟩ := forall₂_mem_right hV.2 d2 hd2
      obtain ⟨hraw2, href2⟩ := hD.2.2 t2 h2
      rw [harena t2 h2, hraw2, href2]
      exact hpre2.2 obj hobj vd hvd d hd
    · intro t2 h2 hsafe2
      intro obj2 hobj2 vd2 hvd2 d2 hd2 hraw
      obtain ⟨obj, hobj, hO⟩ := forall₂_mem_right hOf obj2 hobj2
      obtain ⟨vd, hvd, hV⟩ := forall₂_mem_right hO vd2 hvd2
      obtain ⟨d, hd, hD⟩ := forall₂_mem_right hV.2 d2 hd2
      obtain ⟨hraw2, href2⟩ := hD.2.2 t2 h2
      rw [hraw2] at hraw
      obtain ⟨q, v, hq, hv, hvd0, hvi⟩ := hsafe2 obj hobj vd hvd d hd hraw
      refine ⟨q, v, by rw [href2]; exact hq, ?_, hvd0, hvi⟩
      rw [harena t2 h2]
      exact hv

/-- The visible (non-discarded) part of a compacted channel is indexed
`n+1, n+2, …` in order. -/
theorem compactArenaAux_view :
    ∀ (l : List GeometryValue) (n i : Nat) (v : GeometryValue),
      ((compactArenaAux n l).filter (fun u => !u.discard)).get? i = some v →
      v.index = (n : Int) + (i : Int) + 1 := by
  intro l
  induction l with
  | nil =>
    intro n i v h
    rw [compactArenaAux] at h
    simp at h
  | cons gv rest ih =>
    intro n i v h
    rw [compactArenaAux] at h
    by_cases hd : gv.discard = true
    · rw [if_pos hd] at h
      rw [List.filter_cons] at h
      simp only [hd, Bool.not_true, if_neg] at h
      exact ih n i v (by simpa using h)
    · rw [if_neg hd] at h
      rw [List.filter_cons] at h
      have hb : (!({ gv with index := (n : Int) + 1 } : GeometryValue).discard) = true := by
        simp only [Bool.not_eq_true] at hd
        simp [hd]
      rw [if_pos (by rw [hb])] at h
      cases i with
      | zero =>
        rw [List.get?_cons_zero] at h
        have hv := Option.some_injective _ h
        rw [← hv]
        simp
      | succ i =>
        rw [List.get?_cons_succ] at h
        have := ih (n + 1) i v h
        push_cast at this ⊢
        omega

/-- A live value keeps its position under compaction and its new index is
its position in the visible channel plus one. -/
theorem compactArenaAux_get :
    ∀ (l : List GeometryValue) (n p : Nat) (v : GeometryValue),
      l.get? p = some v → v.discard = false →
      ∃ (v2 : GeometryValue) (k : Nat),
        (compactArenaAux n l).get? p = some v2 ∧ v2.discard = false ∧
        v2.index = (n : Int) + (k : Int) + 1 ∧
        ((compactArenaAux n l).filter (fun u => !u.discard)).get? k = some v2 := by
  intro l
  induction l with
  | nil =>
    intro n p v h _
    simp at h
  | cons gv rest ih =>
    intro n p v h hdisc
    rw [compactArenaAux]
    by_cases hd : gv.discard = true
    · rw [if_pos hd]
      cases p with
      | zero =>
        rw [List.get?_cons_zero] at h
        have hv := Option.some_injective _ h
        rw [← hv] at hdisc
        rw [hd] at hdisc
        exact absurd hdisc (by simp)
      | succ p =>
        rw [List.get?_cons_succ] at h
        obtain ⟨v2, k, h1, h2, h3, h4⟩ := ih n p v h hdisc
        refine ⟨v2, k, by rw [List.get?_cons_succ]; exact h1, h2, h3, ?_⟩
        rw [List.filter_cons]
        simp only [hd, Bool.not_true, if_neg]
        simpa using h4
    · rw [if_neg hd]
      cases p with
      | zero =>
        rw [List.get?_cons_zero] at h
        refine ⟨{ gv with index := (n : Int) + 1 }, 0, by rw [List.get?_cons_zero], ?_, by simp, ?_⟩
        · simp only [Bool.not_eq_true] at hd
          simp [hd]
        · rw [List.filter_cons]
          have hb : (!({ gv with index := (n : Int) + 1 } : GeometryValue).discard) = true := by
            simp only [Bool.not_eq_true] at hd
            simp [hd]
          rw [if_pos (by rw [hb])]
          rw [List.get?_cons_zero]
      | succ p =>
        rw [List.get?_cons_succ] at h
        obtain ⟨v2, k, h1, h2, h3, h4⟩ := ih (n + 1) p v h hdisc
        refine ⟨v2, k + 1, by rw [List.get?_cons_succ]; exact h1, h2, by push_cast at h3 ⊢; omega, ?_⟩
        rw [List.filter_cons]
        have hb : (!({ gv with index := (n : Int) + 1 } : GeometryValue).discard) = true := by
          simp only [Bool.not_eq_true] at hd
          simp [hd]
        rw [if_pos (by rw [hb])]
        rw [List.get?_cons_succ]
        exact h4

/-- `Declaration.Index` through a set reference. -/
theorem declIndex_ref (g : Geometry) (d : Declaration) (t : ObjType) (q : Nat)
    (v : GeometryValue)
    (ht : t = ObjType.Vertex ∨ t = ObjType.UV ∨ t = ObjType.Normal)
    (href : refOf d t = some q) (hget : (geomGet g t).get? q = some v) :
    declIndex g d t = v.index := by
  rcases ht with rfl | rfl | rfl
  · have href2 : d.refVertex = some q := href
    have hget2 : g.vertices.get? q = some v := hget
    rw [List.get?_eq_getElem?] at hget2
    simp [declIndex, href2, hget2]
  · have href2 : d.refUV = some q := href
    have hget2 : g.uvs.get? q = some v := hget
    rw [List.get?_eq_getElem?] at hget2
    simp [declIndex, href2, hget2]
  · have href2 : d.refNormal = some q := href
    have hget2 : g.normals.get? q = some v := hget
    rw [List.get?_eq_getElem?] at hget2
    simp [declIndex, href2, hget2]

/-- `Declaration.Index` depends only on the declaration and its own
channel. -/
theorem declIndex_channel_eq (g1 g2 : Geometry) (d : Declaration) (t : ObjType)
    (h : geomGet g1 t = geomGet g2 t) : declIndex g1 d t = declIndex g2 d t := by
  cases t <;> first
    | rfl
    | (simp only [declIndex]
       rw [show g1.vertices = g2.vertices from h])
    | (simp only [declIndex]
       rw [show g1.uvs = g2.uvs from h])
    | (simp only [declIndex]
       rw [show g1.normals = g2.normals from h])

theorem compactStep_geom (o : OBJ) (t t2 : ObjType) (h2 : t2 ≠ t) :
    geomGet (compactStep o t).geometry t2 = geomGet o.geometry t2 :=
  geomGet_set_ne _ _ _ _ h2

/-- Compacting a channel whose references are all safe yields the final
density-and-resolution property for that channel. -/
theorem compactStep_final (o : OBJ) (t : ObjType) (ht : t ∈ fourTypes)
    (hsafe : SafeCh o t) : FinalCh (compactStep o t) t := by
  have harena : geomGet (compactStep o t).geometry t =
      compactArena (geomGet o.geometry t) := geomGet_set_same _ _ _ ht
  constructor
  · intro i v h
    rw [geomView, harena] at h
    have hview := compactArenaAux_view (geomGet o.geometry t) 0 i v h
    push_cast at hview ⊢
    omega
  · intro obj hobj vd hvd d hd hraw
    have hobj' : obj ∈ o.objects := hobj
    obtain ⟨q, v, hq, hv, hdisc, _⟩ := hsafe obj hobj' vd hvd d hd hraw
    obtain ⟨v2, k, h1, h2, h3, h4⟩ := compactArenaAux_get (geomGet o.geometry t) 0 q v hv hdisc
    have hT : t = ObjType.Vertex ∨ t = ObjType.UV ∨ t = ObjType.Normal ∨
        t = ObjType.Param := by
      simpa [fourTypes, or_comm, or_left_comm] using ht
    rcases hT with hT3 | hT3 | hT3 | hT3
    rotate_right
    · exfalso
      rw [hT3] at hraw
      exact absurd rfl hraw
    all_goals {
      refine ⟨q, v2, k, hq, by rw [harena]; exact h1, h2, ?_, ?_,
        by push_cast at h3 ⊢; omega⟩
      · refine declIndex_ref _ _ _ q v2 (by rw [hT3]; simp) hq ?_
        rw [harena]
        exact h1
      · rw [geomView, harena]
        exact h4
    }

theorem compactStep_pres_safe (o : OBJ) (t t2 : ObjType) (h2 : t2 ≠ t)
    (hs : SafeCh o t2) : SafeCh (compactStep o t) t2 := by
  intro obj hobj vd hvd d hd hraw
  obtain ⟨q, v, hq, hv, hd0, hvi⟩ := hs obj hobj vd hvd d hd hraw
  refine ⟨q, v, hq, ?_, hd0, hvi⟩
  rw [compactStep_geom o t t2 h2]
  exact hv

theorem compactStep_pres_final (o : OBJ) (t t2 : ObjType) (h2 : t2 ≠ t)
    (hf : FinalCh o t2) : FinalCh (compactStep o t) t2 := by
  have hg := compactStep_geom o t t2 h2
  constructor
  · intro i v h
    apply hf.1 i v
    rw [geomView]
    rw [geomView, hg] at h
    exact h
  · intro obj hobj vd hvd d hd hraw
    obtain ⟨q, v, k, hq, hv, hd0, hdi, hvk, hvi⟩ := hf.2 obj hobj vd hvd d hd hraw
    refine ⟨q, v, k, hq, by rw [hg]; exact hv, hd0, ?_, ?_, hvi⟩
    · rw [declIndex_channel_eq _ o.geometry d t2 hg]
      exact hdi
    · rw [geomView, hg]
      rw [geomView] at hvk
      exact hvk

/-- The full pipeline on a well-parsed Face-only document: every channel
ends densely indexed with safe references. -/
theorem duplicatesExecute_final (epsilon : ℚ) (doc : OBJ)
    (hpre : ∀ t ∈ fourTypes, PreCh doc t) (hface : FaceOnly doc) :
    ∀ t ∈ fourTypes, FinalCh (duplicatesExecute epsilon doc) t := by
  have hmV : ObjType.Vertex ∈ fourTypes := by simp [fourTypes]
  have hmN : ObjType.Normal ∈ fourTypes := by simp [fourTypes]
  have hmU : ObjType.UV ∈ fourTypes := by simp [fourTypes]
  have hmP : ObjType.Param ∈ fourTypes := by simp [fourTypes]
  have s1 := dupStep_facts epsilon ObjType.Vertex hmV doc (hpre _ hmV) hface
  set o1 := dupStep epsilon doc ObjType.Vertex with ho1
  have s2 := dupStep_facts epsilon ObjType.Normal hmN o1
    (s1.2.2.2.1 ObjType.Normal (by decide) (hpre _ hmN)) s1.2.1
  set o2 := dupStep epsilon o1 ObjType.Normal with ho2
  have s3 := dupStep_facts epsilon ObjType.UV hmU o2
    (s2.2.2.2.1 ObjType.UV (by decide)
      (s1.2.2.2.1 ObjType.UV (by decide) (hpre _ hmU))) s2.2.1
  set o3 := dupStep epsilon o2 ObjType.UV with ho3
  have s4 := dupStep_facts epsilon ObjType.Param hmP o3
    (s3.2.2.2.1 ObjType.Param (by decide)
      (s2.2.2.2.1 ObjType.Param (by decide)
        (s1.2.2.2.1 ObjType.Param (by decide) (hpre _ hmP)))) s3.2.1
  set o4 := dupStep epsilon o3 ObjType.Param with ho4
  have hSV : SafeCh o4 ObjType.Vertex :=
    s4.2.2.2.2 _ (by decide) (s3.2.2.2.2 _ (by decide) (s2.2.2.2.2 _ (by decide) s1.1))
  have hSN : SafeCh o4 ObjType.Normal :=
    s4.2.2.2.2 _ (by decide) (s3.2.2.2.2 _ (by decide) s2.1)
  have hSU : SafeCh o4 ObjType.UV := s4.2.2.2.2 _ (by decide) s3.1
  have hSP : SafeCh o4 ObjType.Param := s4.1
  have f1 : FinalCh (compactStep o4 ObjType.Vertex) ObjType.Vertex :=
    compactStep_final o4 _ hmV hSV
  set c1 := compactStep o4 ObjType.Vertex with hc1
  have f2 : FinalCh (compactStep c1 ObjType.Normal) ObjType.Normal :=
    compactStep_final c1 _ hmN (compactStep_pres_safe o4 _ _ (by decide) hSN)
  set c2 := compactStep c1 ObjType.Normal with hc2
  have f12 : FinalCh c2 ObjType.Vertex := compactStep_pres_final c1 _ _ (by decide) f1
  have f3 : FinalCh (compactStep c2 ObjType.UV) ObjType.UV :=
    compactStep_final c2 _ hmU (compactStep_pres_safe c1 _ _ (by decide)
      (compactStep_pres_safe o4 _ _ (by decide) hSU))
  set c3 := compactStep c2 ObjType.UV with hc3
  have f13 : FinalCh c3 ObjType.Vertex := compactStep_pres_final c2 _ _ (by decide) f12
  have f23 : FinalCh c3 ObjType.Normal := compactStep_pres_final c2 _ _ (by decide) f2
  have f4 : FinalCh (compactStep c3 ObjType.Param) ObjType.Param :=
    compactStep_final c3 _ hmP (compactStep_pres_safe c2 _ _ (by decide)
      (compactStep_pres_safe c1 _ _ (by decide)
        (compactStep_pres_safe o4 _ _ (by decide) hSP)))
  set c4 := compactStep c3 ObjType.Param with hc4
  have f14 : FinalCh c4 ObjType.Vertex := compactStep_pres_final c3 _ _ (by decide) f13
  have f24 : FinalCh c4 ObjType.Normal := compactStep_pres_final c3 _ _ (by decide) f23
  have f34 : FinalCh c4 ObjType.UV := compactStep_pres_final c3 _ _ (by decide) f3
  have hE : duplicatesExecute epsilon doc = c4 := by
    rw [hc4, hc3, hc2, hc1, ho4, ho3, ho2, ho1]
    rfl
  intro t htT
  have hT : t = ObjType.Vertex ∨ t = ObjType.Normal ∨ t = ObjType.UV ∨
      t = ObjType.Param := by
    simpa [fourTypes] using htT
  rw [hE]
  rcases hT with rfl | rfl | rfl | rfl
  · exact f14
  · exact f24
  · exact f34
  · exact f4

/-- **C4**: on a well-parsed Face-only document (dense per-channel arenas,
consistent declaration references), after the full Duplicates pipeline
every channel's visible array — the non-discarded values in their
original relative order — is indexed exactly `1..N` (the value at
position `i` has stored index `i + 1`), and every declaration with a
non-zero raw channel index references a live value whose effective index
(`Declaration.Index`) equals its stored index, which in turn matches its
position in the visible channel. -/
theorem compaction_density_and_references (epsilon : ℚ) (doc : OBJ)
    (hpre : ∀ t ∈ fourTypes, PreCh doc t) (hface : FaceOnly doc) :
    (∀ t ∈ fourTypes, ∀ (i : Nat) (v : GeometryValue),
      (geomView (duplicatesExecute epsilon doc).geometry t).get? i = some v →
        v.index = (i : Int) + 1) ∧
    (∀ t ∈ fourTypes, ∀ obj ∈ (duplicatesExecute epsilon doc).objects,
      ∀ vd ∈ obj.vertexData, ∀ d ∈ vd.decls, rawOf d t ≠ 0 →
        ∃ (q : Nat) (v : GeometryValue) (k : Nat),
          refOf d t = some q ∧
          (geomGet (duplicatesExecute epsilon doc).geometry t).get? q = some v ∧
          v.discard = false ∧
          declIndex (duplicatesExecute epsilon doc).geometry d t = v.index ∧
          (geomView (duplicatesExecute epsilon doc).geometry t).get? k = some v ∧
          v.index = (k : Int) + 1) := by
  have h := duplicatesExecute_final epsilon doc hpre hface
  exact ⟨fun t ht => (h t ht).1, fun t ht => (h t ht).2⟩

/-- Witness for C4 on `c4Doc` with ε = 1/2: the parse invariants hold and
the pipeline's conclusion follows. -/
theorem compaction_density_and_references_witness :
    ((∀ t ∈ fourTypes, PreCh c4Doc t) ∧ FaceOnly c4Doc) ∧
    (∀ t ∈ fourTypes, ∀ (i : Nat) (v : GeometryValue),
      (geomView (duplicatesExecute (1/2) c4Doc).geometry t).get? i = some v →
        v.index = (i : Int) + 1) ∧
    (∀ t ∈ fourTypes, ∀ obj ∈ (duplicatesExecute (1/2) c4Doc).objects,
      ∀ vd ∈ obj.vertexData, ∀ d ∈ vd.decls, rawOf d t ≠ 0 →
        ∃ (q : Nat) (v : GeometryValue) (k : Nat),
          refOf d t = some q ∧
          (geomGet (duplicatesExecute (1/2) c4Doc).geometry t).get? q = some v ∧
          v.discard = false ∧
          declIndex (duplicatesExecute (1/2) c4Doc).geometry d t = v.index ∧
          (geomView (duplicatesExecute (1/2) c4Doc).geometry t).get? k = some v ∧
          v.index = (k : Int) + 1) :=
  ⟨⟨by with_unfolding_all decide, by with_unfolding_all decide⟩,
   (compaction_density_and_references (1/2) c4Doc (by with_unfolding_all decide)
     (by with_unfolding_all decide)).1,
   (compaction_density_and_references (1/2) c4Doc (by with_unfolding_all decide)
     (by with_unfolding_all decide)).2⟩

end C4Pipeline

section WriterDeterminism

/-- **C8** (amended): the writer is deterministic *given the clock
reading*: the output stream is the provenance comment line — which embeds
the formatted `time.Now().UTC()` — followed by chunks that are a function
of the document alone.  Two runs on byte-identical input and identical
configuration therefore produce byte-identical output only from the
second chunk on; full byte-identity fails because the first line changes
with the wall clock, as `writer_embeds_timestamp` shows. -/
theorem writer_determinism_modulo_timestamp :
    (∀ (obj : OBJ) (ts1 ts2 : String),
      (writeTo obj ts1).drop 1 = (writeTo obj ts2).drop 1) ∧
    (∀ (obj : OBJ) (ts : String),
      (writeTo obj ts).head? = some (writeLineS ObjType.Comment
        ("Processed with " ++ applicationName ++ " " ++ getVersionNoDate ++ " | " ++ ts ++
          " | " ++ applicationURL))) :=
  ⟨fun _ _ _ => rfl, fun _ _ => rfl⟩

/-- **C8 counterexample**: two runs one second apart on the same (empty)
document produce different byte streams — the provenance comment includes
the wall-clock time, so the program is not deterministic at its external
interface. -/
theorem writer_embeds_timestamp :
    writeTo c8Doc "2017-09-01T00:00:00Z" ≠ writeTo c8Doc "2017-09-01T00:00:01Z" := by
  with_unfolding_all decide

end WriterDeterminism

/-- Witness for C2 at a concrete input: `a = (0,0,3,0)`, `b = (0,0,0,0)`,
`ε = 2`, so `Δz = 3 = 1.5·ε` and the pair is not merged. -/
theorem duplicates_equality_componentwise_witness :
    (0 : ℚ) < 2 ∧
    ((GeometryValue.Equals ⟨1, false, 0, 0, 3, 0⟩ ⟨2, false, 0, 0, 0, 0⟩ 2 = true ↔
        withinEpsilon ⟨1, false, 0, 0, 3, 0⟩ ⟨2, false, 0, 0, 0, 0⟩ 2) ∧
      ((0 : ℚ) = 0 → (0 : ℚ) = 0 → (0 : ℚ) = 0 → |(3 : ℚ) - 0| = 3 / 2 * 2 →
        GeometryValue.Equals ⟨1, false, 0, 0, 3, 0⟩ ⟨2, false, 0, 0, 0, 0⟩ 2 = false) ∧
      GeometryValue.Distance ⟨1, false, 0, 0, 3, 0⟩ ⟨2, false, 0, 0, 0, 0⟩ =
        ((0 : ℚ) - 0) * ((0 : ℚ) - 0) + ((0 : ℚ) - 0) * ((0 : ℚ) - 0) +
          ((3 : ℚ) - 0) * ((3 : ℚ) - 0)) :=
  ⟨by norm_num,
   duplicates_equality_componentwise ⟨1, false, 0, 0, 3, 0⟩ ⟨2, false, 0, 0, 0, 0⟩ 2
     (by norm_num)⟩

end ObjSimplify
